import Mathlib

/-!
HVAC monitoring gateway: shared buffer, data manager, connection manager.

A shallow embedding of the C sources (`sbuffer.c`, `datamgr.c`, `sensor_db.c`,
`connmgr.c`, `lib/dplist.c`, `config.h`) and theorems about them.

Conventions of the embedding.
* A pointer is an `Option`: `none` is `NULL`.  Heap nodes of the shared buffer
  live in a finite map from addresses (`Nat`) to nodes; `malloc` hands out the
  address `brk` and increments it, `free` erases the cell.
* A function whose C execution would dereference `NULL` or a freed node has
  result `none` (undefined behaviour); otherwise `some result`.
* `sensor_value_t` (a C `double`) is taken as an exact rational.
-/

namespace HVAC

/-! ## config.h -/

abbrev READER_THREADS : Nat := 2

abbrev RUN_AVG_LENGTH : Nat := 5

abbrev MAX_CONN : Nat := 5

/-- The struct `sensor_data_t` of `config.h`. -/
structure sensor_data_t where
  id : Nat
  value : ℚ
  ts : Int
deriving DecidableEq

instance : Inhabited sensor_data_t := ⟨⟨0, 0, 0⟩⟩

/-! ## sbuffer.h / sbuffer.c -/

def SBUFFER_FAILURE : Int := -1

def SBUFFER_SUCCESS : Int := 0

def SBUFFER_NO_DATA : Int := 1

def SBUFFER_NODE_ALREADY_CONSUMED : Int := 2

/-- The struct `sbuffer_data`: a reading and one consumption mark per reader. -/
structure sbuffer_data_t where
  data : sensor_data_t
  read_by : Fin READER_THREADS → Int

/-- The struct `sbuffer_node`: `next` is an address or `NULL`. -/
structure sbuffer_node_t where
  next : Option Nat
  element : sbuffer_data_t

/-- The struct `sbuffer` (fields `head`, `tail`) together with the heap its nodes
live in: `cell a` is the node allocated at address `a`, `brk` the next address
`malloc` returns.  The lock is not modelled: every operation is atomic. -/
structure sbuffer_t where
  head : Option Nat
  tail : Option Nat
  cell : Nat → Option sbuffer_node_t
  brk : Nat

/-- Result of `sbuffer_init`: an empty buffer on an empty heap. -/
def sbuffer_init : Option sbuffer_t :=
  some { head := none, tail := none, cell := fun _ => none, brk := 0 }

/-- The static helper `_is_read_by_all`: 0 as soon as one mark is 0, else 1. -/
def _is_read_by_all (node : sbuffer_node_t) : Int :=
  if ∃ i : Fin READER_THREADS, node.element.read_by i = 0 then 0 else 1

/-- What a call of `sbuffer_remove` leaves behind: return code, buffer, and the
value written through `data` (`none`: nothing is written). -/
structure remove_result where
  ret : Int
  buffer : Option sbuffer_t
  data : Option sensor_data_t

/-- The function `sbuffer_remove` (sbuffer.c 118-138). -/
def sbuffer_remove (buffer : Option sbuffer_t) : Option remove_result :=
  match buffer with
  | none => some ⟨SBUFFER_FAILURE, none, none⟩
  | some b =>
    match b.head with
    | none => some ⟨SBUFFER_NO_DATA, some b, none⟩
    | some dummy =>
      if b.head = b.tail then
        -- buffer has only one node
        match b.cell dummy with
        | none => none
        | some _ =>
          some ⟨SBUFFER_SUCCESS,
            some { b with head := none, tail := none,
                          cell := Function.update b.cell dummy none }, none⟩
      else
        -- buffer has many nodes
        match b.cell dummy with
        | none => none
        | some hn =>
          some ⟨SBUFFER_SUCCESS,
            some { b with head := hn.next,
                          cell := Function.update b.cell dummy none }, none⟩

/-- What a call of `sbuffer_pop` leaves behind: return code, buffer, the
caller's cursor `*node_ptr`, and the value written through `data`. -/
structure pop_result where
  ret : Int
  buffer : Option sbuffer_t
  node : Option Nat
  data : Option sensor_data_t

/-- Lines 165-166 of `sbuffer_pop`: choose the node to treat. -/
def pop_select (b : sbuffer_t) (h : Nat) (node : Option Nat)
    (readby : Fin READER_THREADS) : Option (Option Nat) :=
  match b.cell h with
  | none => none
  | some hn =>
    if hn.element.read_by readby = 0 then some (some h)
    else
      match node with
      | none => some none
      | some c =>
        match b.cell c with
        | none => none
        | some cn =>
          if cn.element.read_by readby = 1 ∧ cn.next ≠ none then some cn.next
          else some (some c)

/-- Lines 175-195 of `sbuffer_pop`: copy the reading, set the mark, remove the
head when the treated node is read by all, else step to the successor. -/
def pop_consume (b : sbuffer_t) (node : Option Nat)
    (readby : Fin READER_THREADS) : Option pop_result :=
  match node with
  | none => none
  | some c =>
    match b.cell c with
    | none => none
    | some cn =>
      let cn1 : sbuffer_node_t :=
        { cn with element := { cn.element with
            read_by := Function.update cn.element.read_by readby 1 } }
      let b1 : sbuffer_t := { b with cell := Function.update b.cell c (some cn1) }
      if _is_read_by_all cn1 ≠ 0 then
        match sbuffer_remove (some b1) with
        | none => none
        | some r => some ⟨SBUFFER_SUCCESS, r.buffer, none, some cn.element.data⟩
      else if cn1.next ≠ none then
        some ⟨SBUFFER_SUCCESS, some b1, cn1.next, some cn.element.data⟩
      else
        some ⟨SBUFFER_SUCCESS, some b1, some c, some cn.element.data⟩

/-- The function `sbuffer_pop` (sbuffer.c 140-196). -/
def sbuffer_pop (buffer : Option sbuffer_t) (node : Option Nat)
    (readby : Fin READER_THREADS) : Option pop_result :=
  match buffer with
  | none => some ⟨SBUFFER_FAILURE, none, node, none⟩
  | some b =>
    match b.head with
    | none => some ⟨SBUFFER_NO_DATA, some b, none, none⟩
    | some h =>
      -- buffer->tail != NULL && buffer->tail->element.read_by[readby] == 1
      match (match b.tail with
             | none => some false
             | some t =>
               match b.cell t with
               | none => none
               | some tn => some (decide (tn.element.read_by readby = 1))) with
      | none => none
      | some true => some ⟨SBUFFER_NO_DATA, some b, b.tail, none⟩
      | some false =>
        -- *node == buffer->head && _is_read_by_all(*node)
        match (if node = some h then
                 match b.cell h with
                 | none => none
                 | some hn => some (decide (_is_read_by_all hn ≠ 0), hn.next)
               else some (false, none)) with
        | none => none
        | some (true, nxt) =>
          match sbuffer_remove (some b) with
          | none => none
          | some r => some ⟨SBUFFER_NODE_ALREADY_CONSUMED, r.buffer, nxt, none⟩
        | some (false, _) =>
          match pop_select b h node readby with
          | none => none
          | some node1 => pop_consume b node1 readby

/-- The function `sbuffer_insert` (sbuffer.c 198-234); `malloc_ok = false` is
the case in which `malloc` returns `NULL`. -/
def sbuffer_insert (buffer : Option sbuffer_t) (data : sensor_data_t)
    (malloc_ok : Bool) : Option (Int × Option sbuffer_t) :=
  match buffer with
  | none => some (SBUFFER_FAILURE, none)
  | some b =>
    if malloc_ok = false then some (SBUFFER_FAILURE, some b)
    else
      let dummy := b.brk
      let nn : sbuffer_node_t := { next := none, element := { data := data, read_by := fun _ => 0 } }
      let b1 : sbuffer_t := { b with cell := Function.update b.cell dummy (some nn), brk := b.brk + 1 }
      match b1.tail with
      | none => some (SBUFFER_SUCCESS, some { b1 with head := some dummy, tail := some dummy })
      | some t =>
        match b1.cell t with
        | none => none
        | some tn =>
          some (SBUFFER_SUCCESS,
            some { b1 with cell := Function.update b1.cell t (some { tn with next := some dummy }),
                           tail := some dummy })

/-- The traversal of `_sbuffer_print_content`: the addresses of the nodes met
from `p` following `next`, at most `fuel` of them. -/
def chain_from (cell : Nat → Option sbuffer_node_t) : Nat → Option Nat → List Nat
  | 0, _ => []
  | _ + 1, none => []
  | fuel + 1, some p =>
    match cell p with
    | none => []
    | some n => p :: chain_from cell fuel n.next

/-- The addresses of the nodes held by the buffer, head first. -/
def sbuffer_chain (b : sbuffer_t) : List Nat :=
  chain_from b.cell b.brk b.head

/-- The nodes held by the buffer, head first. -/
def sbuffer_nodes (b : sbuffer_t) : List sbuffer_node_t :=
  (sbuffer_chain b).filterMap b.cell

/-! ## The shared buffer under atomic operations

The producer (connection manager) inserts, each reader (data manager with
index 0, storage manager with index 1) pops with its own cursor `node` and its
own local `data` and `sbuffer_res`, as in `datamgr_parse_sensor_data` and
`storagemgr_parse_sensor_data`.  The fields `inserted` and `delivered` record
the history: the readings inserted so far and the readings each reader has
processed (the value of its `data` after a pop that returned `SBUFFER_SUCCESS`). -/

/-- One atomic operation on the shared buffer. -/
inductive sb_op where
  | insert (d : sensor_data_t)
  | pop (r : Fin READER_THREADS)

/-- The shared buffer with the readers' locals and the history. -/
structure sb_sys where
  buffer : Option sbuffer_t
  node : Fin READER_THREADS → Option Nat
  data : Fin READER_THREADS → sensor_data_t
  sbuffer_res : Fin READER_THREADS → Int
  inserted : List sensor_data_t
  delivered : Fin READER_THREADS → List sensor_data_t

/-- State after `sbuffer_init` in `main`, readers not yet started
(`void * node = NULL; int sbuffer_res = SBUFFER_SUCCESS;`). -/
def sb_init : sb_sys :=
  { buffer := sbuffer_init, node := fun _ => none, data := fun _ => default,
    sbuffer_res := fun _ => SBUFFER_SUCCESS, inserted := [], delivered := fun _ => [] }

/-- Effect of a call `sbuffer_res = sbuffer_pop(*buffer, &node, &data, readby)` on
the system, given the result of the call. -/
def sb_after_pop (s : sb_sys) (r : Fin READER_THREADS) (p : pop_result) : sb_sys :=
  let d : sensor_data_t := match p.data with
    | none => s.data r
    | some v => v
  { s with buffer := p.buffer,
           node := Function.update s.node r p.node,
           data := Function.update s.data r d,
           sbuffer_res := Function.update s.sbuffer_res r p.ret,
           delivered := if p.ret = SBUFFER_SUCCESS
                        then Function.update s.delivered r (s.delivered r ++ [d])
                        else s.delivered }

/-- One atomic step; `none` when the operation has undefined behaviour. -/
def sb_step (s : sb_sys) : sb_op → Option sb_sys
  | sb_op.insert d =>
    match sbuffer_insert s.buffer d true with
    | none => none
    | some (ret, b) =>
      some { s with buffer := b,
                    inserted := if ret = SBUFFER_SUCCESS then s.inserted ++ [d] else s.inserted }
  | sb_op.pop r =>
    match sbuffer_pop s.buffer (s.node r) r with
    | none => none
    | some p => some (sb_after_pop s r p)

/-- Run a sequence of atomic operations from a state. -/
def sb_run_from : sb_sys → List sb_op → Option sb_sys
  | s, [] => some s
  | s, op :: rest =>
    match sb_step s op with
    | none => none
    | some s1 => sb_run_from s1 rest

/-- Run a sequence of atomic operations from the initial state. -/
def sb_run (ops : List sb_op) : Option sb_sys :=
  sb_run_from sb_init ops

/-! ### The buffer determined by a history

`abs_buffer ins cnt` is the buffer after the readings `ins` have been inserted
and reader `r` has consumed the first `cnt r` of them: node `k` lives at address
`k`, and the nodes below the least count have been freed. -/

/-- Least consumption count over the readers. -/
def abs_lo (cnt : Fin READER_THREADS → Nat) : Nat :=
  min (cnt 0) (cnt 1)

/-- Node of the `k`-th inserted reading. -/
def abs_node (ins : List sensor_data_t) (cnt : Fin READER_THREADS → Nat) (k : Nat) :
    sbuffer_node_t :=
  { next := if k + 1 < ins.length then some (k + 1) else none,
    element := { data := ins.getD k default,
                 read_by := fun r => if k < cnt r then 1 else 0 } }

/-- Buffer after inserting `ins` with consumption counts `cnt`. -/
def abs_buffer (ins : List sensor_data_t) (cnt : Fin READER_THREADS → Nat) : sbuffer_t :=
  { head := if abs_lo cnt < ins.length then some (abs_lo cnt) else none,
    tail := if abs_lo cnt < ins.length then some (ins.length - 1) else none,
    cell := fun k => if abs_lo cnt ≤ k ∧ k < ins.length then some (abs_node ins cnt k) else none,
    brk := ins.length }

/-- Number of readings delivered to each reader. -/
def sb_count (s : sb_sys) (r : Fin READER_THREADS) : Nat :=
  (s.delivered r).length

/-- Admissible cursor of a reader that has consumed `c` of `n` readings, the
least count being `lo`: `NULL` only when it is the slowest, else the node it
read last or the first one it has not read. -/
def cursor_ok (lo n c : Nat) : Option Nat → Prop
  | none => c = lo
  | some p => p + 1 = c ∨ (p = c ∧ c < n)

/-- Invariant of the reachable states. -/
def sb_inv (s : sb_sys) : Prop :=
  s.buffer = some (abs_buffer s.inserted (sb_count s)) ∧
  (∀ r, s.delivered r = s.inserted.take (sb_count s r)) ∧
  (∀ r, sb_count s r ≤ s.inserted.length) ∧
  (∀ r, cursor_ok (abs_lo (sb_count s)) s.inserted.length (sb_count s r) (s.node r))

/-! ### Well-formed buffers -/

/-- Following `next` from `p` visits exactly the addresses `ids`, each an
allocated node, and then reaches `NULL`. -/
def is_chain (cell : Nat → Option sbuffer_node_t) : Option Nat → List Nat → Prop
  | p, [] => p = none
  | p, a :: rest => p = some a ∧ ∃ n, cell a = some n ∧ is_chain cell n.next rest

/-- Well-formed buffer with node addresses `ids`: the chain from `head` is `ids`
and ends at `NULL`, `tail` is its last node (both `NULL` when it is empty), and
no allocated address is at or above `brk`. -/
def sbuffer_wf (b : sbuffer_t) (ids : List Nat) : Prop :=
  is_chain b.cell b.head ids ∧ b.tail = ids.getLast? ∧ ∀ a, b.brk ≤ a → b.cell a = none

/-! ### Concrete states used to instantiate the theorems -/

/-- A reading of sensor 15. -/
def example_reading : sensor_data_t := ⟨15, 20, 1⟩

/-- A buffer holding one node, at address 0, read by nobody. -/
def example_buffer : sbuffer_t :=
  { head := some 0, tail := some 0,
    cell := fun a => if a = 0 then some ⟨none, ⟨example_reading, fun _ => 0⟩⟩ else none,
    brk := 1 }

/-! ## The reader loops and the producer's shutdown

`datamgr_parse_sensor_data` (datamgr.c 143-225, reader 0) and
`storagemgr_parse_sensor_data` (sensor_db.c 85-109, reader 1) run
`while (cond) { sbuffer_res = sbuffer_pop(...); ... }`; `connmgr_free`
(connmgr.c 333-339) clears `sbuffer_open`; `storagemgr` (main.c 338-340) may set
`storagemgr_failed`.  Atomic steps: an insert by the producer, the producer's
close, the storage manager's failure signal, a reader's evaluation of its loop
condition and a reader's pop. -/

/-- Program point of a reader thread. -/
inductive reader_pc where
  | at_test
  | at_pop
  | left
deriving DecidableEq

/-- The shared state of `main.c` with the readers' program points. -/
structure gw_sys where
  sb : sb_sys
  sbuffer_open : Int
  storagemgr_failed : Int
  pc : Fin READER_THREADS → reader_pc

/-- State when the three threads start (`sbuffer_open = 1`, `storagemgr_failed = 0`). -/
def gw_init : gw_sys :=
  { sb := sb_init, sbuffer_open := 1, storagemgr_failed := 0, pc := fun _ => reader_pc.at_test }

/-- One atomic step of the gateway threads. -/
inductive gw_op where
  | insert (d : sensor_data_t)
  | close
  | fail
  | test (r : Fin READER_THREADS)
  | pop (r : Fin READER_THREADS)

/-- The loop condition of reader `r`: datamgr.c 145 for reader 0, sensor_db.c 86
for reader 1. -/
def reader_cond (s : gw_sys) (r : Fin READER_THREADS) : Bool :=
  if r = 0 then
    decide ((s.sb.sbuffer_res r ≠ SBUFFER_NO_DATA ∨ s.sbuffer_open ≠ 0) ∧ s.storagemgr_failed = 0)
  else
    decide (s.sb.sbuffer_res r ≠ SBUFFER_NO_DATA ∨ s.sbuffer_open ≠ 0)

/-- Effect of one atomic step; `none` when the step is not enabled (an insert
after the close, a test or pop by a reader that is elsewhere) or undefined. -/
def gw_step (s : gw_sys) : gw_op → Option gw_sys
  | gw_op.insert d =>
    if s.sbuffer_open = 0 then none
    else
      match sb_step s.sb (sb_op.insert d) with
      | none => none
      | some sb1 => some { s with sb := sb1 }
  | gw_op.close => some { s with sbuffer_open := 0 }
  | gw_op.fail => some { s with storagemgr_failed := 1 }
  | gw_op.test r =>
    if s.pc r = reader_pc.at_test then
      let pc1 := if reader_cond s r = true then reader_pc.at_pop else reader_pc.left
      some { s with pc := Function.update s.pc r pc1 }
    else none
  | gw_op.pop r =>
    if s.pc r = reader_pc.at_pop then
      match sb_step s.sb (sb_op.pop r) with
      | none => none
      | some sb1 => some { s with sb := sb1, pc := Function.update s.pc r reader_pc.at_test }
    else none

/-- Run a schedule of atomic steps from a state. -/
def gw_run_from : gw_sys → List gw_op → Option gw_sys
  | s, [] => some s
  | s, op :: rest =>
    match gw_step s op with
    | none => none
    | some s1 => gw_run_from s1 rest

/-- Run a schedule from the start of the threads. -/
def gw_run (ops : List gw_op) : Option gw_sys :=
  gw_run_from gw_init ops

/-! ## lib/dplist.c

A `dplist_t` is taken as the list of its elements, head first; a
`dplist_node_t *` that is in the list is the position of its node. -/

/-- The function `dpl_get_reference_of_element` (dplist.c 295-306): the first
node whose element compares equal to `element`, or `NULL`. -/
def dpl_get_reference_of_element {α : Type} (element_compare : α → α → Int) :
    List α → α → Option Nat
  | [], _ => none
  | [x], element => if element_compare element x = 0 then some 0 else none
  | x :: y :: t, element =>
    if element_compare element x ≠ 0 then
      (dpl_get_reference_of_element element_compare (y :: t) element).map (fun i => i + 1)
    else some 0

/-! ## datamgr.c -/

/-- The struct `node_t` of datamgr.c: `msrmnts` is the array of
`RUN_AVG_LENGTH` values, `num_msrmnts` an `unsigned char`. -/
structure node_t where
  room : Nat
  sensor : sensor_data_t
  msrmnts : List ℚ
  num_msrmnts : Nat

/-- The callback `sensor_compare` (datamgr.c 330-337). -/
def sensor_compare (x y : node_t) : Int :=
  if x.room = 0 ∨ y.room = 0 then
    (if x.sensor.id > y.sensor.id then 1 else if x.sensor.id = y.sensor.id then 0 else -1)
  else
    (if x.room > y.room then 1 else if x.room = y.room then 0 else -1)

/-- The registry entry the loader copies into the list for a map line
`room sensor` (datamgr.c 105-116): empty window, no measurement yet. -/
def fresh_entry (room id : Nat) : node_t :=
  { room := room, sensor := { id := id, value := 0, ts := 0 },
    msrmnts := List.replicate RUN_AVG_LENGTH 0, num_msrmnts := 0 }

/-- The loop of datamgr.c 183-188 from index `i` down to 0: shifts the window,
stores `value` at index 0 and accumulates the sum. -/
def shift_loop (value : ℚ) : Nat → List ℚ → ℚ → List ℚ × ℚ
  | 0, msrmnts, sum =>
    let m1 := msrmnts.set 0 value
    (m1, sum + m1.getD 0 0)
  | i + 1, msrmnts, sum =>
    let m1 := msrmnts.set (i + 1) (msrmnts.getD i 0)
    shift_loop value i m1 (sum + m1.getD (i + 1) 0)

/-- A line the data manager writes to the log pipe. -/
inductive dm_log where
  | not_exist (id : Nat)
  | too_cold (id room : Nat) (avg : ℚ)
  | too_hot (id room : Nat) (avg : ℚ)

/-- Whether a log line is a temperature alert. -/
def dm_log.is_alert : dm_log → Bool
  | dm_log.not_exist _ => false
  | dm_log.too_cold _ _ _ => true
  | dm_log.too_hot _ _ _ => true

/-- Effect of one pass through the body of the data manager's loop after a
successful pop: the registry, the value written to `*connmgr_sensor_to_drop`
(if any) and the lines logged. -/
structure dm_result where
  dplist : List node_t
  sensor_to_drop : Option Nat
  log : List dm_log

/-- Lines 180-217 of `datamgr_parse_sensor_data` on the entry found: the updated
entry and the lines logged. -/
def datamgr_update (SET_MIN_TEMP SET_MAX_TEMP : ℚ) (list_el : node_t) (d : sensor_data_t) :
    node_t × List dm_log :=
  let ms := shift_loop d.value (RUN_AVG_LENGTH - 1) list_el.msrmnts 0
  if list_el.num_msrmnts < RUN_AVG_LENGTH - 1 then
    ({ list_el with sensor := { list_el.sensor with ts := d.ts, value := 0 },
                    msrmnts := ms.1,
                    num_msrmnts := (list_el.num_msrmnts + 1) % 256 }, [])
  else
    let avg : ℚ := ms.2 / RUN_AVG_LENGTH
    let el1 : node_t :=
      { list_el with sensor := { list_el.sensor with ts := d.ts, value := avg }, msrmnts := ms.1 }
    if avg < SET_MIN_TEMP then (el1, [dm_log.too_cold el1.sensor.id el1.room avg])
    else if avg > SET_MAX_TEMP then (el1, [dm_log.too_hot el1.sensor.id el1.room avg])
    else (el1, [])

/-- Lines 162-217 of `datamgr_parse_sensor_data`: what the data manager does
with a reading `d` it has popped. -/
def datamgr_process (SET_MIN_TEMP SET_MAX_TEMP : ℚ) (dplist : List node_t)
    (d : sensor_data_t) : dm_result :=
  let dummy : node_t := { fresh_entry 0 d.id with sensor := d }
  match dpl_get_reference_of_element sensor_compare dplist dummy with
  | none => ⟨dplist, some d.id, [dm_log.not_exist d.id]⟩
  | some temp =>
    match dplist[temp]? with
    | none => ⟨dplist, none, []⟩
    | some list_el =>
      let u := datamgr_update SET_MIN_TEMP SET_MAX_TEMP list_el d
      ⟨dplist.set temp u.1, none, u.2⟩

/-- The registry after the data manager has processed the readings `ds` in order. -/
def datamgr_run (SET_MIN_TEMP SET_MAX_TEMP : ℚ) (dplist : List node_t)
    (ds : List sensor_data_t) : List node_t :=
  ds.foldl (fun l d => (datamgr_process SET_MIN_TEMP SET_MAX_TEMP l d).dplist) dplist

/-- The function `dpl_get_element_of_reference` (dplist.c 256-260). -/
def dpl_get_element_of_reference {α : Type} (list : List α) (reference : Nat) : Option α :=
  list[reference]?

/-- The function `dpl_remove_node` (dplist.c 424-441): unlink the node. -/
def dpl_remove_node {α : Type} (list : List α) (dummy : Nat) : List α :=
  list.eraseIdx dummy

/-- The loop of `dpl_insert_sorted` (dplist.c 377-380): the position of the
node `dummy` at which it stops. -/
def insert_sorted_scan {α : Type} (element_compare : α → α → Int) (element : α) : List α → Nat
  | [] => 0
  | [_] => 0
  | x :: y :: t =>
    if element_compare element x > 0 then
      insert_sorted_scan element_compare element (y :: t) + 1
    else 0

/-- The function `dpl_insert_sorted` (dplist.c 364-401); `none` when the last
branch dereferences `dummy->prev` with `dummy` the head (whose `prev` is `NULL`). -/
def dpl_insert_sorted {α : Type} (element_compare : α → α → Int) (list : List α)
    (element : α) : Option (List α) :=
  match list with
  | [] => some [element]
  | _ =>
    let k := insert_sorted_scan element_compare element list
    match list[k]? with
    | none => none
    | some dummy =>
      if k + 1 = list.length ∧ element_compare element dummy ≥ 0 then some (list ++ [element])
      else if k = 0 ∧ element_compare element dummy < 0 then some (element :: list)
      else if k = 0 then none
      else some (list.take k ++ element :: list.drop k)

/-! ## connmgr.c

`TIMEOUT` is a build constant without default (a parameter here).  What the
operating system and the peers do during one iteration of the main loop is the
`conn_env`; `poll` has filled in the `revents` of the state the iteration
starts from.  The calls of `sbuffer_insert` are recorded in `inserted`. -/

/-- The bit `POLLIN` of <poll.h>. -/
def POLLIN : Nat := 1

/-- The bit `POLLHUP` of <poll.h>. -/
def POLLHUP : Nat := 16

/-- The struct `pollfd`. -/
structure pollfd where
  fd : Int
  events : Int
  revents : Nat
deriving DecidableEq

/-- The struct `tcpsock_dpl_el` (connmgr.c 58-63), without the socket handle. -/
structure tcpsock_dpl_el where
  sd : Int
  last_active : Int
  sensor : Nat
deriving DecidableEq

/-- The callback `socket_compare` (connmgr.c 359-362). -/
def socket_compare (x y : tcpsock_dpl_el) : Int :=
  if x.sd = y.sd then 0 else if x.sd > y.sd then -1 else 1

/-- Return code of `tcp_receive`. -/
inductive tcp_result where
  | TCP_NO_ERROR
  | TCP_CONNECTION_CLOSED
  | other
deriving DecidableEq

/-- What the three `tcp_receive` calls of connmgr.c 223-228 leave behind. -/
structure recv_outcome where
  tcp_res : tcp_result
  bytes : Int
  data : sensor_data_t

/-- The surroundings of one iteration of the main loop: the value `time(NULL)`
returns (taken as the same `now` at every call within the iteration), the
failure flag read at line 152, the outcome of `tcp_wait_for_connection` (the
descriptor of the accepted socket, `none` on error), the `revents` left in the
slot that `realloc` adds (not initialised by the code), and the outcome of the
receive calls on a client socket, by descriptor. -/
structure conn_env where
  now : Int
  storagemgr_fail_flag : Int
  accept : Option Int
  accept_revents : Nat
  recv : Int → recv_outcome

/-- A line the connection manager writes to the log pipe. -/
inductive cm_log where
  | interrupted
  | accept_failed
  | new_connection
  | lost_connection
  | signalled_drop (sensor : Nat)
  | closed (sensor : Nat)
deriving DecidableEq

/-- The variables of `connmgr_listen` that live across iterations. -/
structure connmgr_state where
  socket_list : List tcpsock_dpl_el
  poll_fds : List pollfd
  conn_counter : Nat
  sensor_to_drop : Nat
  inserted : List sensor_data_t
  log : List cm_log

/-- The compaction loop of connmgr.c 284-288 with `fuel` iterations left;
`none` when it reads outside the array. -/
def compact_loop (i : Nat) : Nat → Nat → Nat → List pollfd → Option (List pollfd)
  | 0, _, _, fds => some fds
  | fuel + 1, id1, id2, fds =>
    let id2a := if id2 = i then id2 + 1 else id2
    match fds[id2a]? with
    | none => none
    | some x => compact_loop i fuel (id1 + 1) (id2a + 1) (fds.set id1 x)

/-- The condition of connmgr.c 261 under which slot `i` is removed. -/
def evict_cond (TIMEOUT : Int) (now : Int) (sensor_to_drop : Nat)
    (client : Option tcpsock_dpl_el) (pf : pollfd) : Bool :=
  (match client with
   | none => false
   | some c => decide (c.sensor = sensor_to_drop)) ||
  decide (pf.revents &&& POLLHUP ≠ 0) ||
  decide (pf.events = -1) ||
  (match client with
   | none => false
   | some c => decide (c.last_active + TIMEOUT < now)) ||
  client.isNone

/-- The record of the client found for a slot (connmgr.c 212-214), or `NULL`. -/
def slot_client (socket_list : List tcpsock_dpl_el) (node : Option Nat) :
    Option tcpsock_dpl_el :=
  match node with
  | none => none
  | some k => dpl_get_element_of_reference socket_list k

/-- Lines 216-258 of connmgr.c for slot `i`: receive a reading when the client
has data and has not timed out. -/
def slot_receive (TIMEOUT : Int) (env : conn_env) (st : connmgr_state) (i : Nat)
    (pf : pollfd) (node : Option Nat) : connmgr_state :=
  match node, slot_client st.socket_list node with
  | some k, some c =>
    if c.last_active + TIMEOUT > env.now ∧ pf.revents &&& POLLIN ≠ 0 then
      let rc := env.recv c.sd
      if rc.tcp_res = tcp_result.TCP_NO_ERROR ∧ rc.bytes ≠ 0 then
        let c1 : tcpsock_dpl_el :=
          { c with last_active := env.now,
                   sensor := if c.sensor = 0 then rc.data.id else c.sensor }
        { st with socket_list := st.socket_list.set k c1,
                  inserted := st.inserted ++ [rc.data] }
      else if rc.tcp_res = tcp_result.TCP_CONNECTION_CLOSED then
        { st with poll_fds := st.poll_fds.set i { pf with events := -1 },
                  log := st.log ++ [cm_log.lost_connection] }
      else st
    else st
  | _, _ => st

/-- Lines 263-270 of connmgr.c: consume the drop signal when the client is bound
to the signalled sensor. -/
def slot_signal (st : connmgr_state) (client : Option tcpsock_dpl_el) : connmgr_state :=
  match client with
  | none => st
  | some c =>
    if c.sensor = st.sensor_to_drop then
      { st with sensor_to_drop := 0, log := st.log ++ [cm_log.signalled_drop c.sensor] }
    else st

/-- Lines 277-283 of connmgr.c: close and unlink the client's record, if any. -/
def slot_close (st : connmgr_state) (node : Option Nat) (client : Option tcpsock_dpl_el) :
    connmgr_state :=
  match node, client with
  | some k, some c =>
    { st with socket_list := dpl_remove_node st.socket_list k,
              log := st.log ++ [cm_log.closed c.sensor] }
  | _, _ => st

/-- The body of the loop over the client slots (connmgr.c 212-297) for slot
`i`: the state it leaves and whether it removed the slot; `none` when it reads
outside `poll_fds`. -/
def connmgr_slot (TIMEOUT : Int) (env : conn_env) (st : connmgr_state) (i : Nat) :
    Option (connmgr_state × Bool) :=
  match st.poll_fds[i]? with
  | none => none
  | some pf =>
    let node := dpl_get_reference_of_element socket_compare st.socket_list
      { sd := pf.fd, last_active := 0, sensor := 0 }
    let st1 := slot_receive TIMEOUT env st i pf node
    let client := slot_client st1.socket_list node
    match st1.poll_fds[i]? with
    | none => none
    | some pf1 =>
      if evict_cond TIMEOUT env.now st1.sensor_to_drop client pf1 = true then
        let st3 := slot_close (slot_signal st1 client) node client
        match compact_loop i st3.conn_counter 0 0 st3.poll_fds with
        | none => none
        | some fds =>
          some ({ st3 with poll_fds := fds.take st3.conn_counter,
                           conn_counter := st3.conn_counter - 1 }, true)
      else some (st1, false)

/-- The loop over the client slots (connmgr.c 210-298) from index `i`, with
`fuel` passes through the body left; `none` when the body is undefined or the
fuel does not suffice. -/
def connmgr_slots (TIMEOUT : Int) (env : conn_env) (poll_res : Int) :
    Nat → Nat → connmgr_state → Option connmgr_state
  | 0, i, st => if i < st.conn_counter + 1 ∧ poll_res > 0 then none else some st
  | fuel + 1, i, st =>
    if i < st.conn_counter + 1 ∧ poll_res > 0 then
      match connmgr_slot TIMEOUT env st i with
      | none => none
      | some (st1, removed) =>
        connmgr_slots TIMEOUT env poll_res fuel (if removed = true then i else i + 1) st1
    else some st

/-- The eviction pass of one iteration: the loop over the client slots, started
at slot 1 (every pass through the body moves to the next slot or removes one,
so `conn_counter` passes suffice). -/
def connmgr_pass (TIMEOUT : Int) (env : conn_env) (poll_res : Int) (st : connmgr_state) :
    Option connmgr_state :=
  connmgr_slots TIMEOUT env poll_res st.conn_counter 1 st

/-- The listening slot (connmgr.c 173-208): the state and `poll_res` after it. -/
def connmgr_accept (env : conn_env) (poll_res : Int) (st : connmgr_state) :
    Option (connmgr_state × Int) :=
  match st.poll_fds[0]? with
  | none => none
  | some pf0 =>
    if pf0.revents &&& POLLIN ≠ 0 ∧ st.conn_counter < MAX_CONN then
      match env.accept with
      | none => some ({ st with log := st.log ++ [cm_log.accept_failed] }, poll_res - 1)
      | some sd =>
        let client : tcpsock_dpl_el := { sd := sd, last_active := env.now, sensor := 0 }
        match dpl_insert_sorted socket_compare st.socket_list client with
        | none => none
        | some l =>
          some ({ st with conn_counter := st.conn_counter + 1,
                          poll_fds := st.poll_fds.take (st.conn_counter + 1) ++
                            [{ fd := sd, events := (POLLIN ||| POLLHUP : Nat),
                               revents := env.accept_revents }],
                          socket_list := l,
                          log := st.log ++ [cm_log.new_connection] }, poll_res - 1)
    else some (st, poll_res)

/-- How one iteration of the main loop ends. -/
inductive iter_outcome where
  | interrupted (st : connmgr_state)
  | poll_error (st : connmgr_state)
  | next (st : connmgr_state)

/-- One iteration of the main loop of `connmgr_listen` (connmgr.c 150-299), entered
with the result `poll_res` of `poll` (the loop is entered when `poll_res` or
`conn_counter` is not 0). -/
def connmgr_iteration (TIMEOUT : Int) (env : conn_env) (poll_res : Int)
    (st : connmgr_state) : Option iter_outcome :=
  if env.storagemgr_fail_flag ≠ 0 then
    some (iter_outcome.interrupted { st with log := st.log ++ [cm_log.interrupted] })
  else if poll_res = -1 then some (iter_outcome.poll_error st)
  else
    match connmgr_accept env poll_res st with
    | none => none
    | some (st1, poll_res1) =>
      match connmgr_pass TIMEOUT env poll_res1 st1 with
      | none => none
      | some st2 => some (iter_outcome.next st2)

/-! ### Concrete connection-manager states used to instantiate the theorems

The listener has descriptor 3; `TIMEOUT` is 5 and the time is 200. -/

/-- Surroundings: no failure signalled, nothing to accept, and a reading of
sensor 15 ready on every client socket that is read. -/
def example_env : conn_env :=
  { now := 200, storagemgr_fail_flag := 0, accept := none, accept_revents := 0,
    recv := fun _ => ⟨tcp_result.TCP_NO_ERROR, 8, ⟨15, 21, 200⟩⟩ }

/-- One client (descriptor 7, bound to sensor 15) last active at time 100; `poll`
has timed out, so no slot has an event. -/
def example_idle : connmgr_state :=
  { socket_list := [⟨7, 100, 15⟩],
    poll_fds := [⟨3, 1, 0⟩, ⟨7, 17, 0⟩],
    conn_counter := 1, sensor_to_drop := 0, inserted := [], log := [] }

/-- Two clients: descriptor 7 (bound to sensor 15) has data to read; descriptor
8 was accepted at time 199 and has not sent a frame yet (`sensor = 0`). -/
def example_fresh : connmgr_state :=
  { socket_list := [⟨8, 199, 0⟩, ⟨7, 198, 15⟩],
    poll_fds := [⟨3, 1, 0⟩, ⟨7, 17, 1⟩, ⟨8, 17, 0⟩],
    conn_counter := 2, sensor_to_drop := 0, inserted := [], log := [] }

/-- One client (descriptor 7, bound to sensor 15) with data to read, while the
data manager has signalled sensor 99. -/
def example_signalled : connmgr_state :=
  { socket_list := [⟨7, 198, 15⟩],
    poll_fds := [⟨3, 1, 0⟩, ⟨7, 17, 1⟩],
    conn_counter := 1, sensor_to_drop := 99, inserted := [], log := [] }

/-- One client (descriptor 7) bound to sensor 99, which the data manager has
signalled; the client has no event pending while another descriptor made
`poll` return. -/
def example_bound : connmgr_state :=
  { socket_list := [⟨7, 198, 99⟩],
    poll_fds := [⟨3, 1, 0⟩, ⟨7, 17, 0⟩],
    conn_counter := 1, sensor_to_drop := 99, inserted := [], log := [] }

/-- The empty buffer (what `sbuffer_init` creates). -/
def example_empty : sbuffer_t :=
  { head := none, tail := none, cell := fun _ => none, brk := 0 }

/-- A buffer holding one node, at address 0, that reader 0 has read. -/
def example_read_buffer : sbuffer_t :=
  { head := some 0, tail := some 0,
    cell := fun a => if a = 0 then
      some ⟨none, ⟨example_reading, fun q => if q = 0 then 1 else 0⟩⟩ else none,
    brk := 1 }

/-! ## datamgr.c: loading the registry and the query functions

The map file enters as the list of `(room, sensor)` pairs that the read loop
(datamgr.c 113-122) obtains from its lines, in file order. -/

/-- The read loop of datamgr.c 113-122 continuing from the list `dplist`: each
pair is copied into a fresh entry and inserted with `dpl_insert_sorted`; `none`
when an insertion dereferences `NULL`. -/
def datamgr_load_from (dplist : List node_t) : List (Nat × Nat) → Option (List node_t)
  | [] => some dplist
  | pr :: rest =>
    match dpl_insert_sorted sensor_compare dplist (fresh_entry pr.1 pr.2) with
    | none => none
    | some l => datamgr_load_from l rest

/-- The registry after the read loop, starting from the empty list of `dpl_create`. -/
def datamgr_load (pairs : List (Nat × Nat)) : Option (List node_t) :=
  datamgr_load_from [] pairs

/-- The function `dpl_size` (dplist.c 192-200). -/
def dpl_size {α : Type} : List α → Nat
  | [] => 0
  | [_] => 1
  | _ :: y :: t => dpl_size (y :: t) + 1

/-- The function `datamgr_get_total_sensors` (datamgr.c 309-313). -/
def datamgr_get_total_sensors (dplist : List node_t) : Nat :=
  dpl_size dplist

/-- The function `datamgr_get_room_id` (datamgr.c 264-277) as a `uint16_t`.
`none`: the call does not return, because `dpl_get_element_of_reference` is
handed the `NULL` reference and its `assert(reference != NULL)` fails.  When
the element pointer `node` is `NULL` the result is `(uint16_t) -1 = 65535`. -/
def datamgr_get_room_id (dplist : List node_t) (sensor_id : Nat) : Option Nat :=
  let dummy : node_t := { fresh_entry 0 sensor_id with room := 0 }
  match dpl_get_reference_of_element sensor_compare dplist dummy with
  | none => none
  | some reference =>
    match dpl_get_element_of_reference dplist reference with
    | none => some ((-1 : Int) % 65536).toNat
    | some node => some node.room

/-! ## main.c: the storage manager thread and the argument check -/

/-- The do-while loop of main.c 320-324 with `fuel` passes left, entered after
`attempts` calls; `init i` tells whether call number `i + 1` of
`init_connection` returns a connection.  Result: the final `attempts` and
whether `db` is not `NULL`; `none` when the fuel does not suffice. -/
def storagemgr_connect (STORAGE_INIT_ATTEMPTS : Nat) (init : Nat → Bool) :
    Nat → Nat → Option (Nat × Bool)
  | 0, _ => none
  | fuel + 1, attempts =>
    let db := init attempts
    let attempts1 := attempts + 1
    if attempts1 < STORAGE_INIT_ATTEMPTS ∧ db = false then
      storagemgr_connect STORAGE_INIT_ATTEMPTS init fuel attempts1
    else some (attempts1, db)

/-- What the thread function `storagemgr` (main.c 297-349) leaves behind: the
number of calls of `init_connection`, whether it got a connection (and so ran
its drain loop), and the value of `storagemgr_failed`. -/
structure storagemgr_result where
  attempts : Nat
  connected : Bool
  storagemgr_failed : Int

/-- The thread function `storagemgr` (main.c 320-341), entered with the flag
`storagemgr_failed` holding `flag`. -/
def storagemgr (STORAGE_INIT_ATTEMPTS : Nat) (init : Nat → Bool) (flag : Int) :
    Option storagemgr_result :=
  match storagemgr_connect STORAGE_INIT_ATTEMPTS init (STORAGE_INIT_ATTEMPTS + 1) 0 with
  | none => none
  | some (attempts, db) =>
    if db = true then some ⟨attempts, true, flag⟩
    else some ⟨attempts, false, 1⟩

/-- Status code `CONNMGR_INCORRECT_PORT` of config.h. -/
def CONNMGR_INCORRECT_PORT : Int := 4

/-- Status code `CONNMGR_SERVER_OPEN_ERROR` of config.h. -/
def CONNMGR_SERVER_OPEN_ERROR : Int := 5

/-- What `connmgr_listen` has done when it reaches its main loop or returns
before it (connmgr.c 110-140): the value written to `*retval` (if any), whether
the record list and the poll array were allocated, whether
`tcp_passive_open` was called, and whether it goes on to the main loop. -/
structure listen_start where
  retval : Option Int
  socket_list_allocated : Bool
  poll_fds_allocated : Bool
  open_called : Bool
  enters_loop : Bool
deriving DecidableEq

/-- Lines 110-140 of `connmgr_listen`; `MIN_PORT` and `MAX_PORT` are constants
of a header that is not part of the sources (parameters here), `open_ok` tells
whether `tcp_passive_open` returns `TCP_NO_ERROR`. -/
def connmgr_listen_start (MIN_PORT MAX_PORT : Int) (port_number : Int) (open_ok : Bool) :
    listen_start :=
  if port_number < MIN_PORT ∨ port_number > MAX_PORT then
    { retval := some CONNMGR_INCORRECT_PORT, socket_list_allocated := false,
      poll_fds_allocated := false, open_called := false, enters_loop := false }
  else if open_ok = false then
    { retval := some CONNMGR_SERVER_OPEN_ERROR, socket_list_allocated := true,
      poll_fds_allocated := true, open_called := true, enters_loop := false }
  else
    { retval := none, socket_list_allocated := true,
      poll_fds_allocated := true, open_called := true, enters_loop := true }

/-- How `main` leaves its argument check (main.c 130-142). -/
inductive main_start where
  | usage_exit_success
  | run (server_port : Int)
deriving DecidableEq

/-- Lines 130-142 of `main`: `argv1` is the value of `atoi(argv[1])`. -/
def main_args (MIN_PORT MAX_PORT : Int) (argc : Int) (argv1 : Int) : main_start :=
  if argc ≠ 2 then main_start.usage_exit_success
  else if argv1 > MAX_PORT ∨ argv1 < MIN_PORT then main_start.usage_exit_success
  else main_start.run argv1

/-- The index pairs `(id1, id2)` used by the assignments
`poll_fds[id1] = poll_fds[id2]` of the compaction loop (connmgr.c 284-288), in
order, for `fuel` iterations from the loop variables `id1`, `id2`. -/
def compact_indices (i : Nat) : Nat → Nat → Nat → List (Nat × Nat)
  | 0, _, _ => []
  | fuel + 1, id1, id2 =>
    let id2a := if id2 = i then id2 + 1 else id2
    (id1, id2a) :: compact_indices i fuel (id1 + 1) (id2a + 1)

/-- The state of `connmgr_listen` when it enters its main loop (connmgr.c
123-147): no record, the poll array holding the listener's descriptor with
`events = POLLIN`, `conn_counter = 0`. -/
def connmgr_start (server_sd : Int) (sensor_to_drop : Nat) : connmgr_state :=
  { socket_list := [], poll_fds := [⟨server_sd, (POLLIN : Nat), 0⟩], conn_counter := 0,
    sensor_to_drop := sensor_to_drop, inserted := [], log := [] }

/-- What one evaluation of the loop condition and one iteration meet: the
surroundings, the result of `poll`, and the `revents` that `poll` writes into
the slots (by index). -/
structure conn_round where
  env : conn_env
  poll_res : Int
  revents : Nat → Nat

/-- The call of `poll` in the loop condition (connmgr.c 149): it writes the
`revents` of every slot. -/
def connmgr_poll (revents : Nat → Nat) (st : connmgr_state) : connmgr_state :=
  let fds := List.zipWith (fun (pf : pollfd) (j : Nat) => (⟨pf.fd, pf.events, revents j⟩ : pollfd))
    st.poll_fds (List.range st.poll_fds.length)
  { st with poll_fds := fds }

/-- The state an iteration ends in. -/
def iter_outcome.state : iter_outcome → connmgr_state
  | iter_outcome.interrupted st => st
  | iter_outcome.poll_error st => st
  | iter_outcome.next st => st

/-- The main loop of `connmgr_listen` (connmgr.c 149-299) over the given
rounds: it ends when `poll` returns 0 with no connection left, when the storage
manager has signalled failure, or when `poll` fails; `none` when an iteration
is undefined. -/
def connmgr_loop (TIMEOUT : Int) : connmgr_state → List conn_round → Option connmgr_state
  | st, [] => some st
  | st, rd :: rest =>
    if rd.poll_res = 0 ∧ st.conn_counter = 0 then some (connmgr_poll rd.revents st)
    else
      match connmgr_iteration TIMEOUT rd.env rd.poll_res (connmgr_poll rd.revents st) with
      | none => none
      | some (iter_outcome.next st1) => connmgr_loop TIMEOUT st1 rest
      | some (iter_outcome.interrupted st1) => some st1
      | some (iter_outcome.poll_error st1) => some st1

/-- Invariant of the main loop: `conn_counter` is at most `MAX_CONN`, the poll
array has `conn_counter + 1` slots, and slot 0 holds the listener's descriptor. -/
def conn_inv (server_sd : Int) (st : connmgr_state) : Prop :=
  st.conn_counter ≤ MAX_CONN ∧ st.poll_fds.length = st.conn_counter + 1 ∧
  ∃ pf, st.poll_fds[0]? = some pf ∧ pf.fd = server_sd

/-- Two rounds of the main loop: in the first the listener has a connection to
accept (descriptor 7), in the second the client of slot 1 has hung up. -/
def example_rounds : List conn_round :=
  [ { env := { example_env with accept := some 7 }, poll_res := 1,
      revents := fun j => if j = 0 then POLLIN else 0 },
    { env := example_env, poll_res := 1,
      revents := fun j => if j = 1 then POLLHUP else 0 } ]

/-! ## datamgr.c: reading the map file

The stream `fp_sensor_map` is the list of the characters not yet read.  The
library functions are taken with their ISO C meaning: `fgets(line, n, fp)`
stores at most `n - 1` characters and stops after a newline; `%hu` skips white
space and converts an optionally signed run of decimal digits, and `sscanf`
stops at the first conversion that finds no digits, leaving the remaining
arguments untouched. -/

/-- The characters `fgets` stores when it may still store `n` of them, and the
stream it leaves. -/
def fgets_take : Nat → List Char → List Char × List Char
  | 0, s => ([], s)
  | _ + 1, [] => ([], [])
  | n + 1, c :: s =>
    if c.toNat = 10 then ([c], s)
    else ((c :: (fgets_take n s).1), (fgets_take n s).2)

/-- The call `fgets(line, size, fp)`: `none` is the `NULL` it returns at end of
file, else the line stored and the stream left. -/
def fgets (size : Nat) (stream : List Char) : Option (List Char × List Char) :=
  match stream with
  | [] => none
  | _ => some (fgets_take (size - 1) stream)

/-- The predicate `isspace` of the C locale. -/
def isspace (c : Char) : Bool :=
  c.toNat = 32 || (9 ≤ c.toNat && c.toNat ≤ 13)

/-- One conversion `%hu`: the value stored (as `unsigned short`) and the input
left, or `none` when no digits are found. -/
def scan_hu (s : List Char) : Option (Nat × List Char) :=
  let s1 := s.dropWhile isspace
  let neg : Bool := match s1 with
    | c :: _ => decide (c.toNat = 45)
    | [] => false
  let s2 := match s1 with
    | c :: t => if c.toNat = 45 ∨ c.toNat = 43 then t else s1
    | [] => s1
  let ds := s2.takeWhile Char.isDigit
  let v := ds.foldl (fun acc c => acc * 10 + (c.toNat - 48)) 0
  if ds = [] then none
  else some ((if neg = true then (65536 - v % 65536) % 65536 else v % 65536),
    s2.dropWhile Char.isDigit)

/-- The call `sscanf(line, "%hu%hu", &room, &id)` of datamgr.c 115 on the
current values of `dummy.room` and `dummy.sensor.id`. -/
def sscanf_hu_hu (line : List Char) (dummy : Nat × Nat) : Nat × Nat :=
  match scan_hu line with
  | none => dummy
  | some (room, rest) =>
    match scan_hu rest with
    | none => (room, dummy.2)
    | some (id, _) => (room, id)

/-- The read loop of datamgr.c 113-122 with `fuel` passes left: the values of
`(dummy.room, dummy.sensor.id)` handed to `dpl_insert_sorted`, in order. -/
def datamgr_read_from : Nat → List Char → Nat × Nat → List (Nat × Nat)
  | 0, _, _ => []
  | fuel + 1, stream, dummy =>
    match fgets 11 stream with
    | none => []
    | some (line, rest) =>
      (sscanf_hu_hu line dummy) :: datamgr_read_from fuel rest (sscanf_hu_hu line dummy)

/-- The read loop on a whole file; `room0` and `id0` are the values the
uninitialised `dummy.room` and `dummy.sensor.id` happen to hold.  Every pass
consumes a character, so `stream.length + 1` passes reach the end of the file. -/
def datamgr_read (stream : List Char) (room0 id0 : Nat) : List (Nat × Nat) :=
  datamgr_read_from (stream.length + 1) stream (room0, id0)

/-- The text of a map line: the two ids in decimal, one space between them, and
a newline. -/
def map_line (room id : Nat) : List Char :=
  Nat.toDigits 10 room ++ [Char.ofNat 32] ++ Nat.toDigits 10 id ++ [Char.ofNat 10]

/-! ## dplist.c at the level of nodes

The list with its `prev` and `next` pointers: a heap of nodes in which `malloc`
returns the fresh address `brk`.  `none` as a result means that the call
dereferences `NULL` or an address that holds no node. -/

/-- The struct `dplist_node` (dplist.c 62-65). -/
structure dplist_node_t (α : Type) where
  prev : Option Nat
  next : Option Nat
  element : α

/-- The struct `dplist` (dplist.c 67-72) with the heap of its nodes; the
callbacks are passed to the functions. -/
structure dplist_t (α : Type) where
  head : Option Nat
  cell : Nat → Option (dplist_node_t α)
  brk : Nat

/-- The loop of `dpl_insert_sorted` (dplist.c 377-380) on the nodes, with `fuel`
evaluations of its condition left: the node `dummy` at which it stops. -/
def dpl_scan_nodes {α : Type} (element_compare : α → α → Int) (element : α)
    (cell : Nat → Option (dplist_node_t α)) : Nat → Nat → Option Nat
  | 0, _ => none
  | fuel + 1, dummy =>
    match cell dummy with
    | none => none
    | some dn =>
      match dn.next with
      | none => some dummy
      | some nx =>
        if element_compare element dn.element > 0 then
          dpl_scan_nodes element_compare element cell fuel nx
        else some dummy

/-- The function `dpl_insert_sorted` (dplist.c 364-401) on the nodes. -/
def dpl_insert_sorted_nodes {α : Type} (element_compare : α → α → Int) (list : dplist_t α)
    (element : α) : Option (dplist_t α) :=
  let new_node := list.brk
  match list.head with
  | none =>
    some ⟨some new_node, Function.update list.cell new_node (some ⟨none, none, element⟩),
      list.brk + 1⟩
  | some h =>
    match dpl_scan_nodes element_compare element list.cell (list.brk + 1) h with
    | none => none
    | some dummy =>
      match list.cell dummy with
      | none => none
      | some dn =>
        if dn.next = none ∧ element_compare element dn.element ≥ 0 then
          -- new_node->next = NULL; new_node->prev = dummy; dummy->next = new_node
          let c1 := Function.update list.cell new_node (some ⟨some dummy, none, element⟩)
          match c1 dummy with
          | none => none
          | some dn1 =>
            some ⟨list.head, Function.update c1 dummy (some { dn1 with next := some new_node }),
              list.brk + 1⟩
        else if dummy = h ∧ element_compare element dn.element < 0 then
          -- list->head = new_node; new_node->prev = NULL; new_node->next = dummy;
          -- dummy->prev = new_node
          let c1 := Function.update list.cell new_node (some ⟨none, some dummy, element⟩)
          match c1 dummy with
          | none => none
          | some dn1 =>
            some ⟨some new_node,
              Function.update c1 dummy (some { dn1 with prev := some new_node }),
              list.brk + 1⟩
        else
          -- new_node->next = dummy; new_node->prev = dummy->prev;
          -- dummy->prev->next = new_node; dummy->prev = new_node
          let c1 := Function.update list.cell new_node (some ⟨dn.prev, some dummy, element⟩)
          match c1 dummy with
          | none => none
          | some dn1 =>
            match dn1.prev with
            | none => none
            | some pv =>
              match c1 pv with
              | none => none
              | some pn =>
                let c2 := Function.update c1 pv (some { pn with next := some new_node })
                match c2 dummy with
                | none => none
                | some dn2 =>
                  some ⟨list.head,
                    Function.update c2 dummy (some { dn2 with prev := some new_node }),
                    list.brk + 1⟩

/-- Following `next` from `p` visits exactly the addresses `ids`, whose nodes
carry the elements `xs` in this order, each node's `prev` is the node visited
before it (`pv` for the first), and the last `next` is `NULL`. -/
def dl_chain {α : Type} (cell : Nat → Option (dplist_node_t α)) :
    Option Nat → Option Nat → List Nat → List α → Prop
  | _, p, [], [] => p = none
  | pv, p, a :: ids, x :: xs =>
    p = some a ∧ ∃ n, cell a = some n ∧ n.prev = pv ∧ n.element = x ∧
      dl_chain cell (some a) n.next ids xs
  | _, _, _, _ => False

/-- Well-formed list with node addresses `ids` and elements `xs`: the `next`
chain from `head` is `ids`, the `prev` pointers mirror it (that of the head is
`NULL`), no node occurs twice, and no address at or above `brk` is allocated. -/
def dplist_wf {α : Type} (l : dplist_t α) (ids : List Nat) (xs : List α) : Prop :=
  dl_chain l.cell none l.head ids xs ∧ ids.Nodup ∧ ∀ a, l.brk ≤ a → l.cell a = none

/-- The registry after the map lines `1 10` and `2 20`, as nodes: the entry of
room 1 at address 0 (the head), the entry of room 2 at address 1. -/
def example_registry_nodes : dplist_t node_t :=
  { head := some 0,
    cell := fun a => if a = 0 then some ⟨none, some 1, fresh_entry 1 10⟩
      else if a = 1 then some ⟨some 0, none, fresh_entry 2 20⟩ else none,
    brk := 2 }

/-- A list of the numbers 1 and 3 as nodes at the addresses 0 and 1. -/
def example_nodes : dplist_t Nat :=
  { head := some 0,
    cell := fun a => if a = 0 then some ⟨none, some 1, 1⟩
      else if a = 1 then some ⟨some 0, none, 3⟩ else none,
    brk := 2 }

/-- Three-way comparison of natural numbers. -/
def example_compare (a b : Nat) : Int := (a : Int) - (b : Int)

end HVAC

namespace HVAC

/-! ## Lemmas on the buffer determined by a history -/

theorem abs_lo_le (cnt : Fin READER_THREADS → Nat) (r : Fin READER_THREADS) :
    abs_lo cnt ≤ cnt r := by
  unfold abs_lo
  match r with
  | 0 => exact Nat.min_le_left _ _
  | 1 => exact Nat.min_le_right _ _

theorem abs_lo_attained (cnt : Fin READER_THREADS → Nat) :
    ∃ r, cnt r = abs_lo cnt := by
  unfold abs_lo
  rcases Nat.le_total (cnt 0) (cnt 1) with h | h
  · exact ⟨0, (Nat.min_eq_left h).symm⟩
  · exact ⟨1, (Nat.min_eq_right h).symm⟩

theorem sbuffer_insert_abs (ins : List sensor_data_t) (cnt : Fin READER_THREADS → Nat)
    (hc : ∀ r, cnt r ≤ ins.length) (d : sensor_data_t) :
    sbuffer_insert (some (abs_buffer ins cnt)) d true
      = some (SBUFFER_SUCCESS, some (abs_buffer (ins ++ [d]) cnt)) := by
  have hlo : abs_lo cnt ≤ ins.length := le_trans (abs_lo_le cnt 0) (hc 0)
  have hnode : ∀ k, k < ins.length → abs_node (ins ++ [d]) cnt k =
      { abs_node ins cnt k with next := some (k + 1) } := by
    intro k hk
    have hd : (ins ++ [d]).getD k default = ins.getD k default :=
      List.getD_append ins [d] default k hk
    simp only [abs_node, hd, List.length_append, List.length_singleton]
    simp [hk]
  have hnode1 : ∀ k, k + 1 < ins.length → abs_node (ins ++ [d]) cnt k = abs_node ins cnt k := by
    intro k hk
    rw [hnode k (by omega)]
    simp [abs_node, hk]
  have hnew : abs_node (ins ++ [d]) cnt ins.length =
      { next := none, element := { data := d, read_by := fun _ => 0 } } := by
    simp only [abs_node, List.length_append, List.length_singleton, lt_self_iff_false,
      if_false, sbuffer_node_t.mk.injEq, sbuffer_data_t.mk.injEq, true_and]
    refine ⟨?_, ?_⟩
    · simp [List.getD_append_right]
    · funext r
      have := hc r
      simp
      omega
  by_cases hne : abs_lo cnt < ins.length
  · have hne1 : abs_lo cnt < ins.length + 1 := by omega
    have htl : ins.length - 1 ≠ ins.length := by omega
    have hin : abs_lo cnt ≤ ins.length - 1 ∧ ins.length - 1 < ins.length := by omega
    simp only [sbuffer_insert, abs_buffer, hne, if_true]
    simp only [List.length_append, List.length_singleton, hne1, if_true,
      Function.update_noteq htl, hin, and_self]
    simp only [Bool.true_eq_false, if_false, Nat.add_sub_cancel, Option.some.injEq,
      Prod.mk.injEq, true_and, sbuffer_t.mk.injEq, and_true]
    funext k
    by_cases hk : k = ins.length
    · subst hk
      have h1 : ins.length ≠ ins.length - 1 := by omega
      simp [Function.update_noteq h1, hnew, hlo]
    · by_cases hk2 : k = ins.length - 1
      · subst hk2
        simp [hin, hne1, hnode (ins.length - 1) hin.2]
        omega
      · by_cases hk3 : abs_lo cnt ≤ k ∧ k < ins.length
        · have h4 : abs_lo cnt ≤ k ∧ k < ins.length + 1 := by omega
          simp [Function.update_noteq hk, Function.update_noteq hk2, hk3, h4,
            hnode1 k (by omega)]
        · have h4 : ¬ (abs_lo cnt ≤ k ∧ k < ins.length + 1) := by omega
          simp only [Function.update_noteq hk, Function.update_noteq hk2, hk3, h4, if_false]
  · have hEq : abs_lo cnt = ins.length := by omega
    simp only [sbuffer_insert, abs_buffer, hne, if_false]
    simp only [List.length_append, List.length_singleton, hEq]
    simp
    funext k
    by_cases hk : k = ins.length
    · subst hk
      simp [hnew]
    · have h1 : ¬ (ins.length ≤ k ∧ k < ins.length) := by omega
      have h2 : ¬ (ins.length ≤ k ∧ k < ins.length + 1) := by omega
      simp [Function.update_noteq hk, h1, h2]

theorem abs_cell_eq (ins : List sensor_data_t) (cnt : Fin READER_THREADS → Nat) (k : Nat) :
    (abs_buffer ins cnt).cell k =
      if abs_lo cnt ≤ k ∧ k < ins.length then some (abs_node ins cnt k) else none := rfl

theorem is_read_by_all_abs (ins : List sensor_data_t) (cnt : Fin READER_THREADS → Nat)
    (k : Nat) : _is_read_by_all (abs_node ins cnt k) = if k < abs_lo cnt then 1 else 0 := by
  have h : (∃ i : Fin READER_THREADS, (abs_node ins cnt k).element.read_by i = 0) ↔
      ¬ k < abs_lo cnt := by
    simp only [abs_node, abs_lo, Fin.exists_fin_two]
    by_cases h0 : k < cnt 0 <;> by_cases h1 : k < cnt 1 <;> simp [h0, h1]
  unfold _is_read_by_all
  by_cases hk : k < abs_lo cnt
  · rw [if_neg (by rw [h]; exact not_not.mpr hk), if_pos hk]
  · rw [if_pos (h.mpr hk), if_neg hk]

/-- Counts after reader `r` has consumed one more reading. -/
theorem abs_lo_bump (cnt : Fin READER_THREADS → Nat) (r : Fin READER_THREADS) :
    abs_lo (Function.update cnt r (cnt r + 1)) =
      if abs_lo cnt = cnt r ∧ ∀ q, q ≠ r → cnt r < cnt q then cnt r + 1 else abs_lo cnt := by
  match r with
  | 0 =>
    have h10 : (1 : Fin READER_THREADS) ≠ 0 := by decide
    have hall : (∀ q : Fin READER_THREADS, q ≠ 0 → cnt 0 < cnt q) ↔ cnt 0 < cnt 1 := by
      constructor
      · intro h
        exact h 1 h10
      · intro h q hq
        match q with
        | 0 => exact absurd rfl hq
        | 1 => exact h
    simp only [abs_lo, Function.update_same, Function.update_noteq h10, hall, Nat.min_def]
    split_ifs <;> omega
  | 1 =>
    have h01 : (0 : Fin READER_THREADS) ≠ 1 := by decide
    have hall : (∀ q : Fin READER_THREADS, q ≠ 1 → cnt 1 < cnt q) ↔ cnt 1 < cnt 0 := by
      constructor
      · intro h
        exact h 0 h01
      · intro h q hq
        match q with
        | 0 => exact h
        | 1 => exact absurd rfl hq
    simp only [abs_lo, Function.update_same, Function.update_noteq h01, hall, Nat.min_def]
    split_ifs <;> omega

theorem abs_node_mark (ins : List sensor_data_t) (cnt : Fin READER_THREADS → Nat)
    (r : Fin READER_THREADS) :
    ({ next := (abs_node ins cnt (cnt r)).next,
       element := { data := (abs_node ins cnt (cnt r)).element.data,
                    read_by := Function.update (abs_node ins cnt (cnt r)).element.read_by r 1 } }
      : sbuffer_node_t)
      = abs_node ins (Function.update cnt r (cnt r + 1)) (cnt r) := by
  simp only [abs_node, sbuffer_node_t.mk.injEq, sbuffer_data_t.mk.injEq, true_and]
  funext q
  by_cases hq : q = r
  · subst hq
    simp
  · simp [Function.update_noteq hq]

theorem abs_node_bump_ne (ins : List sensor_data_t) (cnt : Fin READER_THREADS → Nat)
    (r : Fin READER_THREADS) (k : Nat) (hk : k ≠ cnt r) :
    abs_node ins (Function.update cnt r (cnt r + 1)) k = abs_node ins cnt k := by
  simp only [abs_node, sbuffer_node_t.mk.injEq, sbuffer_data_t.mk.injEq, true_and]
  funext q
  by_cases hq : q = r
  · subst hq
    have h : k < cnt q + 1 ↔ k < cnt q := by omega
    simp [h]
  · simp [Function.update_noteq hq]

theorem sbuffer_pop_abs_empty (ins : List sensor_data_t) (cnt : Fin READER_THREADS → Nat)
    (cur : Option Nat) (r : Fin READER_THREADS) (he : ¬ abs_lo cnt < ins.length) :
    sbuffer_pop (some (abs_buffer ins cnt)) cur r
      = some ⟨SBUFFER_NO_DATA, some (abs_buffer ins cnt), none, none⟩ := by
  simp [sbuffer_pop, abs_buffer, he]

theorem sbuffer_pop_abs_tail (ins : List sensor_data_t) (cnt : Fin READER_THREADS → Nat)
    (cur : Option Nat) (r : Fin READER_THREADS) (hne : abs_lo cnt < ins.length)
    (hr : cnt r = ins.length) :
    sbuffer_pop (some (abs_buffer ins cnt)) cur r
      = some ⟨SBUFFER_NO_DATA, some (abs_buffer ins cnt), some (ins.length - 1), none⟩ := by
  have hin : abs_lo cnt ≤ ins.length - 1 ∧ ins.length - 1 < ins.length := by omega
  have hrd : ins.length - 1 < cnt r := by omega
  simp [sbuffer_pop, abs_buffer, hne, hin, abs_node, hrd]

theorem pop_select_abs (ins : List sensor_data_t) (cnt : Fin READER_THREADS → Nat)
    (cur : Option Nat) (r : Fin READER_THREADS) (hne : abs_lo cnt < ins.length)
    (hr : cnt r < ins.length) (hcur : cursor_ok (abs_lo cnt) ins.length (cnt r) cur) :
    pop_select (abs_buffer ins cnt) (abs_lo cnt) cur r = some (some (cnt r)) := by
  have hlo := abs_lo_le cnt r
  have hin : abs_lo cnt ≤ abs_lo cnt ∧ abs_lo cnt < ins.length := ⟨le_refl _, hne⟩
  unfold pop_select
  rw [abs_cell_eq, if_pos hin]
  by_cases h0 : abs_lo cnt < cnt r
  · have hrb : ¬ ((abs_node ins cnt (abs_lo cnt)).element.read_by r = 0) := by
      simp [abs_node, h0]
    simp only [hrb, if_false]
    match cur, hcur with
    | none, hc =>
      simp only [cursor_ok] at hc
      omega
    | some c, hc =>
      simp only [cursor_ok] at hc
      rcases hc with hc | ⟨hc, _⟩
      · have hin2 : abs_lo cnt ≤ c ∧ c < ins.length := by omega
        have hc1 : c < cnt r := by omega
        have hc2 : c + 1 < ins.length := by omega
        simp [abs_cell_eq, hin2, abs_node, hc1, hc2, hc, hr]
      · subst hc
        have hin2 : abs_lo cnt ≤ cnt r ∧ cnt r < ins.length := by omega
        simp [abs_cell_eq, hin2, abs_node]
  · have hrb : (abs_node ins cnt (abs_lo cnt)).element.read_by r = 0 := by
      simp [abs_node, h0]
    have : abs_lo cnt = cnt r := by omega
    rw [this] at hrb
    simp only [this, hrb, if_true]

theorem sbuffer_remove_single (b : sbuffer_t) (h : Nat) (n : sbuffer_node_t)
    (hh : b.head = some h) (ht : b.tail = some h) (hc : b.cell h = some n) :
    sbuffer_remove (some b) = some ⟨SBUFFER_SUCCESS,
      some { head := none, tail := none, cell := Function.update b.cell h none, brk := b.brk },
      none⟩ := by
  simp [sbuffer_remove, hh, ht, hc]

theorem sbuffer_remove_many (b : sbuffer_t) (h : Nat) (n : sbuffer_node_t)
    (hh : b.head = some h) (ht : b.tail ≠ some h) (hc : b.cell h = some n) :
    sbuffer_remove (some b) = some ⟨SBUFFER_SUCCESS,
      some { head := n.next, tail := b.tail, cell := Function.update b.cell h none, brk := b.brk },
      none⟩ := by
  have ht2 : ¬ (some h = b.tail) := fun e => ht e.symm
  simp [sbuffer_remove, hh, ht2, hc]

theorem abs_cell_bump_keep (ins : List sensor_data_t) (cnt : Fin READER_THREADS → Nat)
    (r : Fin READER_THREADS) (hr : cnt r < ins.length)
    (hlo2 : abs_lo (Function.update cnt r (cnt r + 1)) = abs_lo cnt) :
    Function.update (abs_buffer ins cnt).cell (cnt r)
        (some (abs_node ins (Function.update cnt r (cnt r + 1)) (cnt r)))
      = (abs_buffer ins (Function.update cnt r (cnt r + 1))).cell := by
  have hlo := abs_lo_le cnt r
  funext k
  by_cases hk : k = cnt r
  · subst hk
    have hin : abs_lo cnt ≤ cnt r ∧ cnt r < ins.length := ⟨hlo, hr⟩
    simp only [Function.update_same, abs_cell_eq, hlo2, if_pos hin]
  · simp only [Function.update_noteq hk, abs_cell_eq, hlo2, abs_node_bump_ne ins cnt r k hk]

theorem abs_cell_bump_free (ins : List sensor_data_t) (cnt : Fin READER_THREADS → Nat)
    (r : Fin READER_THREADS) (n : Option sbuffer_node_t)
    (hlo1 : abs_lo cnt = cnt r)
    (hlo2 : abs_lo (Function.update cnt r (cnt r + 1)) = cnt r + 1) :
    Function.update (Function.update (abs_buffer ins cnt).cell (cnt r) n) (cnt r) none
      = (abs_buffer ins (Function.update cnt r (cnt r + 1))).cell := by
  funext k
  by_cases hk : k = cnt r
  · subst hk
    have hin : ¬ (cnt r + 1 ≤ cnt r ∧ cnt r < ins.length) := by omega
    simp only [Function.update_same, abs_cell_eq, hlo2, if_neg hin]
  · simp only [Function.update_noteq hk, abs_cell_eq, hlo1, hlo2,
      abs_node_bump_ne ins cnt r k hk]
    by_cases hin : cnt r ≤ k ∧ k < ins.length
    · have hin2 : cnt r + 1 ≤ k ∧ k < ins.length := by omega
      rw [if_pos hin, if_pos hin2]
    · have hin2 : ¬ (cnt r + 1 ≤ k ∧ k < ins.length) := by omega
      rw [if_neg hin, if_neg hin2]

theorem pop_consume_abs (ins : List sensor_data_t) (cnt : Fin READER_THREADS → Nat)
    (r : Fin READER_THREADS) (hr : cnt r < ins.length) :
    pop_consume (abs_buffer ins cnt) (some (cnt r)) r
      = some ⟨SBUFFER_SUCCESS,
          some (abs_buffer ins (Function.update cnt r (cnt r + 1))),
          if cnt r < abs_lo (Function.update cnt r (cnt r + 1)) then none
          else if cnt r + 1 < ins.length then some (cnt r + 1) else some (cnt r),
          some (ins.getD (cnt r) default)⟩ := by
  have hlo := abs_lo_le cnt r
  have hin : abs_lo cnt ≤ cnt r ∧ cnt r < ins.length := ⟨hlo, hr⟩
  have hbump := abs_lo_bump cnt r
  have hdata : (abs_node ins cnt (cnt r)).element.data = ins.getD (cnt r) default := rfl
  unfold pop_consume
  simp only [abs_cell_eq, if_pos hin, abs_node_mark, is_read_by_all_abs]
  by_cases hcomp : cnt r < abs_lo (Function.update cnt r (cnt r + 1))
  · have hlo2 : abs_lo (Function.update cnt r (cnt r + 1)) = cnt r + 1 := by
      split_ifs at hbump <;> omega
    have hlo1 : abs_lo cnt = cnt r := by
      split_ifs at hbump <;> omega
    have h10 : (1 : Int) ≠ 0 := by decide
    simp only [hcomp, if_true, h10, ne_eq, not_false_eq_true]
    have hhead : (abs_buffer ins cnt).head = some (cnt r) := by
      simp [abs_buffer, hlo1, hr]
    have htail : (abs_buffer ins cnt).tail = some (ins.length - 1) := by
      simp [abs_buffer, hlo1, hr]
    by_cases hsingle : cnt r = ins.length - 1
    · have hlen : ¬ (cnt r + 1 < ins.length) := by omega
      have hA : abs_buffer ins (Function.update cnt r (cnt r + 1)) =
          { head := none, tail := none,
            cell := (abs_buffer ins (Function.update cnt r (cnt r + 1))).cell,
            brk := ins.length } := by
        simp [abs_buffer, hlo2, hlen]
      rw [hA, ← abs_cell_bump_free ins cnt r _ hlo1 hlo2]
      rw [sbuffer_remove_single
        { head := (abs_buffer ins cnt).head, tail := (abs_buffer ins cnt).tail,
          cell := Function.update (abs_buffer ins cnt).cell (cnt r)
            (some (abs_node ins (Function.update cnt r (cnt r + 1)) (cnt r))),
          brk := (abs_buffer ins cnt).brk }
        (cnt r) _ hhead (by rw [htail, hsingle]) (Function.update_same _ _ _)]
      rfl
    · have hlen : cnt r + 1 < ins.length := by omega
      have hA : abs_buffer ins (Function.update cnt r (cnt r + 1)) =
          { head := some (cnt r + 1), tail := some (ins.length - 1),
            cell := (abs_buffer ins (Function.update cnt r (cnt r + 1))).cell,
            brk := ins.length } := by
        simp [abs_buffer, hlo2, hlen]
      have hnext : (abs_node ins (Function.update cnt r (cnt r + 1)) (cnt r)).next
          = some (cnt r + 1) := by
        simp [abs_node, hlen]
      rw [hA, ← abs_cell_bump_free ins cnt r _ hlo1 hlo2]
      rw [sbuffer_remove_many
        { head := (abs_buffer ins cnt).head, tail := (abs_buffer ins cnt).tail,
          cell := Function.update (abs_buffer ins cnt).cell (cnt r)
            (some (abs_node ins (Function.update cnt r (cnt r + 1)) (cnt r))),
          brk := (abs_buffer ins cnt).brk }
        (cnt r) _ hhead
        (by rw [htail]; intro e; exact hsingle (Option.some.inj e).symm)
        (Function.update_same _ _ _)]
      simp only [hnext, htail]
      rfl
  · have hlo2 : abs_lo (Function.update cnt r (cnt r + 1)) = abs_lo cnt := by
      split_ifs at hbump <;> omega
    simp only [hcomp, if_false, ne_eq, not_true_eq_false]
    have hA : abs_buffer ins (Function.update cnt r (cnt r + 1)) =
        { head := (abs_buffer ins cnt).head, tail := (abs_buffer ins cnt).tail,
          cell := (abs_buffer ins (Function.update cnt r (cnt r + 1))).cell,
          brk := (abs_buffer ins cnt).brk } := by
      simp [abs_buffer, hlo2]
    rw [abs_cell_bump_keep ins cnt r hr hlo2, ← hA]
    by_cases hlen : cnt r + 1 < ins.length
    · simp [abs_node, hlen]
    · simp [abs_node, hlen]

theorem sbuffer_pop_abs_success (ins : List sensor_data_t) (cnt : Fin READER_THREADS → Nat)
    (cur : Option Nat) (r : Fin READER_THREADS)
    (hr : cnt r < ins.length) (hcur : cursor_ok (abs_lo cnt) ins.length (cnt r) cur) :
    sbuffer_pop (some (abs_buffer ins cnt)) cur r
      = some ⟨SBUFFER_SUCCESS,
          some (abs_buffer ins (Function.update cnt r (cnt r + 1))),
          if cnt r < abs_lo (Function.update cnt r (cnt r + 1)) then none
          else if cnt r + 1 < ins.length then some (cnt r + 1) else some (cnt r),
          some (ins.getD (cnt r) default)⟩ := by
  have hlo := abs_lo_le cnt r
  have hne : abs_lo cnt < ins.length := by omega
  have hhead : (abs_buffer ins cnt).head = some (abs_lo cnt) := by
    simp [abs_buffer, hne]
  have htail : (abs_buffer ins cnt).tail = some (ins.length - 1) := by
    simp [abs_buffer, hne]
  have hin : abs_lo cnt ≤ ins.length - 1 ∧ ins.length - 1 < ins.length := by omega
  have hin0 : abs_lo cnt ≤ abs_lo cnt ∧ abs_lo cnt < ins.length := ⟨le_refl _, hne⟩
  have hrd : ¬ (ins.length - 1 < cnt r) := by omega
  have hall : _is_read_by_all (abs_node ins cnt (abs_lo cnt)) = 0 := by
    rw [is_read_by_all_abs]
    simp
  unfold sbuffer_pop
  simp only [hhead, htail, abs_cell_eq, if_pos hin, if_pos hin0, hall]
  have htr : decide ((abs_node ins cnt (ins.length - 1)).element.read_by r = 1) = false := by
    simp [abs_node, hrd]
  simp only [htr]
  by_cases hc : cur = some (abs_lo cnt)
  · simp only [hc, if_true, ne_eq, not_true_eq_false, decide_False]
    rw [← hc, pop_select_abs ins cnt cur r hne hr hcur]
    exact pop_consume_abs ins cnt r hr
  · simp only [hc, if_false]
    rw [pop_select_abs ins cnt cur r hne hr hcur]
    exact pop_consume_abs ins cnt r hr

/-! ## Reachable states of the shared buffer -/

theorem sb_inv_init : sb_inv sb_init := by
  refine ⟨?_, ?_, ?_, ?_⟩
  · simp only [sb_init, sbuffer_init, abs_buffer, List.length_nil, Nat.not_lt_zero, if_false,
      Option.some.injEq, sbuffer_t.mk.injEq, true_and, and_true]
    funext k
    simp
  · intro r
    simp [sb_init, sb_count]
  · intro r
    simp [sb_init, sb_count]
  · intro r
    simp [sb_init, sb_count, cursor_ok, abs_lo]

theorem cursor_ok_mono (lo n c : Nat) (p : Option Nat) (h : cursor_ok lo n c p) :
    cursor_ok lo (n + 1) c p := by
  match p, h with
  | none, h => exact h
  | some q, h =>
    simp only [cursor_ok] at h ⊢
    omega

theorem sb_inv_insert (s : sb_sys) (h : sb_inv s) (d : sensor_data_t) :
    ∃ s1, sb_step s (sb_op.insert d) = some s1 ∧ sb_inv s1 ∧
      s1.inserted = s.inserted ++ [d] ∧ s1.delivered = s.delivered := by
  obtain ⟨hb, hd, hc, hcur⟩ := h
  refine ⟨{ s with buffer := some (abs_buffer (s.inserted ++ [d]) (sb_count s)),
                   inserted := s.inserted ++ [d] }, ?_, ?_, rfl, rfl⟩
  · simp only [sb_step, hb, sbuffer_insert_abs s.inserted (sb_count s) hc d]
    simp
  · refine ⟨rfl, ?_, ?_, ?_⟩
    · intro r
      have := hd r
      have h2 := hc r
      show s.delivered r = (s.inserted ++ [d]).take (sb_count s r)
      rw [List.take_append_of_le_length h2]
      exact this
    · intro r
      have h2 := hc r
      show sb_count s r ≤ (s.inserted ++ [d]).length
      simp only [List.length_append, List.length_singleton]
      omega
    · intro r
      show cursor_ok (abs_lo (sb_count s)) (s.inserted ++ [d]).length (sb_count s r) (s.node r)
      simp only [List.length_append, List.length_singleton]
      exact cursor_ok_mono _ _ _ _ (hcur r)

theorem sb_inv_of_same_history (s s1 : sb_sys) (h : sb_inv s)
    (hbuf : s1.buffer = s.buffer) (hins : s1.inserted = s.inserted)
    (hdel : s1.delivered = s.delivered)
    (hcur : ∀ q, cursor_ok (abs_lo (sb_count s)) s.inserted.length (sb_count s q) (s1.node q)) :
    sb_inv s1 := by
  have hcnt : sb_count s1 = sb_count s := by
    funext q
    simp [sb_count, hdel]
  unfold sb_inv
  rw [hcnt, hbuf, hins, hdel]
  exact ⟨h.1, h.2.1, h.2.2.1, hcur⟩

theorem sb_inv_pop_nodata (s : sb_sys) (h : sb_inv s) (r : Fin READER_THREADS)
    (hfull : sb_count s r = s.inserted.length) :
    ∃ p, sbuffer_pop s.buffer (s.node r) r = some p ∧ sb_inv (sb_after_pop s r p) ∧
      p.ret = SBUFFER_NO_DATA ∧ p.buffer = s.buffer ∧ p.data = none := by
  have hb := h.1
  have hcur := h.2.2.2
  have hlo := abs_lo_le (sb_count s) r
  have hret : ¬ (SBUFFER_NO_DATA = SBUFFER_SUCCESS) := by decide
  by_cases he : abs_lo (sb_count s) < s.inserted.length
  · refine ⟨_, by rw [hb]; exact sbuffer_pop_abs_tail _ _ _ r he hfull, ?_, rfl, hb.symm, rfl⟩
    refine sb_inv_of_same_history s _ h hb.symm rfl (by simp [sb_after_pop, hret]) ?_
    intro q
    show cursor_ok _ _ (sb_count s q) (Function.update s.node r (some (s.inserted.length - 1)) q)
    by_cases hq : q = r
    · subst hq
      simp only [Function.update_same, cursor_ok]
      left
      omega
    · rw [Function.update_noteq hq]
      exact hcur q
  · refine ⟨_, by rw [hb]; exact sbuffer_pop_abs_empty _ _ _ r he, ?_, rfl, hb.symm, rfl⟩
    refine sb_inv_of_same_history s _ h hb.symm rfl (by simp [sb_after_pop, hret]) ?_
    intro q
    show cursor_ok _ _ (sb_count s q) (Function.update s.node r none q)
    by_cases hq : q = r
    · subst hq
      simp only [Function.update_same, cursor_ok]
      omega
    · rw [Function.update_noteq hq]
      exact hcur q

theorem sb_inv_of_bump (s s1 : sb_sys) (h : sb_inv s) (r : Fin READER_THREADS)
    (hlt : sb_count s r < s.inserted.length)
    (hbuf : s1.buffer = some (abs_buffer s.inserted
      (Function.update (sb_count s) r (sb_count s r + 1))))
    (hins : s1.inserted = s.inserted)
    (hdel : s1.delivered = Function.update s.delivered r
      (s.delivered r ++ [s.inserted.getD (sb_count s r) default]))
    (hnode : s1.node = Function.update s.node r
      (if sb_count s r < abs_lo (Function.update (sb_count s) r (sb_count s r + 1)) then none
       else if sb_count s r + 1 < s.inserted.length then some (sb_count s r + 1)
       else some (sb_count s r))) :
    sb_inv s1 := by
  obtain ⟨hb, hd, hc, hcur⟩ := h
  have hlo := abs_lo_le (sb_count s) r
  have hbump := abs_lo_bump (sb_count s) r
  have hcnt : sb_count s1 = Function.update (sb_count s) r (sb_count s r + 1) := by
    funext q
    show (s1.delivered q).length = _
    rw [hdel]
    by_cases hq : q = r
    · subst hq
      simp [sb_count]
    · simp [Function.update_noteq hq, sb_count]
  unfold sb_inv
  rw [hcnt, hdel, hins, hbuf, hnode]
  refine ⟨rfl, ?_, ?_, ?_⟩
  · intro q
    by_cases hq : q = r
    · subst hq
      simp only [Function.update_same]
      have h1 := hd q
      have hlen : (s.delivered q).length = sb_count s q := rfl
      rw [List.take_succ, ← h1]
      congr 1
      rw [List.getD_eq_getElem?_getD, List.getElem?_eq_getElem hlt]
      rfl
    · rw [Function.update_noteq hq, Function.update_noteq hq]
      exact hd q
  · intro q
    by_cases hq : q = r
    · subst hq
      simp only [Function.update_same]
      omega
    · rw [Function.update_noteq hq]
      exact hc q
  · intro q
    by_cases hq : q = r
    · subst hq
      simp only [Function.update_same]
      by_cases hcomp : sb_count s q < abs_lo (Function.update (sb_count s) q (sb_count s q + 1))
      · simp only [hcomp, if_true, cursor_ok]
        split_ifs at hbump <;> omega
      · simp only [hcomp, if_false]
        by_cases hlen : sb_count s q + 1 < s.inserted.length
        · simp only [hlen, if_true, cursor_ok]
          exact Or.inr ⟨trivial, trivial⟩
        · simp only [hlen, if_false, cursor_ok]
          exact Or.inl trivial
    · rw [Function.update_noteq hq, Function.update_noteq hq]
      have hq0 := hcur q
      match hn : s.node q, hq0 with
      | none, hq0 =>
        simp only [cursor_ok] at hq0 ⊢
        rw [hbump]
        by_cases hcond : abs_lo (sb_count s) = sb_count s r ∧
            ∀ q1, q1 ≠ r → sb_count s r < sb_count s q1
        · have := hcond.2 q hq
          omega
        · rw [if_neg hcond]
          exact hq0
      | some c, hq0 =>
        simp only [cursor_ok] at hq0 ⊢
        exact hq0

theorem sb_inv_pop_success (s : sb_sys) (h : sb_inv s) (r : Fin READER_THREADS)
    (hlt : sb_count s r < s.inserted.length) :
    ∃ p, sbuffer_pop s.buffer (s.node r) r = some p ∧ sb_inv (sb_after_pop s r p) ∧
      p.ret = SBUFFER_SUCCESS ∧
      p.data = some (s.inserted.getD (sb_count s r) default) ∧
      p.buffer = some (abs_buffer s.inserted
        (Function.update (sb_count s) r (sb_count s r + 1))) := by
  have hb := h.1
  have hcur := h.2.2.2
  refine ⟨_, by rw [hb]; exact sbuffer_pop_abs_success _ _ _ r hlt (hcur r), ?_, rfl, rfl, rfl⟩
  refine sb_inv_of_bump s _ h r hlt rfl rfl ?_ rfl
  simp [sb_after_pop]

theorem sb_inv_step (s : sb_sys) (h : sb_inv s) (op : sb_op) :
    ∃ s1, sb_step s op = some s1 ∧ sb_inv s1 := by
  match op with
  | sb_op.insert d =>
    obtain ⟨s1, h1, h2, _⟩ := sb_inv_insert s h d
    exact ⟨s1, h1, h2⟩
  | sb_op.pop r =>
    by_cases hlt : sb_count s r < s.inserted.length
    · obtain ⟨p, hp, hi, _⟩ := sb_inv_pop_success s h r hlt
      exact ⟨sb_after_pop s r p, by simp [sb_step, hp], hi⟩
    · have hfull : sb_count s r = s.inserted.length := by
        have := h.2.2.1 r
        omega
      obtain ⟨p, hp, hi, _⟩ := sb_inv_pop_nodata s h r hfull
      exact ⟨sb_after_pop s r p, by simp [sb_step, hp], hi⟩

theorem sb_inv_run_from (ops : List sb_op) :
    ∀ s, sb_inv s → ∃ s1, sb_run_from s ops = some s1 ∧ sb_inv s1 := by
  induction ops with
  | nil =>
    intro s h
    exact ⟨s, rfl, h⟩
  | cons op rest ih =>
    intro s h
    obtain ⟨s1, h1, h2⟩ := sb_inv_step s h op
    obtain ⟨s2, h3, h4⟩ := ih s1 h2
    exact ⟨s2, by simp [sb_run_from, h1, h3], h4⟩

theorem sb_inv_run (ops : List sb_op) : ∃ s, sb_run ops = some s ∧ sb_inv s :=
  sb_inv_run_from ops sb_init sb_inv_init

theorem sb_inv_of_run (ops : List sb_op) (s : sb_sys) (h : sb_run ops = some s) : sb_inv s := by
  obtain ⟨s1, h1, h2⟩ := sb_inv_run ops
  rw [h] at h1
  cases h1
  exact h2

theorem chain_from_abs (ins : List sensor_data_t) (cnt : Fin READER_THREADS → Nat) :
    ∀ n k fuel, abs_lo cnt ≤ k → k + n = ins.length → n ≤ fuel →
      chain_from (abs_buffer ins cnt).cell fuel (if k < ins.length then some k else none)
        = List.range' k n := by
  intro n
  induction n with
  | zero =>
    intro k fuel _ hk _
    have : ¬ k < ins.length := by omega
    rw [if_neg this]
    cases fuel <;> rfl
  | succ n ih =>
    intro k fuel hlo hk hf
    have hlt : k < ins.length := by omega
    match fuel, hf with
    | f + 1, hf =>
      have hin : abs_lo cnt ≤ k ∧ k < ins.length := ⟨hlo, hlt⟩
      rw [if_pos hlt]
      simp only [chain_from, abs_cell_eq, if_pos hin]
      have hnext : (abs_node ins cnt k).next = if k + 1 < ins.length then some (k + 1) else none :=
        rfl
      rw [hnext, ih (k + 1) f (by omega) (by omega) (by omega)]
      rfl

theorem filterMap_eq_map_of_some {α β : Type} (f : α → Option β) (g : α → β) :
    ∀ l : List α, (∀ x ∈ l, f x = some (g x)) → l.filterMap f = l.map g := by
  intro l
  induction l with
  | nil => intro _; rfl
  | cons a t ih =>
    intro h
    rw [List.filterMap_cons, h a (List.mem_cons_self a t), List.map_cons,
      ih (fun x hx => h x (List.mem_cons_of_mem a hx))]

theorem sbuffer_nodes_abs (ins : List sensor_data_t) (cnt : Fin READER_THREADS → Nat)
    (hlo : abs_lo cnt ≤ ins.length) :
    sbuffer_nodes (abs_buffer ins cnt)
      = (List.range' (abs_lo cnt) (ins.length - abs_lo cnt)).map (abs_node ins cnt) := by
  have hchain : sbuffer_chain (abs_buffer ins cnt)
      = List.range' (abs_lo cnt) (ins.length - abs_lo cnt) :=
    chain_from_abs ins cnt (ins.length - abs_lo cnt) (abs_lo cnt) ins.length (le_refl _)
      (by omega) (by omega)
  unfold sbuffer_nodes
  rw [hchain]
  apply filterMap_eq_map_of_some
  intro k hk
  rw [List.mem_range'_1] at hk
  have hin : abs_lo cnt ≤ k ∧ k < ins.length := by omega
  rw [abs_cell_eq, if_pos hin]

theorem map_getD_range' (ins : List sensor_data_t) :
    ∀ n k, k + n = ins.length →
      (List.range' k n).map (fun i => ins.getD i default) = ins.drop k := by
  intro n
  induction n with
  | zero =>
    intro k hk
    have : ins.length ≤ k := by omega
    rw [List.drop_eq_nil_of_le this]
    rfl
  | succ n ih =>
    intro k hk
    have hlt : k < ins.length := by omega
    rw [List.range'_succ, List.map_cons, ih (k + 1) (by omega), List.drop_eq_getElem_cons hlt]
    congr 1
    rw [List.getD_eq_getElem?_getD, List.getElem?_eq_getElem hlt]
    rfl

/-! ## Theorems for the claims -/

/-- C1. Every sequence of atomic inserts and pops from the empty buffer runs
without undefined behaviour, and in the state reached the readings delivered to
each reader (the values its successful pops returned, in order) form a prefix of
the inserted readings: same order, none skipped, none repeated. -/
theorem sbuffer_delivery_is_insertion_prefix (ops : List sb_op) :
    ∃ s, sb_run ops = some s ∧ ∀ r, s.delivered r <+: s.inserted := by
  obtain ⟨s, hs, hi⟩ := sb_inv_run ops
  refine ⟨s, hs, ?_⟩
  intro r
  rw [hi.2.1 r]
  exact List.take_prefix _ _

/-- C3. In every reachable state a pop by reader `r` is defined, and when it
returns `SBUFFER_NO_DATA` reader `r` has already been given every reading
inserted so far. -/
theorem sbuffer_no_data_means_all_delivered (ops : List sb_op) :
    ∃ s, sb_run ops = some s ∧
      ∀ r, ∃ p, sbuffer_pop s.buffer (s.node r) r = some p ∧
        (p.ret = SBUFFER_NO_DATA → s.delivered r = s.inserted) := by
  obtain ⟨s, hs, hi⟩ := sb_inv_run ops
  refine ⟨s, hs, ?_⟩
  intro r
  by_cases hlt : sb_count s r < s.inserted.length
  · obtain ⟨p, hp, _, hret, _⟩ := sb_inv_pop_success s hi r hlt
    refine ⟨p, hp, ?_⟩
    intro hnd
    rw [hret] at hnd
    exact absurd hnd (by decide)
  · have hfull : sb_count s r = s.inserted.length := by
      have := hi.2.2.1 r
      omega
    obtain ⟨p, hp, _⟩ := sb_inv_pop_nodata s hi r hfull
    refine ⟨p, hp, ?_⟩
    intro _
    rw [hi.2.1 r, hfull]
    exact List.take_length s.inserted


/-- C2. In every reachable state, with `m` the least number of readings any
reader has been given, the nodes held by the buffer carry exactly the inserted
readings from position `m` on, in insertion order (those some reader has not
yet been given); the mark of reader `r` on the node of reading `m + i` is set
exactly when `r` has been given that reading; and no node marked by all readers
remains in the buffer. -/
theorem sbuffer_holds_exactly_unconsumed (ops : List sb_op) :
    ∃ s b m, sb_run ops = some s ∧ s.buffer = some b ∧
      (∀ r, m ≤ (s.delivered r).length) ∧ (∃ r, (s.delivered r).length = m) ∧
      (sbuffer_nodes b).map (fun n => n.element.data) = s.inserted.drop m ∧
      (∀ i n, (sbuffer_nodes b)[i]? = some n →
        ∀ r, n.element.read_by r = if m + i < (s.delivered r).length then 1 else 0) ∧
      (∀ n ∈ sbuffer_nodes b, _is_read_by_all n = 0) := by
  obtain ⟨s, hs, hi⟩ := sb_inv_run ops
  have hlo : abs_lo (sb_count s) ≤ s.inserted.length :=
    le_trans (abs_lo_le (sb_count s) 0) (hi.2.2.1 0)
  have hnodes := sbuffer_nodes_abs s.inserted (sb_count s) hlo
  refine ⟨s, abs_buffer s.inserted (sb_count s), abs_lo (sb_count s), hs, hi.1,
    abs_lo_le (sb_count s), abs_lo_attained (sb_count s), ?_, ?_, ?_⟩
  · rw [hnodes, List.map_map]
    exact map_getD_range' s.inserted _ _ (by omega)
  · intro i n hn r
    rw [hnodes, List.getElem?_map] at hn
    by_cases hi2 : i < s.inserted.length - abs_lo (sb_count s)
    · rw [List.getElem?_range' _ _ hi2] at hn
      simp only [Option.map_some', Option.some.injEq, one_mul] at hn
      rw [← hn]
      rfl
    · rw [List.getElem?_eq_none (by simp; omega)] at hn
      simp at hn
  · intro n hn
    rw [hnodes, List.mem_map] at hn
    obtain ⟨k, hmem, hk⟩ := hn
    rw [List.mem_range'_1] at hmem
    rw [← hk, is_read_by_all_abs, if_neg (by omega)]

/-! ## Well-formed buffers -/

theorem is_chain_det (cell : Nat → Option sbuffer_node_t) :
    ∀ (l1 l2 : List Nat) (p : Option Nat), is_chain cell p l1 → is_chain cell p l2 → l1 = l2 := by
  intro l1
  induction l1 with
  | nil =>
    intro l2 p h1 h2
    match l2, h2 with
    | [], _ => rfl
    | a :: t, h2 =>
      simp only [is_chain] at h1 h2
      rw [h1] at h2
      exact absurd h2.1 (by simp)
  | cons a t ih =>
    intro l2 p h1 h2
    match l2, h2 with
    | [], h2 =>
      simp only [is_chain] at h1 h2
      rw [h2] at h1
      exact absurd h1.1 (by simp)
    | a2 :: t2, h2 =>
      simp only [is_chain] at h1 h2
      obtain ⟨hp1, n1, hc1, hr1⟩ := h1
      obtain ⟨hp2, n2, hc2, hr2⟩ := h2
      have ha : a = a2 := by
        rw [hp1] at hp2
        exact Option.some.inj hp2
      subst ha
      rw [hc1] at hc2
      have hn : n1 = n2 := Option.some.inj hc2
      subst hn
      rw [ih t2 n1.next hr1 hr2]

theorem is_chain_suffix (cell : Nat → Option sbuffer_node_t) :
    ∀ (l1 : List Nat) (a : Nat) (l2 : List Nat) (p : Option Nat),
      is_chain cell p (l1 ++ a :: l2) → is_chain cell (some a) (a :: l2) := by
  intro l1
  induction l1 with
  | nil =>
    intro a l2 p h
    simp only [List.nil_append, is_chain] at h ⊢
    exact ⟨trivial, h.2⟩
  | cons x t ih =>
    intro a l2 p h
    simp only [List.cons_append, is_chain] at h
    obtain ⟨_, n, _, hr⟩ := h
    exact ih a l2 n.next hr

theorem is_chain_nodup (cell : Nat → Option sbuffer_node_t) :
    ∀ (l : List Nat) (p : Option Nat), is_chain cell p l → l.Nodup := by
  intro l
  induction l with
  | nil => intro _ _; exact List.nodup_nil
  | cons a t ih =>
    intro p h
    have h0 := h
    simp only [is_chain] at h
    obtain ⟨hp, n, hc, hr⟩ := h
    rw [List.nodup_cons]
    refine ⟨?_, ih n.next hr⟩
    intro hmem
    obtain ⟨l1, l2, ht⟩ := List.append_of_mem hmem
    rw [ht] at hr
    have h1 := is_chain_suffix cell l1 a l2 n.next hr
    rw [hp] at h0
    have h2 := is_chain_det cell _ _ _ h1 h0
    have h3 : l2.length = t.length := by
      have := congrArg List.length h2
      simpa using this
    rw [ht] at h3
    simp at h3
    omega

theorem chain_from_of_is_chain (cell : Nat → Option sbuffer_node_t) :
    ∀ (l : List Nat) (p : Option Nat) (fuel : Nat), is_chain cell p l → l.length ≤ fuel →
      chain_from cell fuel p = l := by
  intro l
  induction l with
  | nil =>
    intro p fuel h _
    simp only [is_chain] at h
    rw [h]
    cases fuel <;> rfl
  | cons a t ih =>
    intro p fuel h hf
    simp only [is_chain] at h
    obtain ⟨hp, n, hc, hr⟩ := h
    match fuel, hf with
    | f + 1, hf =>
      rw [hp]
      simp only [chain_from, hc]
      rw [ih n.next f hr (by simpa using hf)]

theorem is_chain_mem_alloc (cell : Nat → Option sbuffer_node_t) :
    ∀ (l : List Nat) (p : Option Nat), is_chain cell p l → ∀ a ∈ l, ∃ n, cell a = some n := by
  intro l
  induction l with
  | nil => intro _ _ a ha; exact absurd ha (List.not_mem_nil a)
  | cons x t ih =>
    intro p h a ha
    simp only [is_chain] at h
    obtain ⟨_, n, hc, hr⟩ := h
    rcases List.mem_cons.mp ha with hax | hat
    · exact ⟨n, by rw [hax]; exact hc⟩
    · exact ih n.next hr a hat

theorem sbuffer_wf_lt_brk (b : sbuffer_t) (ids : List Nat) (h : sbuffer_wf b ids) :
    ∀ a ∈ ids, a < b.brk := by
  intro a ha
  obtain ⟨n, hn⟩ := is_chain_mem_alloc b.cell ids b.head h.1 a ha
  by_contra hge
  have := h.2.2 a (by omega)
  rw [this] at hn
  exact absurd hn (by simp)

theorem sbuffer_chain_of_wf (b : sbuffer_t) (ids : List Nat) (h : sbuffer_wf b ids) :
    sbuffer_chain b = ids := by
  have hnd := is_chain_nodup b.cell ids b.head h.1
  have hsub : ids ⊆ List.range b.brk := by
    intro a ha
    exact List.mem_range.mpr (sbuffer_wf_lt_brk b ids h a ha)
  have hlen : ids.length ≤ b.brk := by
    have := (List.subperm_of_subset hnd hsub).length_le
    simpa using this
  exact chain_from_of_is_chain b.cell ids b.head b.brk h.1 hlen

theorem filterMap_map_congr {α β γ : Type} (f g : α → Option β) (e : β → γ) :
    ∀ l : List α, (∀ x ∈ l, (f x).map e = (g x).map e) →
      (l.filterMap f).map e = (l.filterMap g).map e := by
  intro l
  induction l with
  | nil => intro _; rfl
  | cons a t ih =>
    intro h
    have ha := h a (List.mem_cons_self a t)
    have ht := ih (fun x hx => h x (List.mem_cons_of_mem a hx))
    rw [List.filterMap_cons, List.filterMap_cons]
    match hf : f a, hg : g a with
    | none, none => simpa using ht
    | none, some y => rw [hf, hg] at ha; simp at ha
    | some x, none => rw [hf, hg] at ha; simp at ha
    | some x, some y =>
      rw [hf, hg] at ha
      simp only [Option.map_some', Option.some.injEq] at ha
      simp only [List.map_cons, ha, ht]

theorem is_chain_link_new (cell : Nat → Option sbuffer_node_t) (t brk : Nat)
    (tn nn : sbuffer_node_t) (hnn : nn.next = none) (htb : t ≠ brk) :
    ∀ (l : List Nat) (p : Option Nat), is_chain cell p (l ++ [t]) → t ∉ l → brk ∉ l →
      is_chain (Function.update (Function.update cell brk (some nn)) t
        (some { tn with next := some brk })) p (l ++ [t] ++ [brk]) := by
  intro l
  induction l with
  | nil =>
    intro p h _ _
    simp only [List.nil_append, is_chain] at h
    simp only [List.nil_append, List.singleton_append, is_chain, Function.update_same]
    refine ⟨h.1, _, rfl, rfl, nn, ?_, hnn⟩
    rw [Function.update_noteq (Ne.symm htb), Function.update_same]
  | cons x r ih =>
    intro p h ht hb
    simp only [List.cons_append, is_chain] at h
    obtain ⟨hp, n, hc, hr⟩ := h
    have hxt : x ≠ t := fun e => ht (by rw [e]; exact List.mem_cons_self _ _)
    have hxb : x ≠ brk := fun e => hb (by rw [e]; exact List.mem_cons_self _ _)
    simp only [List.cons_append, is_chain]
    refine ⟨hp, n, ?_, ?_⟩
    · rw [Function.update_noteq hxt, Function.update_noteq hxb]
      exact hc
    · have := ih n.next hr (fun hm => ht (List.mem_cons_of_mem _ hm))
        (fun hm => hb (List.mem_cons_of_mem _ hm))
      simpa using this

theorem sbuffer_insert_wf (b : sbuffer_t) (ids : List Nat)
    (d : sensor_data_t) (h : sbuffer_wf b ids) :
    ∃ b1, sbuffer_insert (some b) d true = some (SBUFFER_SUCCESS, some b1) ∧
      sbuffer_wf b1 (ids ++ [b.brk]) ∧
      (sbuffer_nodes b1).map (fun n => n.element)
        = (sbuffer_nodes b).map (fun n => n.element) ++ [⟨d, fun _ => 0⟩] := by
  have hlt := sbuffer_wf_lt_brk b ids h
  have hnd := is_chain_nodup b.cell ids b.head h.1
  have hnodes : sbuffer_nodes b = ids.filterMap b.cell := by
    unfold sbuffer_nodes
    rw [sbuffer_chain_of_wf b ids h]
  have hbrk : b.cell b.brk = none := h.2.2 b.brk (le_refl _)
  obtain ⟨hch, htl, hfree⟩ := h
  -- the conclusion, once the result buffer is known to be well-formed
  have hfin : ∀ b1 : sbuffer_t, sbuffer_wf b1 (ids ++ [b.brk]) →
      b1.cell b.brk = some ⟨none, ⟨d, fun _ => 0⟩⟩ →
      (∀ a ∈ ids, (b1.cell a).map (fun n => n.element) = (b.cell a).map (fun n => n.element)) →
      (sbuffer_nodes b1).map (fun n => n.element)
        = (sbuffer_nodes b).map (fun n => n.element) ++ [⟨d, fun _ => 0⟩] := by
    intro b1 hwf hnew hold
    have h1 : sbuffer_nodes b1 = (ids ++ [b.brk]).filterMap b1.cell := by
      unfold sbuffer_nodes
      rw [sbuffer_chain_of_wf b1 _ hwf]
    rw [h1, hnodes, List.filterMap_append, List.map_append,
      filterMap_map_congr b1.cell b.cell _ ids hold]
    simp [hnew]
  rcases List.eq_nil_or_concat ids with hnil | ⟨l, t, hcat⟩
  · subst hnil
    simp only [is_chain] at hch
    simp only [List.getLast?_nil] at htl
    have hwf : sbuffer_wf ⟨some b.brk, some b.brk,
        Function.update b.cell b.brk (some ⟨none, ⟨d, fun _ => 0⟩⟩), b.brk + 1⟩
        ([] ++ [b.brk]) := by
      refine ⟨?_, ?_, ?_⟩
      · simp [is_chain]
      · simp
      · intro a ha
        have hne : a ≠ b.brk := by
          intro e
          rw [e] at ha
          simp at ha
        show Function.update b.cell b.brk _ a = none
        rw [Function.update_noteq hne]
        exact hfree a (by simp at ha; omega)
    refine ⟨_, ?_, hwf, hfin _ hwf (by simp) (by simp)⟩
    simp [sbuffer_insert, htl]
  · have hcat2 : ids = l ++ [t] := by simpa using hcat
    subst hcat2
    have htail : b.tail = some t := by simpa using htl
    have htb : t < b.brk := hlt t (by simp)
    have htne : t ≠ b.brk := by omega
    obtain ⟨tn, hct⟩ := is_chain_mem_alloc b.cell _ b.head hch t (by simp)
    have hnd2 : t ∉ l := by
      have := List.nodup_append.mp hnd
      intro hm
      exact this.2.2 hm (by simp) 
    have hbl : b.brk ∉ l := by
      intro hm
      have := hlt b.brk (by simp [hm])
      omega
    have hwf : sbuffer_wf ⟨b.head, some b.brk,
        Function.update (Function.update b.cell b.brk (some ⟨none, ⟨d, fun _ => 0⟩⟩))
          t (some { tn with next := some b.brk }), b.brk + 1⟩
        (l ++ [t] ++ [b.brk]) := by
      refine ⟨?_, ?_, ?_⟩
      · exact is_chain_link_new b.cell t b.brk tn _ rfl htne l b.head hch hnd2 hbl
      · simp
      · intro a ha
        have hne : a ≠ b.brk := by
          intro e
          rw [e] at ha
          simp at ha
        have hne2 : a ≠ t := by
          intro e
          rw [e] at ha
          simp at ha
          omega
        show Function.update (Function.update b.cell b.brk _) t _ a = none
        rw [Function.update_noteq hne2, Function.update_noteq hne]
        exact hfree a (by simp at ha; omega)
    refine ⟨_, ?_, hwf, ?_⟩
    · simp [sbuffer_insert, htail, Function.update_noteq htne, hct]
    · refine hfin _ hwf ?_ ?_
      · show Function.update (Function.update b.cell b.brk _) t _ b.brk = _
        rw [Function.update_noteq (Ne.symm htne), Function.update_same]
      · intro a ha
        show (Function.update (Function.update b.cell b.brk _) t _ a).map _ = _
        by_cases hat : a = t
        · subst hat
          rw [Function.update_same, hct]
          rfl
        · have hab : a ≠ b.brk := by
            have := hlt a ha
            omega
          rw [Function.update_noteq hat, Function.update_noteq hab]

/-- C9. For a well-formed (non-null) buffer and any reading, with `malloc`
succeeding, `sbuffer_insert` returns `SBUFFER_SUCCESS`; the buffer stays
well-formed, its chain is the old chain followed by the one new node, and the
sequence of (reading, marks) of its nodes is the old sequence followed by the
new reading with every mark 0. -/
theorem sbuffer_insert_appends_unread_node (b : sbuffer_t) (ids : List Nat)
    (d : sensor_data_t) (h : sbuffer_wf b ids) :
    ∃ b1, sbuffer_insert (some b) d true = some (SBUFFER_SUCCESS, some b1) ∧
      sbuffer_wf b1 (ids ++ [b.brk]) ∧
      (sbuffer_nodes b1).map (fun n => n.element)
        = (sbuffer_nodes b).map (fun n => n.element) ++ [⟨d, fun _ => 0⟩] :=
  sbuffer_insert_wf b ids d h

/-! ## Frame of `sbuffer_pop` -/

theorem update_none_some {β : Type} (f : Nat → Option β) (c a : Nat) (n : β)
    (h : Function.update f c none a = some n) : f a = some n := by
  by_cases hac : a = c
  · subst hac
    rw [Function.update_same] at h
    exact absurd h (by simp)
  · rw [Function.update_noteq hac] at h
    exact h

theorem sbuffer_remove_cells (b : sbuffer_t) (rr : remove_result)
    (h : sbuffer_remove (some b) = some rr) :
    ∃ b1, rr.buffer = some b1 ∧ ∀ a n, b1.cell a = some n → b.cell a = some n := by
  unfold sbuffer_remove at h
  simp only at h
  split at h
  · cases h
    exact ⟨b, rfl, fun _ _ hn => hn⟩
  · rename_i dummy hd
    split at h
    · split at h
      · exact absurd h (by simp)
      · cases h
        exact ⟨_, rfl, fun a n hn => update_none_some b.cell dummy a n hn⟩
    · split at h
      · exact absurd h (by simp)
      · cases h
        exact ⟨_, rfl, fun a n hn => update_none_some b.cell dummy a n hn⟩

theorem pop_consume_frame (b : sbuffer_t) (node : Option Nat) (r : Fin READER_THREADS)
    (p : pop_result) (h : pop_consume b node r = some p) :
    p.ret = SBUFFER_SUCCESS ∧
    ∃ c cn b1, b.cell c = some cn ∧ p.data = some cn.element.data ∧ p.buffer = some b1 ∧
      ∀ a n, b1.cell a = some n →
        (a = c ∧ n = { cn with element := { cn.element with
            read_by := Function.update cn.element.read_by r 1 } }) ∨
        (a ≠ c ∧ b.cell a = some n) := by
  unfold pop_consume at h
  split at h
  · exact absurd h (by simp)
  · rename_i c
    split at h
    · exact absurd h (by simp)
    · rename_i cn hcn
      have hupd : ∀ a n, Function.update b.cell c (some ({ cn with element := { cn.element with
            read_by := Function.update cn.element.read_by r 1 } } : sbuffer_node_t)) a = some n →
          (a = c ∧ n = { cn with element := { cn.element with
            read_by := Function.update cn.element.read_by r 1 } }) ∨
          (a ≠ c ∧ b.cell a = some n) := by
        intro a n hn
        by_cases hac : a = c
        · subst hac
          rw [Function.update_same] at hn
          exact Or.inl ⟨rfl, (Option.some.inj hn).symm⟩
        · rw [Function.update_noteq hac] at hn
          exact Or.inr ⟨hac, hn⟩
      simp only at h
      split at h
      · split at h
        · exact absurd h (by simp)
        · rename_i rr hrr
          cases h
          obtain ⟨b1, hb1, hcells⟩ := sbuffer_remove_cells _ rr hrr
          exact ⟨rfl, c, cn, b1, hcn, rfl, hb1, fun a n hn => hupd a n (hcells a n hn)⟩
      · split at h
        · cases h
          exact ⟨rfl, c, cn, _, hcn, rfl, rfl, hupd⟩
        · cases h
          exact ⟨rfl, c, cn, _, hcn, rfl, rfl, hupd⟩

/-- C10. Whenever `sbuffer_pop` is defined on a buffer, cursor and reader `r`:
every node left in the buffer was there before with the same `next`, the same
reading and the same marks of the other readers; when it returns
`SBUFFER_SUCCESS` there is exactly one node `c` whose mark of `r` it has set,
the reading written to `*data` is that node's, and every other node left is
unchanged; when it returns anything else it writes no `*data` and every node
left is unchanged. -/
theorem sbuffer_pop_frame (b : sbuffer_t) (node : Option Nat) (r : Fin READER_THREADS)
    (p : pop_result) (h : sbuffer_pop (some b) node r = some p) :
    ∃ b1, p.buffer = some b1 ∧
      (∀ a n1, b1.cell a = some n1 → ∃ n, b.cell a = some n ∧ n1.next = n.next ∧
        n1.element.data = n.element.data ∧
        ∀ q, q ≠ r → n1.element.read_by q = n.element.read_by q) ∧
      (p.ret = SBUFFER_SUCCESS → ∃ c cn, b.cell c = some cn ∧
        p.data = some cn.element.data ∧
        ∀ a n1, b1.cell a = some n1 →
          (a = c ∧ n1 = { cn with element := { cn.element with
              read_by := Function.update cn.element.read_by r 1 } }) ∨
          (a ≠ c ∧ b.cell a = some n1)) ∧
      (p.ret ≠ SBUFFER_SUCCESS → p.data = none ∧
        ∀ a n1, b1.cell a = some n1 → b.cell a = some n1) := by
  have hsame : ∀ b1 : sbuffer_t, (∀ a n1, b1.cell a = some n1 → b.cell a = some n1) →
      ∀ a n1, b1.cell a = some n1 → ∃ n, b.cell a = some n ∧ n1.next = n.next ∧
        n1.element.data = n.element.data ∧
        ∀ q, q ≠ r → n1.element.read_by q = n.element.read_by q := by
    intro b1 hb1 a n1 hn1
    exact ⟨n1, hb1 a n1 hn1, rfl, rfl, fun _ _ => rfl⟩
  have hnd : SBUFFER_NO_DATA ≠ SBUFFER_SUCCESS := by decide
  have hac : SBUFFER_NODE_ALREADY_CONSUMED ≠ SBUFFER_SUCCESS := by decide
  unfold sbuffer_pop at h
  simp only at h
  split at h
  · cases h
    exact ⟨b, rfl, hsame b (fun _ _ hn => hn), fun e => absurd e hnd,
      fun _ => ⟨rfl, fun _ _ hn => hn⟩⟩
  · rename_i hd hhd
    split at h
    · exact absurd h (by simp)
    · cases h
      exact ⟨b, rfl, hsame b (fun _ _ hn => hn), fun e => absurd e hnd,
        fun _ => ⟨rfl, fun _ _ hn => hn⟩⟩
    · split at h
      · exact absurd h (by simp)
      · split at h
        · exact absurd h (by simp)
        · rename_i rr hrr
          cases h
          obtain ⟨b1, hb1, hcells⟩ := sbuffer_remove_cells b rr hrr
          exact ⟨b1, hb1, hsame b1 hcells, fun e => absurd e hac, fun _ => ⟨rfl, hcells⟩⟩
      · split at h
        · exact absurd h (by simp)
        · rename_i node1 _
          obtain ⟨hret, c, cn, b1, hcn, hdata, hb1, hcells⟩ :=
            pop_consume_frame b node1 r p h
          refine ⟨b1, hb1, ?_, fun _ => ⟨c, cn, hcn, hdata, hcells⟩, fun hne => absurd hret hne⟩
          intro a n1 hn1
          rcases hcells a n1 hn1 with ⟨hac2, hn⟩ | ⟨_, hn⟩
          · subst hac2
            refine ⟨cn, hcn, by rw [hn], by rw [hn], ?_⟩
            intro q hq
            rw [hn]
            exact Function.update_noteq hq _ _
          · exact ⟨n1, hn, rfl, rfl, fun _ _ => rfl⟩

/-! ## Instances at concrete states -/

theorem example_buffer_wf : sbuffer_wf example_buffer [0] := by
  refine ⟨⟨rfl, _, rfl, rfl⟩, rfl, ?_⟩
  intro a ha
  have : a ≠ 0 := by
    intro e
    rw [e] at ha
    exact absurd ha (by decide)
  simp [example_buffer, this]

/-- Instance of C9 at the one-node buffer. -/
theorem sbuffer_insert_appends_unread_node_witness :
    sbuffer_wf example_buffer [0] ∧
    ∃ b1, sbuffer_insert (some example_buffer) ⟨16, 21, 2⟩ true
        = some (SBUFFER_SUCCESS, some b1) ∧
      sbuffer_wf b1 ([0] ++ [example_buffer.brk]) ∧
      (sbuffer_nodes b1).map (fun n => n.element)
        = (sbuffer_nodes example_buffer).map (fun n => n.element)
            ++ [⟨⟨16, 21, 2⟩, fun _ => 0⟩] :=
  ⟨example_buffer_wf,
    sbuffer_insert_appends_unread_node example_buffer [0] ⟨16, 21, 2⟩ example_buffer_wf⟩

/-- Instance of C10: reader 0 pops the one-node buffer with a `NULL` cursor. -/
theorem sbuffer_pop_frame_witness :
    ∃ p, sbuffer_pop (some example_buffer) none 0 = some p ∧ p.ret = SBUFFER_SUCCESS ∧
    ∃ b1, p.buffer = some b1 ∧
      (∀ a n1, b1.cell a = some n1 → ∃ n, example_buffer.cell a = some n ∧ n1.next = n.next ∧
        n1.element.data = n.element.data ∧
        ∀ q, q ≠ (0 : Fin READER_THREADS) → n1.element.read_by q = n.element.read_by q) ∧
      (p.ret = SBUFFER_SUCCESS → ∃ c cn, example_buffer.cell c = some cn ∧
        p.data = some cn.element.data ∧
        ∀ a n1, b1.cell a = some n1 →
          (a = c ∧ n1 = { cn with element := { cn.element with
              read_by := Function.update cn.element.read_by 0 1 } }) ∨
          (a ≠ c ∧ example_buffer.cell a = some n1)) ∧
      (p.ret ≠ SBUFFER_SUCCESS → p.data = none ∧
        ∀ a n1, b1.cell a = some n1 → example_buffer.cell a = some n1) :=
  ⟨_, rfl, rfl, sbuffer_pop_frame example_buffer none 0 _ rfl⟩

/-- Instance of C3: after one insert and one pop by reader 0, the next pop of
reader 0 does return `SBUFFER_NO_DATA`. -/
theorem sbuffer_no_data_means_all_delivered_witness :
    ∃ s, sb_run [sb_op.insert example_reading, sb_op.pop 0] = some s ∧
      (∀ r, ∃ p, sbuffer_pop s.buffer (s.node r) r = some p ∧
        (p.ret = SBUFFER_NO_DATA → s.delivered r = s.inserted)) ∧
      ∃ p, sbuffer_pop s.buffer (s.node 0) 0 = some p ∧ p.ret = SBUFFER_NO_DATA := by
  obtain ⟨s, hs, h⟩ :=
    sbuffer_no_data_means_all_delivered [sb_op.insert example_reading, sb_op.pop 0]
  have h0 : ∃ s0 p, sb_run [sb_op.insert example_reading, sb_op.pop 0] = some s0 ∧
      sbuffer_pop s0.buffer (s0.node 0) 0 = some p ∧ p.ret = SBUFFER_NO_DATA :=
    ⟨_, _, rfl, rfl, rfl⟩
  obtain ⟨s0, p, h1, h2, h3⟩ := h0
  rw [hs] at h1
  cases h1
  exact ⟨s, hs, h, p, h2, h3⟩

/-- C4 (the code at the failing schedule). Reader 0 tests its loop condition,
pops the empty buffer (`SBUFFER_NO_DATA`), the producer inserts a reading and
closes, and reader 0 tests again: it leaves its loop with `storagemgr_failed`
unset although the inserted reading was never delivered to it. -/
theorem reader_leaves_with_undelivered_reading :
    ∃ s, gw_run [gw_op.test 0, gw_op.pop 0, gw_op.insert example_reading, gw_op.close,
        gw_op.test 0] = some s ∧
      s.pc 0 = reader_pc.left ∧ s.storagemgr_failed = 0 ∧
      s.sb.inserted = [example_reading] ∧ s.sb.delivered 0 = [] :=
  ⟨_, rfl, rfl, rfl, rfl, rfl⟩

/-! ## Data manager: running average and alerts -/

theorem sensor_compare_probe (d : sensor_data_t) (x : node_t) :
    sensor_compare { fresh_entry 0 d.id with sensor := d } x = 0 ↔ x.sensor.id = d.id := by
  simp only [sensor_compare, fresh_entry, true_or, if_true]
  by_cases h1 : d.id > x.sensor.id
  · simp only [h1, if_true]
    constructor
    · intro h; exact absurd h (by decide)
    · intro h; omega
  · simp only [h1, if_false]
    by_cases h2 : d.id = x.sensor.id
    · simp [h2]
    · simp only [h2, if_false]
      constructor
      · intro h; exact absurd h (by decide)
      · intro h; exact absurd h.symm h2

theorem lookup_none (d : sensor_data_t) :
    ∀ l : List node_t,
      dpl_get_reference_of_element sensor_compare l { fresh_entry 0 d.id with sensor := d } = none →
      ∀ e ∈ l, e.sensor.id ≠ d.id := by
  intro l
  induction l with
  | nil => intro _ e he; exact absurd he (List.not_mem_nil e)
  | cons x t ih =>
    intro h e he
    match t, ih, h, he with
    | [], _, h, he =>
      simp only [dpl_get_reference_of_element] at h
      have hx : e = x := by simpa using he
      subst hx
      intro hid
      rw [if_pos ((sensor_compare_probe d e).mpr hid)] at h
      exact absurd h (by simp)
    | y :: t2, ih, h, he =>
      simp only [dpl_get_reference_of_element] at h
      by_cases hx : sensor_compare { fresh_entry 0 d.id with sensor := d } x = 0
      · simp [hx] at h
      · simp only [ne_eq, hx, not_false_eq_true, if_true, Option.map_eq_none'] at h
        rcases List.mem_cons.mp he with hex | het
        · rw [hex]
          exact fun hid => hx ((sensor_compare_probe d x).mpr hid)
        · exact ih h e het

theorem lookup_some (d : sensor_data_t) :
    ∀ (l : List node_t) (j : Nat),
      dpl_get_reference_of_element sensor_compare l { fresh_entry 0 d.id with sensor := d }
        = some j →
      ∃ pre e post, l = pre ++ e :: post ∧ j = pre.length ∧ e.sensor.id = d.id ∧
        ∀ x ∈ pre, x.sensor.id ≠ d.id := by
  intro l
  induction l with
  | nil =>
    intro j h
    simp [dpl_get_reference_of_element] at h
  | cons x t ih =>
    intro j h
    by_cases hx : sensor_compare { fresh_entry 0 d.id with sensor := d } x = 0
    · have hj : j = 0 := by
        match t, h with
        | [], h =>
          simp only [dpl_get_reference_of_element, hx, if_true, Option.some.injEq] at h
          exact h.symm
        | y :: t2, h =>
          simp only [dpl_get_reference_of_element, hx, ne_eq, not_true_eq_false, if_false,
            Option.some.injEq] at h
          exact h.symm
      exact ⟨[], x, t, rfl, hj, (sensor_compare_probe d x).mp hx,
        fun y hy => absurd hy (List.not_mem_nil y)⟩
    · match t, ih, h with
      | [], _, h =>
        simp [dpl_get_reference_of_element, hx] at h
      | y :: t2, ih, h =>
        simp only [dpl_get_reference_of_element, ne_eq, hx, not_false_eq_true, if_true,
          Option.map_eq_some'] at h
        obtain ⟨i, hi, hij⟩ := h
        obtain ⟨pre, e, post, hl, hlen, hid, hpre⟩ := ih i hi
        refine ⟨x :: pre, e, post, by rw [hl]; rfl, by rw [← hij, hlen]; rfl, hid, ?_⟩
        intro z hz
        rcases List.mem_cons.mp hz with hzx | hzp
        · rw [hzx]
          exact fun hid2 => hx ((sensor_compare_probe d x).mpr hid2)
        · exact hpre z hzp

theorem find_skip (sid : Nat) (pre : List node_t) (rest : List node_t)
    (h : ∀ x ∈ pre, x.sensor.id ≠ sid) :
    (pre ++ rest).find? (fun e => decide (e.sensor.id = sid))
      = rest.find? (fun e => decide (e.sensor.id = sid)) := by
  induction pre with
  | nil => rfl
  | cons x t ih =>
    have hx := h x (List.mem_cons_self x t)
    rw [List.cons_append, List.find?_cons]
    simp only [hx, decide_False]
    exact ih (fun y hy => h y (List.mem_cons_of_mem x hy))

theorem find_set_other (sid sid2 : Nat) (hne : sid2 ≠ sid) (e e1 : node_t)
    (he : e.sensor.id = sid) (he1 : e1.sensor.id = sid) :
    ∀ (pre post : List node_t),
      (pre ++ e1 :: post).find? (fun x => decide (x.sensor.id = sid2))
        = (pre ++ e :: post).find? (fun x => decide (x.sensor.id = sid2)) := by
  intro pre post
  induction pre with
  | nil =>
    have h1 : ¬ e1.sensor.id = sid2 := by rw [he1]; exact fun h => hne h.symm
    have h2 : ¬ e.sensor.id = sid2 := by rw [he]; exact fun h => hne h.symm
    simp only [List.nil_append, List.find?_cons, h1, h2, decide_False]
  | cons x t ih =>
    simp only [List.cons_append, List.find?_cons, ih]

theorem datamgr_update_id (lo hi : ℚ) (e : node_t) (d : sensor_data_t) :
    (datamgr_update lo hi e d).1.sensor.id = e.sensor.id := by
  unfold datamgr_update
  simp only
  split_ifs <;> rfl

theorem datamgr_update_log_alerts (lo hi : ℚ) (e : node_t) (d : sensor_data_t) :
    (datamgr_update lo hi e d).2.filter dm_log.is_alert = (datamgr_update lo hi e d).2 := by
  unfold datamgr_update
  simp only
  split_ifs <;> rfl

theorem datamgr_process_cases (lo hi : ℚ) (l : List node_t) (d : sensor_data_t) :
    (l.find? (fun e => decide (e.sensor.id = d.id)) = none ∧
      datamgr_process lo hi l d = ⟨l, some d.id, [dm_log.not_exist d.id]⟩) ∨
    (∃ pre e post, l = pre ++ e :: post ∧ e.sensor.id = d.id ∧
      (∀ x ∈ pre, x.sensor.id ≠ d.id) ∧
      datamgr_process lo hi l d
        = ⟨pre ++ (datamgr_update lo hi e d).1 :: post, none, (datamgr_update lo hi e d).2⟩) := by
  match hlk : dpl_get_reference_of_element sensor_compare l
      { fresh_entry 0 d.id with sensor := d } with
  | none =>
    left
    refine ⟨?_, ?_⟩
    · rw [List.find?_eq_none]
      intro x hx
      simpa using lookup_none d l hlk x hx
    · simp only [datamgr_process, hlk]
  | some j =>
    right
    obtain ⟨pre, e, post, hl, hj, hid, hpre⟩ := lookup_some d l j hlk
    refine ⟨pre, e, post, hl, hid, hpre, ?_⟩
    have hget : l[j]? = some e := by
      rw [hl, hj, List.getElem?_append_right (le_refl _)]
      simp
    have hset : l.set j (datamgr_update lo hi e d).1
        = pre ++ (datamgr_update lo hi e d).1 :: post := by
      rw [hl, hj]
      simp
    simp only [datamgr_process, hlk, hget, hset]

theorem datamgr_process_find (lo hi : ℚ) (l : List node_t) (d : sensor_data_t) (sid : Nat) :
    (datamgr_process lo hi l d).dplist.find? (fun e => decide (e.sensor.id = sid))
      = if d.id = sid then
          (l.find? (fun e => decide (e.sensor.id = sid))).map
            (fun e => (datamgr_update lo hi e d).1)
        else l.find? (fun e => decide (e.sensor.id = sid)) := by
  rcases datamgr_process_cases lo hi l d with ⟨hnone, hp⟩ | ⟨pre, e, post, hl, hid, hpre, hp⟩
  · rw [hp]
    by_cases hs : d.id = sid
    · subst hs
      simp only [if_true, hnone, Option.map_none']
    · simp only [hs, if_false]
  · rw [hp]
    by_cases hs : d.id = sid
    · subst hs
      have hu := datamgr_update_id lo hi e d
      simp only [if_true, hl]
      rw [find_skip d.id pre _ hpre, find_skip d.id pre _ hpre]
      simp [List.find?_cons, hu, hid]
    · simp only [hs, if_false, hl]
      exact find_set_other d.id sid (fun h => hs h.symm) e _ hid
        (by rw [datamgr_update_id]; exact hid) pre post

theorem datamgr_process_alerts (lo hi : ℚ) (l : List node_t) (d : sensor_data_t) :
    (datamgr_process lo hi l d).log.filter dm_log.is_alert
      = match l.find? (fun e => decide (e.sensor.id = d.id)) with
        | none => []
        | some e => (datamgr_update lo hi e d).2 := by
  rcases datamgr_process_cases lo hi l d with ⟨hnone, hp⟩ | ⟨pre, e, post, hl, hid, hpre, hp⟩
  · rw [hp, hnone]
    rfl
  · rw [hp, hl, find_skip d.id pre _ hpre]
    simp only [List.find?_cons, hid, decide_True]
    exact datamgr_update_log_alerts lo hi e d

theorem datamgr_run_find (lo hi : ℚ) (sid : Nat) :
    ∀ (ds : List sensor_data_t) (l : List node_t),
      (datamgr_run lo hi l ds).find? (fun e => decide (e.sensor.id = sid))
        = (l.find? (fun e => decide (e.sensor.id = sid))).map
            (fun e => (ds.filter (fun d => decide (d.id = sid))).foldl
              (fun e d => (datamgr_update lo hi e d).1) e) := by
  intro ds
  induction ds with
  | nil =>
    intro l
    simp [datamgr_run]
  | cons d t ih =>
    intro l
    have hrun : datamgr_run lo hi l (d :: t)
        = datamgr_run lo hi (datamgr_process lo hi l d).dplist t := rfl
    rw [hrun, ih, datamgr_process_find]
    by_cases hs : d.id = sid
    · simp only [hs, if_true, List.filter_cons, decide_True, List.foldl_cons, Option.map_map]
      rfl
    · simp only [hs, if_false, List.filter_cons, decide_False]
      rfl

theorem shift_loop_window (v : ℚ) (m : List ℚ) (hm : m.length = RUN_AVG_LENGTH) :
    shift_loop v (RUN_AVG_LENGTH - 1) m 0
      = ((v :: m).take RUN_AVG_LENGTH, ((v :: m).take RUN_AVG_LENGTH).sum) := by
  match m, hm with
  | [a, b, c, e, f], _ =>
    refine Prod.ext rfl ?_
    show 0 + e + c + b + a + v = ([v, a, b, c, e] : List ℚ).sum
    simp only [List.sum_cons, List.sum_nil]
    ring

theorem take_cons_take (v : ℚ) (n : Nat) (l : List ℚ) :
    (v :: l.take (n + 1)).take (n + 1) = (v :: l).take (n + 1) := by
  rw [List.take_succ_cons, List.take_succ_cons, List.take_take]
  congr 1
  rw [Nat.min_eq_left (Nat.le_succ n)]

theorem datamgr_entry_after (lo hi : ℚ) (room sid : Nat) (vs : List sensor_data_t) :
    (vs.foldl (fun e d => (datamgr_update lo hi e d).1) (fresh_entry room sid)).msrmnts
        = ((vs.map (fun d : sensor_data_t => d.value)).reverse
            ++ List.replicate RUN_AVG_LENGTH (0 : ℚ)).take RUN_AVG_LENGTH ∧
    (vs.foldl (fun e d => (datamgr_update lo hi e d).1) (fresh_entry room sid)).num_msrmnts
        = min vs.length (RUN_AVG_LENGTH - 1) := by
  induction vs using List.reverseRecOn with
  | nil =>
    refine ⟨?_, ?_⟩
    · simp [fresh_entry]
    · simp [fresh_entry]
  | append_singleton t d ih =>
    obtain ⟨hm, hn⟩ := ih
    rw [List.foldl_append]
    simp only [List.foldl_cons, List.foldl_nil]
    generalize hE : t.foldl (fun e d => (datamgr_update lo hi e d).1) (fresh_entry room sid) = E
      at hm hn
    have hlen : E.msrmnts.length = RUN_AVG_LENGTH := by
      rw [hm]
      simp
    have hms : (datamgr_update lo hi E d).1.msrmnts = (d.value :: E.msrmnts).take RUN_AVG_LENGTH := by
      unfold datamgr_update
      simp only [shift_loop_window d.value E.msrmnts hlen]
      split_ifs <;> rfl
    refine ⟨?_, ?_⟩
    · rw [hms, hm]
      simp only [List.map_append, List.map_cons, List.map_nil, List.reverse_append,
        List.reverse_cons, List.reverse_nil, List.nil_append, List.singleton_append,
        List.cons_append]
      exact take_cons_take d.value 4 _
    · unfold datamgr_update
      simp only
      have h4 : RUN_AVG_LENGTH - 1 = 4 := rfl
      rw [h4] at hn ⊢
      by_cases hk : E.num_msrmnts < 4
      · rw [if_pos hk]
        simp only [List.length_append, List.length_singleton]
        show (E.num_msrmnts + 1) % 256 = min (t.length + 1) 4
        rw [hn] at hk ⊢
        have : min t.length 4 + 1 < 256 := by omega
        rw [Nat.mod_eq_of_lt this]
        omega
      · rw [if_neg hk]
        simp only [List.length_append, List.length_singleton]
        have hnum : ∀ x : node_t × List dm_log, x.1.num_msrmnts = E.num_msrmnts →
            x.1.num_msrmnts = min (t.length + 1) 4 := by
          intro x hx
          rw [hx, hn]
          rw [hn] at hk
          omega
        split_ifs <;> exact hnum _ rfl

theorem find_fresh_entry (sid : Nat) :
    ∀ pairs : List (Nat × Nat), (∃ pr ∈ pairs, pr.2 = sid) →
      ∃ room, (pairs.map (fun pr => fresh_entry pr.1 pr.2)).find?
          (fun e => decide (e.sensor.id = sid)) = some (fresh_entry room sid) := by
  intro pairs
  induction pairs with
  | nil =>
    intro h
    obtain ⟨pr, hpr, _⟩ := h
    exact absurd hpr (List.not_mem_nil pr)
  | cons x t ih =>
    intro h
    by_cases hx : x.2 = sid
    · refine ⟨x.1, ?_⟩
      simp [List.find?_cons, fresh_entry, hx]
    · obtain ⟨pr, hpr, hid⟩ := h
      rcases List.mem_cons.mp hpr with hpx | hpt
      · rw [hpx] at hid
        exact absurd hid hx
      · obtain ⟨room, hroom⟩ := ih ⟨pr, hpt, hid⟩
        refine ⟨room, ?_⟩
        simp only [List.map_cons, List.find?_cons, fresh_entry, hx, decide_False]
        exact hroom

/-- C5. For a registry loaded from any map (`pairs`) and a reading `d` of a
registered sensor that the data manager processes after the readings `ds`: it
logs at most one temperature alert for `d`, and it logs one if and only if
`d` is at least the `RUN_AVG_LENGTH`-th reading of its sensor and the mean of
that sensor's `RUN_AVG_LENGTH` most recent values (those of `d` and of the
readings in `ds` with the same sensor id; readings of other sensors do not
enter) is strictly below `SET_MIN_TEMP` or strictly above `SET_MAX_TEMP`. -/
theorem datamgr_alert_iff_running_mean_out_of_range
    (SET_MIN_TEMP SET_MAX_TEMP : ℚ) (pairs : List (Nat × Nat)) (ds : List sensor_data_t)
    (d : sensor_data_t) (hreg : ∃ pr ∈ pairs, pr.2 = d.id) :
    ((datamgr_process SET_MIN_TEMP SET_MAX_TEMP
        (datamgr_run SET_MIN_TEMP SET_MAX_TEMP (pairs.map (fun pr => fresh_entry pr.1 pr.2)) ds)
        d).log.filter dm_log.is_alert).length ≤ 1 ∧
    ((datamgr_process SET_MIN_TEMP SET_MAX_TEMP
        (datamgr_run SET_MIN_TEMP SET_MAX_TEMP (pairs.map (fun pr => fresh_entry pr.1 pr.2)) ds)
        d).log.filter dm_log.is_alert ≠ [] ↔
      RUN_AVG_LENGTH ≤ ((ds ++ [d]).filter (fun x => decide (x.id = d.id))).length ∧
      ((List.take RUN_AVG_LENGTH (List.reverse (List.map (fun x : sensor_data_t => x.value)
            ((ds ++ [d]).filter (fun x => decide (x.id = d.id)))))).sum
          / (RUN_AVG_LENGTH : ℚ) < SET_MIN_TEMP ∨
       SET_MAX_TEMP < (List.take RUN_AVG_LENGTH (List.reverse
            (List.map (fun x : sensor_data_t => x.value)
            ((ds ++ [d]).filter (fun x => decide (x.id = d.id)))))).sum
          / (RUN_AVG_LENGTH : ℚ))) := by
  obtain ⟨room, hroom⟩ := find_fresh_entry d.id pairs hreg
  have hfind := datamgr_run_find SET_MIN_TEMP SET_MAX_TEMP d.id ds
    (pairs.map (fun pr => fresh_entry pr.1 pr.2))
  rw [hroom] at hfind
  simp only [Option.map_some'] at hfind
  rw [datamgr_process_alerts, hfind]
  simp only
  obtain ⟨hm, hn⟩ := datamgr_entry_after SET_MIN_TEMP SET_MAX_TEMP room d.id
    (ds.filter (fun x => decide (x.id = d.id)))
  generalize hE : (ds.filter (fun x => decide (x.id = d.id))).foldl
    (fun e d => (datamgr_update SET_MIN_TEMP SET_MAX_TEMP e d).1) (fresh_entry room d.id) = E
    at hm hn
  have hfilt : (ds ++ [d]).filter (fun x => decide (x.id = d.id))
      = ds.filter (fun x => decide (x.id = d.id)) ++ [d] := by
    simp
  rw [hfilt]
  generalize ds.filter (fun x => decide (x.id = d.id)) = vs at hm hn
  have hlen : E.msrmnts.length = RUN_AVG_LENGTH := by
    rw [hm]
    simp
  have h4 : RUN_AVG_LENGTH - 1 = 4 := rfl
  unfold datamgr_update
  simp only [shift_loop_window d.value E.msrmnts hlen, List.length_append, List.length_singleton]
  rw [h4] at hn
  by_cases hk : E.num_msrmnts < RUN_AVG_LENGTH - 1
  · rw [if_pos hk]
    rw [h4, hn] at hk
    refine ⟨by simp, ?_⟩
    constructor
    · intro h
      exact absurd rfl h
    · intro h
      have := h.1
      omega
  · rw [if_neg hk]
    rw [h4, hn] at hk
    have hk5 : RUN_AVG_LENGTH ≤ vs.length + 1 := by omega
    have hwin : (d.value :: E.msrmnts).take RUN_AVG_LENGTH
        = (((vs ++ [d]).map (fun x : sensor_data_t => x.value)).reverse).take RUN_AVG_LENGTH := by
      rw [hm]
      simp only [List.map_append, List.map_cons, List.map_nil, List.reverse_append,
        List.reverse_cons, List.reverse_nil, List.nil_append, List.singleton_append]
      rw [take_cons_take d.value 4 _, ← List.cons_append]
      exact List.take_append_of_le_length (by simp; omega)
    rw [hwin]
    generalize ((((vs ++ [d]).map (fun x : sensor_data_t => x.value)).reverse).take
      RUN_AVG_LENGTH).sum / (RUN_AVG_LENGTH : ℚ) = avg
    by_cases hc : avg < SET_MIN_TEMP
    · simp [hc, hk5]
    · by_cases hh : avg > SET_MAX_TEMP
      · simp [hc, hh, hk5]
      · simp only [hc, hh, if_false]
        refine ⟨by simp, ?_⟩
        constructor
        · intro h
          exact absurd rfl h
        · intro h
          rcases h.2 with h1 | h1
          · exact h1.elim
          · exact h1.elim

/-! ## Connection manager -/

/-! ## Connection manager -/

/-- C6 (the code at the failing input). `poll` times out (`poll_res = 0`) while
the only client has been idle for longer than `TIMEOUT`: the iteration leaves
the record list and the poll array as they were. -/
theorem idle_connection_survives_poll_timeout :
    (∃ c ∈ example_idle.socket_list, c.last_active + 5 < example_env.now) ∧
    ∃ st, connmgr_iteration 5 example_env 0 example_idle = some (iter_outcome.next st) ∧
      st.socket_list = example_idle.socket_list ∧ st.poll_fds = example_idle.poll_fds ∧
      st.conn_counter = 1 :=
  ⟨⟨⟨7, 100, 15⟩, by decide, by decide⟩, _, rfl, rfl, rfl, rfl⟩

/-- C7 (the code at the failing input). With `drop_sensor = 0`, the client of
descriptor 8 has no hangup, no transport-closed marker, has not timed out and
has sent no frame; the eviction pass removes it all the same, logging a drop
signal for sensor 0. -/
theorem fresh_connection_is_evicted :
    example_fresh.sensor_to_drop = 0 ∧
    (⟨8, 199, 0⟩ : tcpsock_dpl_el) ∈ example_fresh.socket_list ∧
    (⟨8, 17, 0⟩ : pollfd) ∈ example_fresh.poll_fds ∧
    (0 : Nat) &&& POLLHUP = 0 ∧ (17 : Int) ≠ -1 ∧ ¬ ((199 : Int) + 5 < example_env.now) ∧
    ∃ st, connmgr_iteration 5 example_env 1 example_fresh = some (iter_outcome.next st) ∧
      st.socket_list = [⟨7, 200, 15⟩] ∧ st.poll_fds = [⟨3, 1, 0⟩, ⟨7, 17, 1⟩] ∧
      st.conn_counter = 1 ∧
      st.log = [cm_log.signalled_drop 0, cm_log.closed 0] := by
  refine ⟨rfl, by decide, by decide, by decide, by decide, by decide, _, rfl, ?_, ?_, ?_, ?_⟩
  · decide
  · decide
  · decide
  · decide

/-- C8 (counterexample). An eviction pass that starts with `drop_sensor = 99`
and meets no record bound to sensor 99 ends with `drop_sensor` still 99. -/
theorem drop_signal_survives_pass :
    example_signalled.sensor_to_drop ≠ 0 ∧
    ∃ st, connmgr_pass 5 example_env 1 example_signalled = some st ∧
      st.sensor_to_drop ≠ 0 := by
  refine ⟨by decide, _, rfl, ?_⟩
  decide

/-- Instance of C5 (scenario S5): registry with the map line `21 15`, limits 10
and 25, four readings of 30 for sensor 15 already processed; for the fifth one
the data manager logs exactly one alert. -/
theorem datamgr_alert_iff_running_mean_out_of_range_witness :
    (∃ pr ∈ [((21 : Nat), (15 : Nat))], pr.2 = (⟨15, 30, 5⟩ : sensor_data_t).id) ∧
    ((datamgr_process 10 25
        (datamgr_run 10 25 ([((21 : Nat), (15 : Nat))].map (fun pr => fresh_entry pr.1 pr.2))
          [⟨15, 30, 1⟩, ⟨15, 30, 2⟩, ⟨15, 30, 3⟩, ⟨15, 30, 4⟩])
        ⟨15, 30, 5⟩).log.filter dm_log.is_alert).length ≤ 1 ∧
    (datamgr_process 10 25
        (datamgr_run 10 25 ([((21 : Nat), (15 : Nat))].map (fun pr => fresh_entry pr.1 pr.2))
          [⟨15, 30, 1⟩, ⟨15, 30, 2⟩, ⟨15, 30, 3⟩, ⟨15, 30, 4⟩])
        ⟨15, 30, 5⟩).log.filter dm_log.is_alert ≠ [] := by
  have h := datamgr_alert_iff_running_mean_out_of_range 10 25 [(21, 15)]
      [⟨15, 30, 1⟩, ⟨15, 30, 2⟩, ⟨15, 30, 3⟩, ⟨15, 30, 4⟩] ⟨15, 30, 5⟩
      ⟨(21, 15), by simp, rfl⟩
  refine ⟨⟨(21, 15), by simp, rfl⟩, h.1, h.2.mpr ⟨by decide, Or.inr ?_⟩⟩
  norm_num [List.filter, RUN_AVG_LENGTH]

theorem compact_loop_defined (i : Nat) :
    ∀ (fuel id1 id2 : Nat) (fds : List pollfd), id2 ≤ id1 + 1 → (id2 = id1 + 1 → i < id2) →
      id1 + fuel + 1 ≤ fds.length →
      ∃ fds1, compact_loop i fuel id1 id2 fds = some fds1 ∧ fds1.length = fds.length := by
  intro fuel
  induction fuel with
  | zero =>
    intro id1 id2 fds _ _ _
    exact ⟨fds, rfl, rfl⟩
  | succ n ih =>
    intro id1 id2 fds h1 h2 h3
    have hlt : (if id2 = i then id2 + 1 else id2) < fds.length := by
      split_ifs <;> omega
    obtain ⟨x, hx⟩ : ∃ x, fds[if id2 = i then id2 + 1 else id2]? = some x :=
      ⟨_, List.getElem?_eq_getElem hlt⟩
    obtain ⟨fds1, hf, hl⟩ := ih (id1 + 1) ((if id2 = i then id2 + 1 else id2) + 1)
      (fds.set id1 x) (by split_ifs <;> omega) (by split_ifs <;> omega)
      (by rw [List.length_set]; omega)
    refine ⟨fds1, ?_, by rw [hl, List.length_set]⟩
    simp only [compact_loop, hx]
    exact hf

theorem slot_receive_frame (TIMEOUT : Int) (env : conn_env) (st : connmgr_state) (i : Nat)
    (pf : pollfd) (node : Option Nat) (e : cm_log) (he : e ≠ cm_log.lost_connection) :
    (slot_receive TIMEOUT env st i pf node).poll_fds.length = st.poll_fds.length ∧
    (slot_receive TIMEOUT env st i pf node).conn_counter = st.conn_counter ∧
    (slot_receive TIMEOUT env st i pf node).sensor_to_drop = st.sensor_to_drop ∧
    (slot_receive TIMEOUT env st i pf node).log.count e = st.log.count e := by
  have he2 : ¬ (cm_log.lost_connection = e) := fun h => he h.symm
  unfold slot_receive
  split
  · rename_i k c _
    simp only []
    by_cases h1 : c.last_active + TIMEOUT > env.now ∧ pf.revents &&& POLLIN ≠ 0
    · rw [if_pos h1]
      by_cases h2 : (env.recv c.sd).tcp_res = tcp_result.TCP_NO_ERROR ∧ (env.recv c.sd).bytes ≠ 0
      · rw [if_pos h2]
        exact ⟨rfl, rfl, rfl, rfl⟩
      · rw [if_neg h2]
        by_cases h3 : (env.recv c.sd).tcp_res = tcp_result.TCP_CONNECTION_CLOSED
        · rw [if_pos h3]
          refine ⟨by simp, rfl, rfl, ?_⟩
          simp [List.count_append, List.count_singleton, he2]
        · rw [if_neg h3]
          exact ⟨rfl, rfl, rfl, rfl⟩
    · rw [if_neg h1]
      exact ⟨rfl, rfl, rfl, rfl⟩
  · exact ⟨rfl, rfl, rfl, rfl⟩

theorem slot_close_frame (st : connmgr_state) (node : Option Nat)
    (client : Option tcpsock_dpl_el) (d : Nat) :
    (slot_close st node client).poll_fds = st.poll_fds ∧
    (slot_close st node client).conn_counter = st.conn_counter ∧
    (slot_close st node client).sensor_to_drop = st.sensor_to_drop ∧
    (slot_close st node client).log.count (cm_log.signalled_drop d)
      = st.log.count (cm_log.signalled_drop d) := by
  unfold slot_close
  split
  · refine ⟨rfl, rfl, rfl, ?_⟩
    simp [List.count_append, List.count_singleton]
  · exact ⟨rfl, rfl, rfl, rfl⟩

theorem slot_signal_frame (st : connmgr_state) (client : Option tcpsock_dpl_el)
    (d c0 : Nat) (hd : d ≠ 0)
    (hK : (st.sensor_to_drop = d ∧ st.log.count (cm_log.signalled_drop d) = c0) ∨
          (st.sensor_to_drop = 0 ∧ st.log.count (cm_log.signalled_drop d) = c0 + 1)) :
    (slot_signal st client).poll_fds = st.poll_fds ∧
    (slot_signal st client).conn_counter = st.conn_counter ∧
    (((slot_signal st client).sensor_to_drop = d ∧
        (slot_signal st client).log.count (cm_log.signalled_drop d) = c0) ∨
     ((slot_signal st client).sensor_to_drop = 0 ∧
        (slot_signal st client).log.count (cm_log.signalled_drop d) = c0 + 1)) := by
  unfold slot_signal
  split
  · exact ⟨rfl, rfl, hK⟩
  · rename_i c
    split_ifs with hc
    · refine ⟨rfl, rfl, Or.inr ⟨rfl, ?_⟩⟩
      rcases hK with ⟨h1, h2⟩ | ⟨h1, h2⟩
      · simp [List.count_append, List.count_singleton, hc, h1, h2]
      · have hne : ¬ (0 = d) := fun h => hd h.symm
        simp [List.count_append, List.count_singleton, hc, h1, h2, hne]
    · exact ⟨rfl, rfl, hK⟩

theorem connmgr_slot_inv (TIMEOUT : Int) (env : conn_env) (st : connmgr_state) (i d c0 : Nat)
    (hd : d ≠ 0) (hlen : st.poll_fds.length = st.conn_counter + 1)
    (hi1 : 1 ≤ i) (hi2 : i < st.conn_counter + 1)
    (hK : (st.sensor_to_drop = d ∧ st.log.count (cm_log.signalled_drop d) = c0) ∨
          (st.sensor_to_drop = 0 ∧ st.log.count (cm_log.signalled_drop d) = c0 + 1)) :
    ∃ st1 removed, connmgr_slot TIMEOUT env st i = some (st1, removed) ∧
      st1.poll_fds.length = st1.conn_counter + 1 ∧
      st1.conn_counter + (if removed = true then 1 else 0) = st.conn_counter ∧
      ((st1.sensor_to_drop = d ∧ st1.log.count (cm_log.signalled_drop d) = c0) ∨
       (st1.sensor_to_drop = 0 ∧ st1.log.count (cm_log.signalled_drop d) = c0 + 1)) := by
  have hlt : i < st.poll_fds.length := by omega
  unfold connmgr_slot
  rw [List.getElem?_eq_getElem hlt]
  simp only []
  generalize hnode : dpl_get_reference_of_element socket_compare st.socket_list
    { sd := (st.poll_fds[i]).fd, last_active := 0, sensor := 0 } = node
  obtain ⟨hr1, hr2, hr3, hr4⟩ := slot_receive_frame TIMEOUT env st i (st.poll_fds[i]) node
    (cm_log.signalled_drop d) (by simp)
  generalize slot_receive TIMEOUT env st i (st.poll_fds[i]) node = st1 at hr1 hr2 hr3 hr4
  have hK1 : (st1.sensor_to_drop = d ∧ st1.log.count (cm_log.signalled_drop d) = c0) ∨
      (st1.sensor_to_drop = 0 ∧ st1.log.count (cm_log.signalled_drop d) = c0 + 1) := by
    rw [hr3, hr4]
    exact hK
  have hlt1 : i < st1.poll_fds.length := by omega
  rw [List.getElem?_eq_getElem hlt1]
  simp only []
  generalize slot_client st1.socket_list node = client
  by_cases hev : evict_cond TIMEOUT env.now st1.sensor_to_drop client (st1.poll_fds[i]) = true
  · rw [if_pos hev]
    obtain ⟨hs1, hs2, hs3⟩ := slot_signal_frame st1 client d c0 hd hK1
    generalize slot_signal st1 client = st2 at hs1 hs2 hs3
    obtain ⟨hc1, hc2, hc3, hc4⟩ := slot_close_frame st2 node client d
    generalize slot_close st2 node client = st3 at hc1 hc2 hc3 hc4
    have hlen3 : st3.poll_fds.length = st3.conn_counter + 1 := by
      rw [hc1, hc2, hs1, hs2, hr1, hr2]
      exact hlen
    have hcc : st3.conn_counter = st.conn_counter := by rw [hc2, hs2, hr2]
    obtain ⟨fds, hf, hfl⟩ := compact_loop_defined i st3.conn_counter 0 0 st3.poll_fds
      (by omega) (by omega) (by omega)
    rw [hf]
    refine ⟨_, true, rfl, ?_, ?_, ?_⟩
    · simp only [List.length_take, hfl, hlen3]
      omega
    · simp only [if_true]
      omega
    · show (st3.sensor_to_drop = d ∧ st3.log.count (cm_log.signalled_drop d) = c0) ∨
        (st3.sensor_to_drop = 0 ∧ st3.log.count (cm_log.signalled_drop d) = c0 + 1)
      rw [hc3, hc4]
      exact hs3
  · rw [if_neg hev]
    refine ⟨st1, false, rfl, by omega, ?_, hK1⟩
    simp only [Bool.false_eq_true, if_false]
    omega

theorem connmgr_slots_inv (TIMEOUT : Int) (env : conn_env) (poll_res : Int) (d c0 : Nat)
    (hd : d ≠ 0) :
    ∀ (fuel i : Nat) (st : connmgr_state), st.poll_fds.length = st.conn_counter + 1 →
      1 ≤ i → st.conn_counter + 1 - i ≤ fuel →
      ((st.sensor_to_drop = d ∧ st.log.count (cm_log.signalled_drop d) = c0) ∨
       (st.sensor_to_drop = 0 ∧ st.log.count (cm_log.signalled_drop d) = c0 + 1)) →
      ∃ st1, connmgr_slots TIMEOUT env poll_res fuel i st = some st1 ∧
        st1.poll_fds.length = st1.conn_counter + 1 ∧
        ((st1.sensor_to_drop = d ∧ st1.log.count (cm_log.signalled_drop d) = c0) ∨
         (st1.sensor_to_drop = 0 ∧ st1.log.count (cm_log.signalled_drop d) = c0 + 1)) := by
  intro fuel
  induction fuel with
  | zero =>
    intro i st hlen _ hf hK
    have hc : ¬ (i < st.conn_counter + 1 ∧ poll_res > 0) := by
      intro h
      omega
    exact ⟨st, by simp only [connmgr_slots, hc, if_false], hlen, hK⟩
  | succ n ih =>
    intro i st hlen hi hf hK
    by_cases hc : i < st.conn_counter + 1 ∧ poll_res > 0
    · obtain ⟨st1, removed, hs, hlen1, hcc, hK1⟩ :=
        connmgr_slot_inv TIMEOUT env st i d c0 hd hlen hi hc.1 hK
      obtain ⟨st2, h2, hlen2, hK2⟩ := ih (if removed = true then i else i + 1) st1 hlen1
        (by split_ifs <;> omega)
        (by
          cases removed
          · simp only [Bool.false_eq_true, if_false] at hcc ⊢
            omega
          · simp only [if_true] at hcc ⊢
            omega)
        hK1
      refine ⟨st2, ?_, hlen2, hK2⟩
      simp only [connmgr_slots, hc, and_self, if_true, hs]
      exact h2
    · exact ⟨st, by simp only [connmgr_slots, hc, if_false], hlen, hK⟩

/-- C8 (amended). An eviction pass that starts with `drop_sensor = d`, `d` not
0, on a poll array of `conn_counter + 1` slots, is defined and ends in one of
two ways: `drop_sensor` is still `d` and the pass has logged no drop signal for
`d`, or `drop_sensor` is 0 and the pass has logged exactly one drop signal for
`d` (one connection dropped on account of it). -/
theorem drop_signal_kept_or_consumed_once (TIMEOUT : Int) (env : conn_env) (poll_res : Int)
    (st : connmgr_state) (hd : st.sensor_to_drop ≠ 0)
    (hlen : st.poll_fds.length = st.conn_counter + 1) :
    ∃ st1, connmgr_pass TIMEOUT env poll_res st = some st1 ∧
      ((st1.sensor_to_drop = st.sensor_to_drop ∧
          st1.log.count (cm_log.signalled_drop st.sensor_to_drop)
            = st.log.count (cm_log.signalled_drop st.sensor_to_drop)) ∨
       (st1.sensor_to_drop = 0 ∧
          st1.log.count (cm_log.signalled_drop st.sensor_to_drop)
            = st.log.count (cm_log.signalled_drop st.sensor_to_drop) + 1)) := by
  obtain ⟨st1, h1, _, hK⟩ := connmgr_slots_inv TIMEOUT env poll_res st.sensor_to_drop
    (st.log.count (cm_log.signalled_drop st.sensor_to_drop)) hd st.conn_counter 1 st hlen
    (le_refl 1) (by omega) (Or.inl ⟨rfl, rfl⟩)
  exact ⟨st1, h1, hK⟩

/-- Instance of C8 (amended): the signalled sensor 99 is bound to the client of
descriptor 7; the pass consumes the signal. -/
theorem drop_signal_kept_or_consumed_once_witness :
    example_bound.sensor_to_drop ≠ 0 ∧
    example_bound.poll_fds.length = example_bound.conn_counter + 1 ∧
    (∃ st1, connmgr_pass 5 example_env 1 example_bound = some st1 ∧
      ((st1.sensor_to_drop = example_bound.sensor_to_drop ∧
          st1.log.count (cm_log.signalled_drop example_bound.sensor_to_drop)
            = example_bound.log.count (cm_log.signalled_drop example_bound.sensor_to_drop)) ∨
       (st1.sensor_to_drop = 0 ∧
          st1.log.count (cm_log.signalled_drop example_bound.sensor_to_drop)
            = example_bound.log.count
                (cm_log.signalled_drop example_bound.sensor_to_drop) + 1))) ∧
    ∃ st1, connmgr_pass 5 example_env 1 example_bound = some st1 ∧ st1.sensor_to_drop = 0 ∧
      st1.socket_list = [] :=
  ⟨by decide, rfl,
    drop_signal_kept_or_consumed_once 5 example_env 1 example_bound (by decide) rfl,
    _, rfl, rfl, rfl⟩

/-! ## The no-data exits of `sbuffer_pop` -/

/-- C11. For every buffer, cursor and reader: on an empty buffer `sbuffer_pop`
returns `SBUFFER_NO_DATA` and sets the cursor to `NULL`; when the tail is marked
consumed by the reader (in particular when the cursor points at it)
`sbuffer_pop` returns `SBUFFER_NO_DATA`; in both cases the buffer, with all its
nodes and marks, is left as it was and nothing is written to `*data`. -/
theorem sbuffer_pop_no_data_exits (b : sbuffer_t) (node : Option Nat)
    (r : Fin READER_THREADS) :
    (b.head = none →
      sbuffer_pop (some b) node r = some ⟨SBUFFER_NO_DATA, some b, none, none⟩) ∧
    (∀ t tn, b.tail = some t → b.cell t = some tn → tn.element.read_by r = 1 →
      node = some t →
      ∃ p, sbuffer_pop (some b) node r = some p ∧ p.ret = SBUFFER_NO_DATA ∧
        p.buffer = some b ∧ p.data = none) := by
  refine ⟨?_, ?_⟩
  · intro hh
    simp [sbuffer_pop, hh]
  · intro t tn ht hc hr _
    match hh : b.head with
    | none =>
      exact ⟨⟨SBUFFER_NO_DATA, some b, none, none⟩, by simp [sbuffer_pop, hh], rfl, rfl, rfl⟩
    | some h =>
      exact ⟨⟨SBUFFER_NO_DATA, some b, some t, none⟩,
        by simp [sbuffer_pop, hh, ht, hc, hr], rfl, rfl, rfl⟩

/-- Instance of C11: the empty buffer, and the one-node buffer whose node reader
0 has read, with the cursor of reader 0 on it. -/
theorem sbuffer_pop_no_data_exits_witness :
    example_empty.head = none ∧
    sbuffer_pop (some example_empty) (some 7) 0
      = some ⟨SBUFFER_NO_DATA, some example_empty, none, none⟩ ∧
    example_read_buffer.tail = some 0 ∧
    (∃ tn, example_read_buffer.cell 0 = some tn ∧ tn.element.read_by 0 = 1) ∧
    ∃ p, sbuffer_pop (some example_read_buffer) (some 0) 0 = some p ∧
      p.ret = SBUFFER_NO_DATA ∧ p.buffer = some example_read_buffer ∧ p.data = none :=
  ⟨rfl, (sbuffer_pop_no_data_exits example_empty (some 7) 0).1 rfl, rfl, ⟨_, rfl, rfl⟩,
    (sbuffer_pop_no_data_exits example_read_buffer (some 0) 0).2 0 _ rfl rfl rfl rfl⟩

/-! ## Data manager: unknown sensors and the cold start -/

theorem datamgr_process_unknown (lo hi : ℚ) (l : List node_t) (d : sensor_data_t)
    (h : ∀ e ∈ l, e.sensor.id ≠ d.id) :
    datamgr_process lo hi l d = ⟨l, some d.id, [dm_log.not_exist d.id]⟩ := by
  rcases datamgr_process_cases lo hi l d with ⟨_, hp⟩ | ⟨pre, e, post, hl, hid, _, _⟩
  · exact hp
  · exact absurd hid (h e (by rw [hl]; simp))

/-- C12. For every registry and every reading whose sensor id matches no
registry entry, the data manager's processing step writes that sensor id to
`drop_sensor`, returns the registry unchanged (every entry with its window,
count, last average and last timestamp), and logs no temperature alert (only
the line that the sensor does not exist). -/
theorem datamgr_unknown_sensor_requests_drop (SET_MIN_TEMP SET_MAX_TEMP : ℚ)
    (dplist : List node_t) (d : sensor_data_t) (h : ∀ e ∈ dplist, e.sensor.id ≠ d.id) :
    (datamgr_process SET_MIN_TEMP SET_MAX_TEMP dplist d).sensor_to_drop = some d.id ∧
    (datamgr_process SET_MIN_TEMP SET_MAX_TEMP dplist d).dplist = dplist ∧
    (datamgr_process SET_MIN_TEMP SET_MAX_TEMP dplist d).log = [dm_log.not_exist d.id] ∧
    (datamgr_process SET_MIN_TEMP SET_MAX_TEMP dplist d).log.filter dm_log.is_alert = [] := by
  rw [datamgr_process_unknown SET_MIN_TEMP SET_MAX_TEMP dplist d h]
  exact ⟨rfl, rfl, rfl, rfl⟩

/-- Instance of C12 (scenario S2): registry with the map line `21 15`, a reading
of sensor 99. -/
theorem datamgr_unknown_sensor_requests_drop_witness :
    (∀ e ∈ [fresh_entry 21 15], e.sensor.id ≠ (⟨99, 20, 1⟩ : sensor_data_t).id) ∧
    (datamgr_process 10 25 [fresh_entry 21 15] ⟨99, 20, 1⟩).sensor_to_drop = some 99 ∧
    (datamgr_process 10 25 [fresh_entry 21 15] ⟨99, 20, 1⟩).dplist = [fresh_entry 21 15] ∧
    (datamgr_process 10 25 [fresh_entry 21 15] ⟨99, 20, 1⟩).log = [dm_log.not_exist 99] ∧
    (datamgr_process 10 25 [fresh_entry 21 15] ⟨99, 20, 1⟩).log.filter dm_log.is_alert = [] :=
  ⟨by simp [fresh_entry],
    datamgr_unknown_sensor_requests_drop 10 25 [fresh_entry 21 15] ⟨99, 20, 1⟩
      (by simp [fresh_entry])⟩

theorem datamgr_process_log (lo hi : ℚ) (l : List node_t) (d : sensor_data_t) (e : node_t)
    (h : l.find? (fun x => decide (x.sensor.id = d.id)) = some e) :
    (datamgr_process lo hi l d).log = (datamgr_update lo hi e d).2 := by
  rcases datamgr_process_cases lo hi l d with ⟨hnone, _⟩ | ⟨pre, e1, post, hl, hid, hpre, hp⟩
  · rw [hnone] at h
    exact absurd h (by simp)
  · rw [hl, find_skip d.id pre _ hpre] at h
    simp only [List.find?_cons, hid, decide_True, Option.some.injEq] at h
    rw [hp, ← h]

theorem datamgr_kth_reading (lo hi : ℚ) (pairs : List (Nat × Nat)) (ds : List sensor_data_t)
    (d : sensor_data_t) (hreg : ∃ pr ∈ pairs, pr.2 = d.id) :
    ∃ e, (datamgr_process lo hi
        (datamgr_run lo hi (pairs.map (fun pr => fresh_entry pr.1 pr.2)) ds) d).dplist.find?
          (fun x => decide (x.sensor.id = d.id)) = some e ∧
      (((ds ++ [d]).filter (fun x => decide (x.id = d.id))).length < RUN_AVG_LENGTH →
        e.sensor.value = 0 ∧
        e.num_msrmnts = ((ds ++ [d]).filter (fun x => decide (x.id = d.id))).length ∧
        (datamgr_process lo hi
          (datamgr_run lo hi (pairs.map (fun pr => fresh_entry pr.1 pr.2)) ds) d).log = []) ∧
      (RUN_AVG_LENGTH ≤ ((ds ++ [d]).filter (fun x => decide (x.id = d.id))).length →
        e.sensor.value = (List.take RUN_AVG_LENGTH (List.reverse
            (List.map (fun x : sensor_data_t => x.value)
              ((ds ++ [d]).filter (fun x => decide (x.id = d.id)))))).sum
            / (RUN_AVG_LENGTH : ℚ) ∧
        e.num_msrmnts = RUN_AVG_LENGTH - 1 ∧
        (datamgr_process lo hi
          (datamgr_run lo hi (pairs.map (fun pr => fresh_entry pr.1 pr.2)) ds) d).log
          = if e.sensor.value < lo then [dm_log.too_cold d.id e.room e.sensor.value]
            else if e.sensor.value > hi then [dm_log.too_hot d.id e.room e.sensor.value]
            else []) := by
  obtain ⟨room, hroom⟩ := find_fresh_entry d.id pairs hreg
  have hfind := datamgr_run_find lo hi d.id ds (pairs.map (fun pr => fresh_entry pr.1 pr.2))
  rw [hroom] at hfind
  simp only [Option.map_some'] at hfind
  have hlog := datamgr_process_log lo hi _ d _ hfind
  have hpost := datamgr_process_find lo hi
    (datamgr_run lo hi (pairs.map (fun pr => fresh_entry pr.1 pr.2)) ds) d d.id
  rw [if_pos rfl, hfind] at hpost
  simp only [Option.map_some'] at hpost
  rw [hpost, hlog]
  have hEid := List.find?_some hfind
  simp only [decide_eq_true_eq] at hEid
  obtain ⟨hm, hn⟩ := datamgr_entry_after lo hi room d.id
    (ds.filter (fun x => decide (x.id = d.id)))
  generalize hE : (ds.filter (fun x => decide (x.id = d.id))).foldl
    (fun e d => (datamgr_update lo hi e d).1) (fresh_entry room d.id) = E
    at hm hn hEid
  have hfilt : (ds ++ [d]).filter (fun x => decide (x.id = d.id))
      = ds.filter (fun x => decide (x.id = d.id)) ++ [d] := by
    simp
  rw [hfilt]
  generalize ds.filter (fun x => decide (x.id = d.id)) = vs at hm hn
  have hlen : E.msrmnts.length = RUN_AVG_LENGTH := by
    rw [hm]
    simp
  have h4 : RUN_AVG_LENGTH - 1 = 4 := rfl
  rw [h4] at hn
  refine ⟨_, rfl, ?_, ?_⟩
  · intro hk
    simp only [List.length_append, List.length_singleton] at hk ⊢
    have hlt : E.num_msrmnts < RUN_AVG_LENGTH - 1 := by
      rw [h4, hn]
      omega
    unfold datamgr_update
    simp only [hlt, if_true]
    refine ⟨trivial, ?_, trivial⟩
    rw [hn]
    have : min vs.length 4 + 1 < 256 := by omega
    rw [Nat.mod_eq_of_lt this]
    omega
  · intro hk
    simp only [List.length_append, List.length_singleton] at hk
    have hlt : ¬ E.num_msrmnts < RUN_AVG_LENGTH - 1 := by
      rw [h4, hn]
      omega
    have hwin : (d.value :: E.msrmnts).take RUN_AVG_LENGTH
        = (((vs ++ [d]).map (fun x : sensor_data_t => x.value)).reverse).take RUN_AVG_LENGTH := by
      rw [hm]
      simp only [List.map_append, List.map_cons, List.map_nil, List.reverse_append,
        List.reverse_cons, List.reverse_nil, List.nil_append, List.singleton_append]
      rw [take_cons_take d.value 4 _, ← List.cons_append]
      exact List.take_append_of_le_length (by simp; omega)
    unfold datamgr_update
    simp only [hlt, if_false, shift_loop_window d.value E.msrmnts hlen, hwin, hEid]
    generalize ((((vs ++ [d]).map (fun x : sensor_data_t => x.value)).reverse).take
      RUN_AVG_LENGTH).sum / (RUN_AVG_LENGTH : ℚ) = avg
    have hn4 : E.num_msrmnts = 4 := by
      rw [hn]
      omega
    by_cases hc : avg < lo
    · simp only [hc, if_true]
      exact ⟨trivial, hn4, trivial⟩
    · by_cases hh : avg > hi
      · simp only [hc, hh, if_false, if_true]
        exact ⟨trivial, hn4, trivial⟩
      · simp only [hc, hh, if_false]
        exact ⟨trivial, hn4, trivial⟩

/-- C13 (amended). For a registered sensor and its `k`-th reading (`k` counting
the current one): when `k < RUN_AVG_LENGTH` the data manager skips averaging
(last average set to 0, count set to `k`, nothing logged); when
`k ≥ RUN_AVG_LENGTH` it stores the mean of the `RUN_AVG_LENGTH` latest values
and logs according to the strict comparison with the two limits. -/
theorem datamgr_skips_until_window_full (SET_MIN_TEMP SET_MAX_TEMP : ℚ)
    (pairs : List (Nat × Nat)) (ds : List sensor_data_t) (d : sensor_data_t)
    (hreg : ∃ pr ∈ pairs, pr.2 = d.id) :
    ∃ e, (datamgr_process SET_MIN_TEMP SET_MAX_TEMP
        (datamgr_run SET_MIN_TEMP SET_MAX_TEMP
          (pairs.map (fun pr => fresh_entry pr.1 pr.2)) ds) d).dplist.find?
          (fun x => decide (x.sensor.id = d.id)) = some e ∧
      (((ds ++ [d]).filter (fun x => decide (x.id = d.id))).length < RUN_AVG_LENGTH →
        e.sensor.value = 0 ∧
        e.num_msrmnts = ((ds ++ [d]).filter (fun x => decide (x.id = d.id))).length ∧
        (datamgr_process SET_MIN_TEMP SET_MAX_TEMP
          (datamgr_run SET_MIN_TEMP SET_MAX_TEMP
            (pairs.map (fun pr => fresh_entry pr.1 pr.2)) ds) d).log = []) ∧
      (RUN_AVG_LENGTH ≤ ((ds ++ [d]).filter (fun x => decide (x.id = d.id))).length →
        e.sensor.value = (List.take RUN_AVG_LENGTH (List.reverse
            (List.map (fun x : sensor_data_t => x.value)
              ((ds ++ [d]).filter (fun x => decide (x.id = d.id)))))).sum
            / (RUN_AVG_LENGTH : ℚ) ∧
        e.num_msrmnts = RUN_AVG_LENGTH - 1 ∧
        (datamgr_process SET_MIN_TEMP SET_MAX_TEMP
          (datamgr_run SET_MIN_TEMP SET_MAX_TEMP
            (pairs.map (fun pr => fresh_entry pr.1 pr.2)) ds) d).log
          = if e.sensor.value < SET_MIN_TEMP then
              [dm_log.too_cold d.id e.room e.sensor.value]
            else if e.sensor.value > SET_MAX_TEMP then
              [dm_log.too_hot d.id e.room e.sensor.value]
            else []) :=
  datamgr_kth_reading SET_MIN_TEMP SET_MAX_TEMP pairs ds d hreg

/-- C13 (counterexample). Registry with the map line `21 15`, limits 10 and 25;
the fourth reading of sensor 15 (`k = 4 = RUN_AVG_LENGTH - 1`, all values 40, so
the window mean is 32) is skipped: the stored average is 0 and nothing is
logged, where averaging and comparing would have logged an alert. -/
theorem datamgr_fourth_reading_is_skipped :
    List.length (List.filter (fun x : sensor_data_t => decide (x.id = 15))
      [⟨15, 40, 1⟩, ⟨15, 40, 2⟩, ⟨15, 40, 3⟩, ⟨15, 40, 4⟩]) = 4 ∧
    ¬ (4 < RUN_AVG_LENGTH - 1) ∧
    ((40 + 40 + 40 + 40 + 0 : ℚ) / (RUN_AVG_LENGTH : ℚ) > 25) ∧
    ∃ e, (datamgr_process 10 25
        (datamgr_run 10 25 ([((21 : Nat), (15 : Nat))].map (fun pr => fresh_entry pr.1 pr.2))
          [⟨15, 40, 1⟩, ⟨15, 40, 2⟩, ⟨15, 40, 3⟩]) ⟨15, 40, 4⟩).dplist.find?
          (fun x => decide (x.sensor.id = 15)) = some e ∧
      e.sensor.value = 0 ∧
      (datamgr_process 10 25
        (datamgr_run 10 25 ([((21 : Nat), (15 : Nat))].map (fun pr => fresh_entry pr.1 pr.2))
          [⟨15, 40, 1⟩, ⟨15, 40, 2⟩, ⟨15, 40, 3⟩]) ⟨15, 40, 4⟩).log = [] := by
  obtain ⟨e, he, h1, _⟩ := datamgr_kth_reading 10 25 [(21, 15)]
    [⟨15, 40, 1⟩, ⟨15, 40, 2⟩, ⟨15, 40, 3⟩] ⟨15, 40, 4⟩ ⟨(21, 15), by simp, rfl⟩
  have h2 := h1 (by decide)
  refine ⟨by decide, by decide, by norm_num, e, he, h2.1, h2.2.2⟩

/-- Instance of C13 (amended): registry with the map line `21 15`, a fifth
reading of sensor 15. -/
theorem datamgr_skips_until_window_full_witness :
    (∃ pr ∈ [((21 : Nat), (15 : Nat))], pr.2 = (⟨15, 30, 5⟩ : sensor_data_t).id) ∧
    ∃ e, (datamgr_process 10 25
        (datamgr_run 10 25 ([((21 : Nat), (15 : Nat))].map (fun pr => fresh_entry pr.1 pr.2))
          [⟨15, 30, 1⟩, ⟨15, 30, 2⟩, ⟨15, 30, 3⟩, ⟨15, 30, 4⟩]) ⟨15, 30, 5⟩).dplist.find?
          (fun x => decide (x.sensor.id = 15)) = some e ∧
      e.num_msrmnts = RUN_AVG_LENGTH - 1 := by
  obtain ⟨e, he, _, h2⟩ := datamgr_skips_until_window_full 10 25 [(21, 15)]
    [⟨15, 30, 1⟩, ⟨15, 30, 2⟩, ⟨15, 30, 3⟩, ⟨15, 30, 4⟩] ⟨15, 30, 5⟩
    ⟨(21, 15), by simp, rfl⟩
  exact ⟨⟨(21, 15), by simp, rfl⟩, e, he, (h2 (by decide)).2.1⟩

/-! ## `dpl_insert_sorted` -/

theorem insert_sorted_scan_lt {α : Type} (cmp : α → α → Int) (e : α) :
    ∀ l : List α, l ≠ [] → insert_sorted_scan cmp e l < l.length := by
  intro l
  induction l with
  | nil => intro h; exact absurd rfl h
  | cons x t ih =>
    intro _
    match t, ih with
    | [], _ => simp [insert_sorted_scan]
    | y :: t2, ih =>
      simp only [insert_sorted_scan]
      split_ifs
      · have := ih (by simp)
        simp only [List.length_cons] at this ⊢
        omega
      · simp

theorem insert_sorted_scan_before {α : Type} (cmp : α → α → Int) (e : α) :
    ∀ l : List α, ∀ a ∈ l.take (insert_sorted_scan cmp e l), cmp e a > 0 := by
  intro l
  induction l with
  | nil => intro a ha; simp [insert_sorted_scan] at ha
  | cons x t ih =>
    match t, ih with
    | [], _ =>
      intro a ha
      simp [insert_sorted_scan] at ha
    | y :: t2, ih =>
      intro a ha
      simp only [insert_sorted_scan] at ha
      by_cases hx : cmp e x > 0
      · rw [if_pos hx, List.take_succ_cons] at ha
        rcases List.mem_cons.mp ha with h1 | h1
        · rw [h1]
          exact hx
        · exact ih a h1
      · rw [if_neg hx] at ha
        simp at ha

theorem insert_sorted_scan_at {α : Type} (cmp : α → α → Int) (e : α) :
    ∀ (l : List α) (x : α), l[insert_sorted_scan cmp e l]? = some x →
      insert_sorted_scan cmp e l + 1 = l.length ∨ cmp e x ≤ 0 := by
  intro l
  induction l with
  | nil => intro x hx; simp at hx
  | cons a t ih =>
    match t, ih with
    | [], _ =>
      intro x _
      left
      simp [insert_sorted_scan]
    | y :: t2, ih =>
      intro x hx
      simp only [insert_sorted_scan] at hx ⊢
      by_cases ha : cmp e a > 0
      · rw [if_pos ha] at hx ⊢
        rw [List.getElem?_cons_succ] at hx
        rcases ih x hx with h1 | h1
        · left
          simp only [List.length_cons] at h1 ⊢
          omega
        · right
          exact h1
      · rw [if_neg ha] at hx ⊢
        simp only [List.getElem?_cons_zero, Option.some.injEq] at hx
        right
        rw [← hx]
        omega

theorem dpl_insert_sorted_shape {α : Type} (cmp : α → α → Int) (l : List α) (e : α)
    (l1 : List α) (h : dpl_insert_sorted cmp l e = some l1) :
    ∃ i, i ≤ l.length ∧ l1 = l.take i ++ e :: l.drop i ∧
      (∀ a ∈ l.take i, cmp e a ≥ 0) ∧ (∀ x, l[i]? = some x → cmp e x ≤ 0) := by
  match l, h with
  | [], h =>
    simp only [dpl_insert_sorted, Option.some.injEq] at h
    exact ⟨0, le_refl _, by simp [← h], by simp, by simp⟩
  | a :: t, h =>
    have hlt := insert_sorted_scan_lt cmp e (a :: t) (by simp)
    have hbefore := insert_sorted_scan_before cmp e (a :: t)
    have hat := insert_sorted_scan_at cmp e (a :: t)
    simp only [dpl_insert_sorted] at h
    generalize insert_sorted_scan cmp e (a :: t) = k at h hlt hbefore hat
    rw [List.getElem?_eq_getElem hlt] at h
    simp only at h
    have hk := hat _ (List.getElem?_eq_getElem hlt)
    by_cases h1 : k + 1 = (a :: t).length ∧ cmp e ((a :: t)[k]) ≥ 0
    · rw [if_pos h1] at h
      refine ⟨(a :: t).length, le_refl _, ?_, ?_, ?_⟩
      · rw [List.take_length, List.drop_length]
        exact (Option.some.inj h).symm
      · intro x hx
        rw [List.take_length] at hx
        obtain ⟨j, hj, hjx⟩ := List.getElem_of_mem hx
        by_cases hjk : j < k
        · have : x ∈ (a :: t).take k := by
            rw [← hjx]
            exact List.mem_take_iff_getElem.mpr ⟨j, by omega, rfl⟩
          exact le_of_lt (hbefore x this)
        · have hjk2 : j = k := by omega
          subst hjk2
          rw [← hjx]
          exact h1.2
      · intro x hx
        rw [List.getElem?_eq_none (le_refl _)] at hx
        exact absurd hx (by simp)
    · rw [if_neg h1] at h
      by_cases h2 : k = 0 ∧ cmp e ((a :: t)[k]) < 0
      · rw [if_pos h2] at h
        refine ⟨0, Nat.zero_le _, ?_, by simp, ?_⟩
        · simp only [List.take_zero, List.drop_zero, List.nil_append]
          exact (Option.some.inj h).symm
        · intro x hx
          obtain ⟨hk0, hc⟩ := h2
          subst hk0
          rw [List.getElem?_eq_getElem hlt] at hx
          rw [← Option.some.inj hx]
          exact le_of_lt hc
      · rw [if_neg h2] at h
        by_cases h3 : k = 0
        · rw [if_pos h3] at h
          exact absurd h (by simp)
        · rw [if_neg h3] at h
          refine ⟨k, le_of_lt hlt, (Option.some.inj h).symm,
            fun x hx => le_of_lt (hbefore x hx), ?_⟩
          intro x hx
          rw [List.getElem?_eq_getElem hlt] at hx
          rw [← Option.some.inj hx]
          rcases hk with hk1 | hk1
          · by_contra hc
            exact h1 ⟨hk1, by omega⟩
          · exact hk1

theorem dpl_insert_sorted_none {α : Type} (cmp : α → α → Int) (l : List α) (e : α)
    (h : dpl_insert_sorted cmp l e = none) :
    ∃ x, l[0]? = some x ∧ cmp e x = 0 ∧ 2 ≤ l.length := by
  match l, h with
  | [], h => simp [dpl_insert_sorted] at h
  | a :: t, h =>
    have hlt := insert_sorted_scan_lt cmp e (a :: t) (by simp)
    have hat := insert_sorted_scan_at cmp e (a :: t)
    simp only [dpl_insert_sorted] at h
    generalize insert_sorted_scan cmp e (a :: t) = k at h hlt hat
    rw [List.getElem?_eq_getElem hlt] at h
    simp only at h
    have hk := hat _ (List.getElem?_eq_getElem hlt)
    by_cases h1 : k + 1 = (a :: t).length ∧ cmp e ((a :: t)[k]) ≥ 0
    · rw [if_pos h1] at h
      exact absurd h (by simp)
    · rw [if_neg h1] at h
      by_cases h2 : k = 0 ∧ cmp e ((a :: t)[k]) < 0
      · rw [if_pos h2] at h
        exact absurd h (by simp)
      · rw [if_neg h2] at h
        by_cases h3 : k = 0
        · subst h3
          refine ⟨a, by simp, ?_, ?_⟩
          · have h4 : ¬ cmp e a < 0 := fun hc => h2 ⟨rfl, hc⟩
            have h5 : ¬ (0 + 1 = (a :: t).length) := fun hl => h1 ⟨hl, by
              show cmp e a ≥ 0
              omega⟩
            rcases hk with hk1 | hk1
            · exact absurd hk1 h5
            · have : cmp e a ≤ 0 := hk1
              omega
          · have h4 : ¬ cmp e a < 0 := fun hc => h2 ⟨rfl, hc⟩
            have h5 : ¬ (0 + 1 = (a :: t).length) := fun hl => h1 ⟨hl, by
              show cmp e a ≥ 0
              omega⟩
            simp only [List.length_cons] at h5 ⊢
            omega
        · rw [if_neg h3] at h
          exact absurd h (by simp)

theorem dpl_insert_sorted_pairwise {α : Type} (cmp : α → α → Int) (l : List α) (e : α)
    (l1 : List α) (h : dpl_insert_sorted cmp l e = some l1)
    (hsym : ∀ a ∈ l, cmp e a ≥ 0 → cmp a e ≤ 0)
    (htrans : ∀ a ∈ l, ∀ b ∈ l, cmp e a ≤ 0 → cmp a b ≤ 0 → cmp e b ≤ 0)
    (hs : l.Pairwise (fun a b => cmp a b ≤ 0)) :
    l1.Pairwise (fun a b => cmp a b ≤ 0) := by
  obtain ⟨i, hi, hl1, hbefore, hat⟩ := dpl_insert_sorted_shape cmp l e l1 h
  have hsplit : l.take i ++ l.drop i = l := List.take_append_drop i l
  have hs2 := hs
  rw [← hsplit, List.pairwise_append] at hs2
  obtain ⟨hst, hsd, hcross⟩ := hs2
  have hafter : ∀ b ∈ l.drop i, cmp e b ≤ 0 := by
    intro b hb
    by_cases hlt : i < l.length
    · rw [List.drop_eq_getElem_cons hlt] at hb hsd
      have hx := hat _ (List.getElem?_eq_getElem hlt)
      rcases List.mem_cons.mp hb with hbx | hbr
      · rw [hbx]
        exact hx
      · have hxb := (List.pairwise_cons.mp hsd).1 b hbr
        exact htrans _ (List.getElem_mem hlt) b (List.mem_of_mem_drop hbr) hx hxb
    · rw [List.drop_eq_nil_of_le (by omega)] at hb
      exact absurd hb (List.not_mem_nil b)
  rw [hl1, List.pairwise_append]
  refine ⟨hst, List.pairwise_cons.mpr ⟨hafter, hsd⟩, ?_⟩
  intro a ha b hb
  rcases List.mem_cons.mp hb with hbe | hbd
  · rw [hbe]
    exact hsym a (List.mem_of_mem_take ha) (hbefore a ha)
  · exact hcross a ha b hbd

theorem dpl_insert_sorted_mem {α : Type} (cmp : α → α → Int) (l : List α) (e : α)
    (l1 : List α) (h : dpl_insert_sorted cmp l e = some l1) (x : α) :
    x ∈ l1 ↔ x = e ∨ x ∈ l := by
  obtain ⟨i, _, hl1, _, _⟩ := dpl_insert_sorted_shape cmp l e l1 h
  have hsplit : l.take i ++ l.drop i = l := List.take_append_drop i l
  rw [hl1]
  constructor
  · intro hx
    rcases List.mem_append.mp hx with h1 | h1
    · exact Or.inr (List.mem_of_mem_take h1)
    · rcases List.mem_cons.mp h1 with h2 | h2
      · exact Or.inl h2
      · exact Or.inr (List.mem_of_mem_drop h2)
  · intro hx
    rcases hx with h1 | h1
    · rw [h1]
      simp
    · rw [← hsplit] at h1
      rcases List.mem_append.mp h1 with h2 | h2
      · exact List.mem_append_left _ h2
      · exact List.mem_append_right _ (List.mem_cons_of_mem _ h2)

/-! ## Loading the registry -/

theorem sensor_compare_rooms (a b : node_t) (ha : a.room ≠ 0) (hb : b.room ≠ 0) :
    (sensor_compare a b ≤ 0 ↔ a.room ≤ b.room) ∧
    (sensor_compare a b ≥ 0 ↔ b.room ≤ a.room) ∧
    (sensor_compare a b = 0 ↔ a.room = b.room) := by
  have h0 : ¬ (a.room = 0 ∨ b.room = 0) := by
    intro h
    rcases h with h | h
    · exact ha h
    · exact hb h
  simp only [sensor_compare, h0, if_false]
  by_cases h1 : a.room > b.room
  · simp only [h1, if_true]
    refine ⟨?_, ?_, ?_⟩
    · constructor
      · intro h; exact absurd h (by decide)
      · intro h; omega
    · constructor
      · intro _; omega
      · intro _; decide
    · constructor
      · intro h; exact absurd h (by decide)
      · intro h; omega
  · simp only [h1, if_false]
    by_cases h2 : a.room = b.room
    · simp only [h2, if_true]
      refine ⟨?_, ?_, ?_⟩ <;> simp
    · simp only [h2, if_false]
      refine ⟨?_, ?_, ?_⟩
      · constructor
        · intro _; omega
        · intro _; decide
      · constructor
        · intro h; exact absurd h (by decide)
        · intro h; omega
      · constructor
        · intro h; exact absurd h (by decide)
        · intro h; exact h.elim

theorem datamgr_load_from_sorted :
    ∀ (rest : List (Nat × Nat)) (l l2 : List node_t), (∀ x ∈ l, x.room ≠ 0) →
      (∀ pr ∈ rest, pr.1 ≠ 0) → l.Pairwise (fun a b => a.room ≤ b.room) →
      datamgr_load_from l rest = some l2 → l2.Pairwise (fun a b => a.room ≤ b.room) := by
  intro rest
  induction rest with
  | nil =>
    intro l l2 _ _ hs h
    simp only [datamgr_load_from, Option.some.injEq] at h
    rw [← h]
    exact hs
  | cons pr t ih =>
    intro l l2 hnz hrest hs h
    simp only [datamgr_load_from] at h
    have hpr : pr.1 ≠ 0 := hrest pr (List.mem_cons_self pr t)
    have he : (fresh_entry pr.1 pr.2).room ≠ 0 := hpr
    match hins : dpl_insert_sorted sensor_compare l (fresh_entry pr.1 pr.2) with
    | none =>
      rw [hins] at h
      exact absurd h (by simp)
    | some l1 =>
      rw [hins] at h
      simp only at h
      have hmem := dpl_insert_sorted_mem sensor_compare l _ l1 hins
      have hnz1 : ∀ x ∈ l1, x.room ≠ 0 := by
        intro x hx
        rcases (hmem x).mp hx with h1 | h1
        · rw [h1]
          exact he
        · exact hnz x h1
      have hs0 : l.Pairwise (fun a b => sensor_compare a b ≤ 0) :=
        List.Pairwise.imp_of_mem
          (fun {a b} ha hb hab => ((sensor_compare_rooms a b (hnz a ha) (hnz b hb)).1).mpr hab) hs
      have hs1 := dpl_insert_sorted_pairwise sensor_compare l _ l1 hins
        (fun a ha hge => by
          have h1 := (sensor_compare_rooms _ a he (hnz a ha)).2.1.mp hge
          exact (sensor_compare_rooms a _ (hnz a ha) he).1.mpr h1)
        (fun a ha b hb h1 h2 => by
          have g1 := (sensor_compare_rooms _ a he (hnz a ha)).1.mp h1
          have g2 := (sensor_compare_rooms a b (hnz a ha) (hnz b hb)).1.mp h2
          exact (sensor_compare_rooms _ b he (hnz b hb)).1.mpr (le_trans g1 g2))
        hs0
      have hs2 : l1.Pairwise (fun a b => a.room ≤ b.room) :=
        List.Pairwise.imp_of_mem
          (fun {a b} ha hb hab =>
            ((sensor_compare_rooms a b (hnz1 a ha) (hnz1 b hb)).1).mp hab) hs1
      exact ih l1 l2 hnz1 (fun q hq => hrest q (List.mem_cons_of_mem pr hq)) hs2 h

theorem datamgr_load_from_total :
    ∀ (rest : List (Nat × Nat)) (l : List node_t), (∀ x ∈ l, x.room ≠ 0) →
      (∀ pr ∈ rest, pr.1 ≠ 0) → (rest.map Prod.fst).Nodup →
      (∀ pr ∈ rest, ∀ x ∈ l, x.room ≠ pr.1) →
      ∃ l2, datamgr_load_from l rest = some l2 := by
  intro rest
  induction rest with
  | nil =>
    intro l _ _ _ _
    exact ⟨l, rfl⟩
  | cons pr t ih =>
    intro l hnz hrest hnd hnew
    have hpr : pr.1 ≠ 0 := hrest pr (List.mem_cons_self pr t)
    have he : (fresh_entry pr.1 pr.2).room ≠ 0 := hpr
    simp only [List.map_cons, List.nodup_cons] at hnd
    match hins : dpl_insert_sorted sensor_compare l (fresh_entry pr.1 pr.2) with
    | none =>
      obtain ⟨x, hx, hc, _⟩ := dpl_insert_sorted_none sensor_compare l _ hins
      have hxl : x ∈ l := List.getElem?_mem hx
      have hroom := (sensor_compare_rooms _ x he (hnz x hxl)).2.2.mp hc
      exact absurd hroom.symm (hnew pr (List.mem_cons_self pr t) x hxl)
    | some l1 =>
      have hmem := dpl_insert_sorted_mem sensor_compare l _ l1 hins
      have hnz1 : ∀ x ∈ l1, x.room ≠ 0 := by
        intro x hx
        rcases (hmem x).mp hx with h1 | h1
        · rw [h1]
          exact he
        · exact hnz x h1
      obtain ⟨l2, hl2⟩ := ih l1 hnz1 (fun q hq => hrest q (List.mem_cons_of_mem pr hq)) hnd.2
        (by
          intro q hq x hx
          rcases (hmem x).mp hx with h1 | h1
          · rw [h1]
            intro heq
            exact hnd.1 (by
              rw [show (fresh_entry pr.1 pr.2).room = pr.1 from rfl] at heq
              rw [heq]
              exact List.mem_map_of_mem Prod.fst hq)
          · exact hnew q (List.mem_cons_of_mem pr hq) x h1)
      exact ⟨l2, by simp only [datamgr_load_from, hins]; exact hl2⟩

/-- C14 (amended). After loading a registry map all of whose room ids are not
0, the registry's entries are ordered by non-decreasing room id; and the load
runs to completion whenever no room id is listed twice. -/
theorem registry_sorted_by_room (pairs : List (Nat × Nat)) (hnz : ∀ pr ∈ pairs, pr.1 ≠ 0) :
    (∀ l, datamgr_load pairs = some l → l.Pairwise (fun a b => a.room ≤ b.room)) ∧
    ((pairs.map Prod.fst).Nodup → ∃ l, datamgr_load pairs = some l) := by
  refine ⟨?_, ?_⟩
  · intro l h
    exact datamgr_load_from_sorted pairs [] l (fun x hx => absurd hx (List.not_mem_nil x)) hnz
      List.Pairwise.nil h
  · intro hnd
    exact datamgr_load_from_total pairs [] (fun x hx => absurd hx (List.not_mem_nil x)) hnz hnd
      (fun _ _ x hx => absurd hx (List.not_mem_nil x))

/-- C14 (counterexample). The map with the lines `1 20` and `2 10` loads into a
registry whose sensor ids are 20, 10: not in non-decreasing order. -/
theorem registry_not_sorted_by_sensor :
    datamgr_load [(1, 20), (2, 10)] = some [fresh_entry 1 20, fresh_entry 2 10] ∧
    ¬ ([fresh_entry 1 20, fresh_entry 2 10].Pairwise
        (fun a b => a.sensor.id ≤ b.sensor.id)) := by
  refine ⟨rfl, ?_⟩
  simp [fresh_entry]

/-- Instance of C14 (amended): the map with the lines `2 10`, `1 20`, `3 15`. -/
theorem registry_sorted_by_room_witness :
    (∀ pr ∈ [((2 : Nat), (10 : Nat)), (1, 20), (3, 15)], pr.1 ≠ 0) ∧
    ([((2 : Nat), (10 : Nat)), (1, 20), (3, 15)].map Prod.fst).Nodup ∧
    datamgr_load [(2, 10), (1, 20), (3, 15)]
      = some [fresh_entry 1 20, fresh_entry 2 10, fresh_entry 3 15] ∧
    [fresh_entry 1 20, fresh_entry 2 10, fresh_entry 3 15].Pairwise
      (fun a b => a.room ≤ b.room) :=
  ⟨by decide, by decide, rfl,
    (registry_sorted_by_room [(2, 10), (1, 20), (3, 15)] (by decide)).1 _ rfl⟩

/-! ## Storage manager start-up -/

theorem storagemgr_connect_spec (n : Nat) (init : Nat → Bool) :
    ∀ fuel a, 1 ≤ fuel → n ≤ a + fuel →
      ∃ k, storagemgr_connect n init fuel a = some (k, init (k - 1)) ∧ a < k ∧
        (k ≤ n ∨ k = a + 1) ∧
        (∀ i, a ≤ i → i + 1 < k → init i = false) ∧
        (k < n → init (k - 1) = true) := by
  intro fuel
  induction fuel with
  | zero =>
    intro a h _
    omega
  | succ f ih =>
    intro a _ hn
    by_cases hc : a + 1 < n ∧ init a = false
    · obtain ⟨k, hk, hak, hkn, hfail, hlast⟩ := ih (a + 1) (by omega) (by omega)
      refine ⟨k, ?_, by omega, ?_, ?_, hlast⟩
      · simp only [storagemgr_connect, hc, and_self, if_true]
        exact hk
      · rcases hkn with h1 | h1
        · exact Or.inl h1
        · exact Or.inl (by omega)
      · intro i hi hik
        by_cases hia : i = a
        · rw [hia]
          exact hc.2
        · exact hfail i (by omega) hik
    · refine ⟨a + 1, ?_, by omega, Or.inr rfl, ?_, ?_⟩
      · simp only [storagemgr_connect, hc, if_false]
        rfl
      · intro i hi hik
        omega
      · intro hlt
        have : ¬ init a = false := fun h => hc ⟨hlt, h⟩
        simpa using this

/-- C15. For `STORAGE_INIT_ATTEMPTS ≥ 1` and every sequence `init` of outcomes of
`init_connection`, the storage manager thread terminates its connect loop; if
`p` is the position of the first success it has called `init_connection`
exactly `min p STORAGE_INIT_ATTEMPTS` times, and exactly
`STORAGE_INIT_ATTEMPTS` times if the first `STORAGE_INIT_ATTEMPTS` calls all
fail; in that last case, and only then, it sets `storagemgr_failed` to 1, and
otherwise it leaves the flag as it found it. -/
theorem storagemgr_attempts_and_fail_flag (STORAGE_INIT_ATTEMPTS : Nat)
    (hn : 1 ≤ STORAGE_INIT_ATTEMPTS) (init : Nat → Bool) (flag : Int) :
    ∃ r, storagemgr STORAGE_INIT_ATTEMPTS init flag = some r ∧
      (∀ p, 1 ≤ p → init (p - 1) = true → (∀ i, i + 1 < p → init i = false) →
        r.attempts = min p STORAGE_INIT_ATTEMPTS) ∧
      ((∀ i, i < STORAGE_INIT_ATTEMPTS → init i = false) →
        r.attempts = STORAGE_INIT_ATTEMPTS ∧ r.storagemgr_failed = 1) ∧
      (¬ (∀ i, i < STORAGE_INIT_ATTEMPTS → init i = false) →
        r.storagemgr_failed = flag) := by
  obtain ⟨k, hk, hk0, hkn, hfail, hlast⟩ :=
    storagemgr_connect_spec STORAGE_INIT_ATTEMPTS init (STORAGE_INIT_ATTEMPTS + 1) 0
      (by omega) (by omega)
  have hkn2 : k ≤ STORAGE_INIT_ATTEMPTS := by omega
  have hatt : ∀ r : storagemgr_result, storagemgr STORAGE_INIT_ATTEMPTS init flag = some r →
      r.attempts = k ∧ (init (k - 1) = false → r.storagemgr_failed = 1) ∧
      (init (k - 1) = true → r.storagemgr_failed = flag) := by
    intro r hr
    simp only [storagemgr, hk] at hr
    by_cases hdb : init (k - 1) = true
    · rw [if_pos hdb] at hr
      cases hr
      exact ⟨rfl, fun h => by rw [hdb] at h; exact absurd h (by decide), fun _ => rfl⟩
    · rw [if_neg hdb] at hr
      cases hr
      exact ⟨rfl, fun _ => rfl, fun h => absurd h hdb⟩
  have hex : ∃ r, storagemgr STORAGE_INIT_ATTEMPTS init flag = some r := by
    simp only [storagemgr, hk]
    by_cases hdb : init (k - 1) = true
    · exact ⟨_, by rw [if_pos hdb]⟩
    · exact ⟨_, by rw [if_neg hdb]⟩
  obtain ⟨r, hr⟩ := hex
  obtain ⟨ha, hf1, hf2⟩ := hatt r hr
  refine ⟨r, hr, ?_, ?_, ?_⟩
  · intro p hp hsucc hbefore
    rw [ha]
    have h1 : k ≤ p := by
      by_contra hc
      have := hfail (p - 1) (Nat.zero_le _) (by omega)
      rw [this] at hsucc
      exact absurd hsucc (by decide)
    by_cases hpn : p ≤ STORAGE_INIT_ATTEMPTS
    · have h2 : p ≤ k := by
        by_contra hc
        have h3 := hlast (by omega)
        have h4 := hbefore (k - 1) (by omega)
        rw [h4] at h3
        exact absurd h3 (by decide)
      omega
    · have h2 : ¬ k < STORAGE_INIT_ATTEMPTS := by
        intro hc
        have h3 := hlast hc
        have h4 := hbefore (k - 1) (by omega)
        rw [h4] at h3
        exact absurd h3 (by decide)
      omega
  · intro hall
    have h2 : ¬ k < STORAGE_INIT_ATTEMPTS := by
      intro hc
      have h3 := hlast hc
      rw [hall (k - 1) (by omega)] at h3
      exact absurd h3 (by decide)
    exact ⟨by omega, hf1 (hall (k - 1) (by omega))⟩
  · intro hnot
    apply hf2
    by_contra hdb
    have hdb2 : init (k - 1) = false := by simpa using hdb
    have h2 : ¬ k < STORAGE_INIT_ATTEMPTS := by
      intro hc
      have h3 := hlast hc
      rw [hdb2] at h3
      exact absurd h3 (by decide)
    apply hnot
    intro i hi
    by_cases hik : i + 1 < k
    · exact hfail i (Nat.zero_le _) hik
    · have : i = k - 1 := by omega
      rw [this]
      exact hdb2

/-- Instance of C15 (scenario S4): three attempts allowed, storage refusing
every time; three calls are made and the flag is raised. -/
theorem storagemgr_attempts_and_fail_flag_witness :
    (1 ≤ 3) ∧
    ∃ r, storagemgr 3 (fun _ => false) 0 = some r ∧ r.attempts = 3 ∧
      r.storagemgr_failed = 1 := by
  obtain ⟨r, hr, _, h2, _⟩ :=
    storagemgr_attempts_and_fail_flag 3 (by decide) (fun _ => false) 0
  exact ⟨by decide, r, hr, h2 (fun _ _ => rfl)⟩

/-! ## Port range -/

/-- C16. With `MIN_PORT = 1024` and `MAX_PORT = 65535`, for every integer port:
`connmgr_listen` writes `CONNMGR_INCORRECT_PORT` to its status and returns
without calling `tcp_passive_open` and without allocating the record list if
and only if the port is below 1024 or above 65535; and `main` prints the usage
and exits with success if and only if the argument count is not 2 or the port
argument fails the same range test. -/
theorem port_range_check (port : Int) (open_ok : Bool) (argc : Int) :
    (((connmgr_listen_start 1024 65535 port open_ok).retval = some CONNMGR_INCORRECT_PORT ∧
      (connmgr_listen_start 1024 65535 port open_ok).open_called = false ∧
      (connmgr_listen_start 1024 65535 port open_ok).socket_list_allocated = false ∧
      (connmgr_listen_start 1024 65535 port open_ok).enters_loop = false) ↔
        (port < 1024 ∨ port > 65535)) ∧
    (main_args 1024 65535 argc port = main_start.usage_exit_success ↔
        (argc ≠ 2 ∨ port < 1024 ∨ port > 65535)) := by
  refine ⟨?_, ?_⟩
  · by_cases h : port < 1024 ∨ port > 65535
    · simp only [connmgr_listen_start, h, if_true, and_self]
    · simp only [connmgr_listen_start, h, if_false, iff_false]
      cases open_ok <;> simp
  · by_cases h1 : argc ≠ 2
    · simp only [main_args, h1, if_true, ne_eq, not_false_eq_true, true_or]
    · by_cases h2 : port > 65535 ∨ port < 1024
      · simp only [main_args, h1, h2, if_true, if_false, true_iff]
        right
        exact h2.symm
      · simp only [main_args, h1, h2, if_false]
        constructor
        · intro h
          cases h
        · intro h
          rcases h with h | h
          · exact h.elim
          · exact absurd h.symm h2

/-! ## Contracts of the headers -/

/-- The result record of `sbuffer_remove` never carries a value for `*data`:
no path of the function writes through `data`. -/
theorem sbuffer_remove_data (buffer : Option sbuffer_t) (r : remove_result)
    (h : sbuffer_remove buffer = some r) : r.data = none := by
  unfold sbuffer_remove at h
  split at h
  · cases h
    rfl
  · split at h
    · cases h
      rfl
    · split at h
      · split at h
        · cases h
        · cases h
          rfl
      · split at h
        · cases h
        · cases h
          rfl

/-- C17 (the code at the failing input). On the one-node buffer holding
`example_reading`, `sbuffer_remove` returns `SBUFFER_SUCCESS` and removes the
head node, but writes nothing to `*data`: the removed reading is not returned.
On the empty buffer it returns `SBUFFER_NO_DATA` and leaves the buffer as it
is, on the `NULL` buffer it returns `SBUFFER_FAILURE`. -/
theorem sbuffer_remove_leaves_data_unwritten :
    (∃ r b1, sbuffer_remove (some example_buffer) = some r ∧ r.ret = SBUFFER_SUCCESS ∧
      r.buffer = some b1 ∧ b1.head = none ∧ b1.tail = none ∧ b1.cell 0 = none ∧
      r.data = none) ∧
    sbuffer_remove (some example_empty) = some ⟨SBUFFER_NO_DATA, some example_empty, none⟩ ∧
    sbuffer_remove none = some ⟨SBUFFER_FAILURE, none, none⟩ :=
  ⟨⟨_, _, rfl, rfl, rfl, rfl, rfl, rfl, rfl⟩, rfl, rfl⟩

/-- C18 (the code at the failing input). With the registry holding sensor 15 in
room 21, the query for the unknown sensor 99 does not return: the `NULL`
reference of the failed search is handed to `dpl_get_element_of_reference`.
The query for sensor 15 returns 21.  The value the function would return for a
`NULL` element, `-1` as `uint16_t`, is 65535, which is also what it returns for
a sensor registered in room 65535. -/
theorem datamgr_get_room_id_unknown_sensor :
    datamgr_get_room_id [fresh_entry 21 15] 99 = none ∧
    datamgr_get_room_id [fresh_entry 21 15] 15 = some 21 ∧
    ((-1 : Int) % 65536).toNat = 65535 ∧
    datamgr_get_room_id [fresh_entry 65535 15] 15 = some 65535 :=
  ⟨rfl, rfl, rfl, rfl⟩

/-- C19 (the code at the failing input). For the map with the lines `1 15` and
`2 15` the registry is loaded with two entries and
`datamgr_get_total_sensors` returns 2, while the registry records one distinct
sensor id. -/
theorem datamgr_get_total_sensors_counts_entries :
    ∃ l, datamgr_load [(1, 15), (2, 15)] = some l ∧
      datamgr_get_total_sensors l = 2 ∧
      (List.dedup (l.map (fun e => e.sensor.id))).length = 1 :=
  ⟨_, rfl, rfl, by decide⟩

/-! ## Cursors of removed nodes -/

theorem sbuffer_chain_abs (ins : List sensor_data_t) (cnt : Fin READER_THREADS → Nat)
    (hlo : abs_lo cnt ≤ ins.length) :
    sbuffer_chain (abs_buffer ins cnt) = List.range' (abs_lo cnt) (ins.length - abs_lo cnt) :=
  chain_from_abs ins cnt (ins.length - abs_lo cnt) (abs_lo cnt) ins.length (le_refl _)
    (by omega) (by omega)

/-- A cursor that refers to a freed node belongs to a slowest reader. -/
theorem dangling_cursor_is_slowest (s : sb_sys) (hi : sb_inv s) (r : Fin READER_THREADS)
    (c : Nat) (hc : s.node r = some c)
    (hcell : (abs_buffer s.inserted (sb_count s)).cell c = none) :
    sb_count s r = abs_lo (sb_count s) := by
  have hcur := hi.2.2.2 r
  have hle := hi.2.2.1 r
  have hlo := abs_lo_le (sb_count s) r
  rw [hc] at hcur
  simp only [cursor_ok] at hcur
  rw [abs_cell_eq] at hcell
  by_cases hin : abs_lo (sb_count s) ≤ c ∧ c < s.inserted.length
  · rw [if_pos hin] at hcell
    cases hcell
  · omega

/-- C20. In every state reached from the empty buffer by atomic inserts and
pops, a further `sbuffer_pop` by any reader returns (no access through the
cursor or the head meets `NULL` or a freed node); when it returns
`SBUFFER_SUCCESS` the node it copied from and marked is a node of the buffer's
chain that the reader had not read; and when the reader's cursor refers to a
node that is no longer allocated, the call either returns `SBUFFER_NO_DATA` with
the cursor reset to `NULL`, or treats the head node. -/
theorem sbuffer_pop_total_on_reachable (ops : List sb_op) :
    ∃ s b, sb_run ops = some s ∧ s.buffer = some b ∧
      ∀ r : Fin READER_THREADS, ∃ p, sbuffer_pop s.buffer (s.node r) r = some p ∧
        (p.ret = SBUFFER_SUCCESS → ∃ c cn, c ∈ sbuffer_chain b ∧ b.cell c = some cn ∧
          cn.element.read_by r = 0 ∧ p.data = some cn.element.data) ∧
        (∀ c, s.node r = some c → b.cell c = none →
          (p.ret = SBUFFER_NO_DATA ∧ p.node = none) ∨
          (p.ret = SBUFFER_SUCCESS ∧ ∃ h hn, b.head = some h ∧ b.cell h = some hn ∧
            hn.element.read_by r = 0 ∧ p.data = some hn.element.data)) := by
  obtain ⟨s, hs, hi⟩ := sb_inv_run ops
  refine ⟨s, _, hs, hi.1, ?_⟩
  intro r
  have hb := hi.1
  have hcur := hi.2.2.2 r
  have hle := hi.2.2.1 r
  have hlo := abs_lo_le (sb_count s) r
  by_cases hlt : sb_count s r < s.inserted.length
  · refine ⟨_, by rw [hb]; exact sbuffer_pop_abs_success _ _ _ r hlt hcur, ?_, ?_⟩
    · intro _
      refine ⟨sb_count s r, abs_node s.inserted (sb_count s) (sb_count s r), ?_, ?_, ?_, rfl⟩
      · rw [sbuffer_chain_abs _ _ (by omega), List.mem_range'_1]
        omega
      · rw [abs_cell_eq, if_pos ⟨hlo, hlt⟩]
      · simp [abs_node]
    · intro c hc hcell
      right
      have he := dangling_cursor_is_slowest s hi r c hc hcell
      have hne : abs_lo (sb_count s) < s.inserted.length := by omega
      refine ⟨rfl, abs_lo (sb_count s),
        abs_node s.inserted (sb_count s) (abs_lo (sb_count s)), ?_, ?_, ?_, ?_⟩
      · simp [abs_buffer, hne]
      · rw [abs_cell_eq, if_pos ⟨le_refl _, hne⟩]
      · simp [abs_node, he]
      · rw [he]
        rfl
  · have hfull : sb_count s r = s.inserted.length := by omega
    by_cases he : abs_lo (sb_count s) < s.inserted.length
    · refine ⟨_, by rw [hb]; exact sbuffer_pop_abs_tail _ _ _ r he hfull, ?_, ?_⟩
      · intro h
        have hne : ¬ (SBUFFER_NO_DATA = SBUFFER_SUCCESS) := by decide
        exact absurd h hne
      · intro c hc hcell
        have := dangling_cursor_is_slowest s hi r c hc hcell
        omega
    · refine ⟨_, by rw [hb]; exact sbuffer_pop_abs_empty _ _ _ r he, ?_, ?_⟩
      · intro h
        have hne : ¬ (SBUFFER_NO_DATA = SBUFFER_SUCCESS) := by decide
        exact absurd h hne
      · intro c _ _
        left
        exact ⟨rfl, rfl⟩

/-- Instance of C20: after one insert, a pop by each reader and a second insert,
the cursor of reader 0 refers to the freed node at address 0, and the theorem
applies to that state. -/
theorem sbuffer_pop_total_on_reachable_witness :
    ∃ s b, sb_run [sb_op.insert example_reading, sb_op.pop 0, sb_op.pop 1,
        sb_op.insert example_reading] = some s ∧ s.buffer = some b ∧
      (s.node 0 = some 0 ∧ b.cell 0 = none) ∧
      ∀ r : Fin READER_THREADS, ∃ p, sbuffer_pop s.buffer (s.node r) r = some p ∧
        (p.ret = SBUFFER_SUCCESS → ∃ c cn, c ∈ sbuffer_chain b ∧ b.cell c = some cn ∧
          cn.element.read_by r = 0 ∧ p.data = some cn.element.data) ∧
        (∀ c, s.node r = some c → b.cell c = none →
          (p.ret = SBUFFER_NO_DATA ∧ p.node = none) ∨
          (p.ret = SBUFFER_SUCCESS ∧ ∃ h hn, b.head = some h ∧ b.cell h = some hn ∧
            hn.element.read_by r = 0 ∧ p.data = some hn.element.data)) := by
  obtain ⟨s, b, hs, hb, h⟩ :=
    sbuffer_pop_total_on_reachable [sb_op.insert example_reading, sb_op.pop 0, sb_op.pop 1,
      sb_op.insert example_reading]
  have h0 : ∃ s0 b0, sb_run [sb_op.insert example_reading, sb_op.pop 0, sb_op.pop 1,
        sb_op.insert example_reading] = some s0 ∧ s0.buffer = some b0 ∧
      s0.node 0 = some 0 ∧ b0.cell 0 = none :=
    ⟨_, _, rfl, rfl, rfl, rfl⟩
  obtain ⟨s0, b0, h1, h2, h3, h4⟩ := h0
  rw [hs] at h1
  cases h1
  rw [hb] at h2
  cases h2
  exact ⟨s, b, hs, hb, ⟨h3, h4⟩, h⟩

/-! ## Removal of completed nodes -/

/-- C21. In every state reached from the empty buffer by atomic inserts and
pops, a further `sbuffer_pop` by any reader returns; when it returns
`SBUFFER_SUCCESS` it has copied the reading of the node `c` chosen at lines
165-166, and whenever the mark it sets makes that node read by all readers,
`c` is the head of the buffer, the cursor becomes `NULL`, and the buffer it
leaves has the successor of `c` as head, no node at `c`, and every other
address as before: `sbuffer_remove` removed exactly the node just completed. -/
theorem sbuffer_pop_removes_completed_head (ops : List sb_op) :
    ∃ s b, sb_run ops = some s ∧ s.buffer = some b ∧
      ∀ r : Fin READER_THREADS, ∃ p, sbuffer_pop s.buffer (s.node r) r = some p ∧
        (p.ret = SBUFFER_SUCCESS →
          ∃ h c cn, b.head = some h ∧ pop_select b h (s.node r) r = some (some c) ∧
            b.cell c = some cn ∧ p.data = some cn.element.data ∧
            (_is_read_by_all { cn with element := { cn.element with
                read_by := Function.update cn.element.read_by r 1 } } ≠ 0 →
              c = h ∧ p.node = none ∧
              ∃ b1, p.buffer = some b1 ∧ b1.head = cn.next ∧ b1.cell c = none ∧
                ∀ a, a ≠ c → b1.cell a = b.cell a)) := by
  obtain ⟨s, hs, hi⟩ := sb_inv_run ops
  refine ⟨s, _, hs, hi.1, ?_⟩
  intro r
  have hb := hi.1
  have hcur := hi.2.2.2 r
  have hle := hi.2.2.1 r
  have hlo := abs_lo_le (sb_count s) r
  by_cases hlt : sb_count s r < s.inserted.length
  · have hne : abs_lo (sb_count s) < s.inserted.length := by omega
    refine ⟨_, by rw [hb]; exact sbuffer_pop_abs_success _ _ _ r hlt hcur, ?_⟩
    intro _
    refine ⟨abs_lo (sb_count s), sb_count s r,
      abs_node s.inserted (sb_count s) (sb_count s r), ?_, ?_, ?_, rfl, ?_⟩
    · simp [abs_buffer, hne]
    · exact pop_select_abs _ _ _ r hne hlt hcur
    · rw [abs_cell_eq, if_pos ⟨hlo, hlt⟩]
    · intro hall
      simp only [abs_node_mark, is_read_by_all_abs] at hall
      have hbump := abs_lo_bump (sb_count s) r
      by_cases hcomp : sb_count s r
          < abs_lo (Function.update (sb_count s) r (sb_count s r + 1))
      · have hlo2 : abs_lo (Function.update (sb_count s) r (sb_count s r + 1))
            = sb_count s r + 1 := by
          split_ifs at hbump <;> omega
        have hlo1 : abs_lo (sb_count s) = sb_count s r := by
          split_ifs at hbump <;> omega
        refine ⟨hlo1.symm, if_pos hcomp, _, rfl, ?_, ?_, ?_⟩
        · simp [abs_buffer, abs_node, hlo2]
        · rw [abs_cell_eq, if_neg (by omega)]
        · intro a ha
          have h1 := congrFun (abs_cell_bump_free s.inserted (sb_count s) r none hlo1 hlo2) a
          rw [Function.update_noteq ha, Function.update_noteq ha] at h1
          exact h1.symm
      · rw [if_neg hcomp] at hall
        exact absurd rfl hall
  · have hfull : sb_count s r = s.inserted.length := by omega
    obtain ⟨p, hp, _, hret, _⟩ := sb_inv_pop_nodata s hi r hfull
    refine ⟨p, hp, ?_⟩
    intro h
    rw [hret] at h
    have hne : ¬ (SBUFFER_NO_DATA = SBUFFER_SUCCESS) := by decide
    exact absurd h hne

/-- Instance of C21: after one insert and a pop by reader 0, the pop of reader 1
completes the only node; it is the head, and the pop leaves the buffer empty
and the cursor `NULL`. -/
theorem sbuffer_pop_removes_completed_head_witness :
    ∃ s b, sb_run [sb_op.insert example_reading, sb_op.pop 0] = some s ∧ s.buffer = some b ∧
      (∃ p b1, sbuffer_pop s.buffer (s.node 1) 1 = some p ∧ p.ret = SBUFFER_SUCCESS ∧
        p.node = none ∧ p.buffer = some b1 ∧ b.head = some 0 ∧ b1.head = none ∧
        b1.cell 0 = none) ∧
      ∀ r : Fin READER_THREADS, ∃ p, sbuffer_pop s.buffer (s.node r) r = some p ∧
        (p.ret = SBUFFER_SUCCESS →
          ∃ h c cn, b.head = some h ∧ pop_select b h (s.node r) r = some (some c) ∧
            b.cell c = some cn ∧ p.data = some cn.element.data ∧
            (_is_read_by_all { cn with element := { cn.element with
                read_by := Function.update cn.element.read_by r 1 } } ≠ 0 →
              c = h ∧ p.node = none ∧
              ∃ b1, p.buffer = some b1 ∧ b1.head = cn.next ∧ b1.cell c = none ∧
                ∀ a, a ≠ c → b1.cell a = b.cell a)) := by
  obtain ⟨s, b, hs, hb, h⟩ :=
    sbuffer_pop_removes_completed_head [sb_op.insert example_reading, sb_op.pop 0]
  have h0 : ∃ s0 b0, sb_run [sb_op.insert example_reading, sb_op.pop 0] = some s0 ∧
      s0.buffer = some b0 ∧
      ∃ p b1, sbuffer_pop s0.buffer (s0.node 1) 1 = some p ∧ p.ret = SBUFFER_SUCCESS ∧
        p.node = none ∧ p.buffer = some b1 ∧ b0.head = some 0 ∧ b1.head = none ∧
        b1.cell 0 = none :=
    ⟨_, _, rfl, rfl, _, _, rfl, rfl, rfl, rfl, rfl, rfl, rfl⟩
  obtain ⟨s0, b0, h1, h2, h3⟩ := h0
  rw [hs] at h1
  cases h1
  rw [hb] at h2
  cases h2
  exact ⟨s, b, hs, hb, h3, h⟩

/-- C22. In every state reached from the empty buffer by atomic inserts and
pops, the head node (if any) is not read by all readers, and a further
`sbuffer_pop` by any reader returns `SBUFFER_SUCCESS` or `SBUFFER_NO_DATA`, never
`SBUFFER_NODE_ALREADY_CONSUMED`. -/
theorem sbuffer_pop_never_already_consumed (ops : List sb_op) :
    ∃ s b, sb_run ops = some s ∧ s.buffer = some b ∧
      (∀ h hn, b.head = some h → b.cell h = some hn → _is_read_by_all hn = 0) ∧
      ∀ r : Fin READER_THREADS, ∃ p, sbuffer_pop s.buffer (s.node r) r = some p ∧
        p.ret ≠ SBUFFER_NODE_ALREADY_CONSUMED ∧
        (p.ret = SBUFFER_SUCCESS ∨ p.ret = SBUFFER_NO_DATA) := by
  obtain ⟨s, hs, hi⟩ := sb_inv_run ops
  refine ⟨s, _, hs, hi.1, ?_, ?_⟩
  · intro h hn hh hc
    by_cases hne : abs_lo (sb_count s) < s.inserted.length
    · simp only [abs_buffer, if_pos hne, Option.some.injEq] at hh
      subst hh
      rw [abs_cell_eq, if_pos ⟨le_refl _, hne⟩] at hc
      cases hc
      rw [is_read_by_all_abs, if_neg (lt_irrefl _)]
    · simp [abs_buffer, hne] at hh
  · intro r
    have h1 : ¬ (SBUFFER_SUCCESS = SBUFFER_NODE_ALREADY_CONSUMED) := by decide
    have h2 : ¬ (SBUFFER_NO_DATA = SBUFFER_NODE_ALREADY_CONSUMED) := by decide
    by_cases hlt : sb_count s r < s.inserted.length
    · obtain ⟨p, hp, _, hret, _⟩ := sb_inv_pop_success s hi r hlt
      refine ⟨p, hp, ?_, Or.inl hret⟩
      rw [hret]
      exact h1
    · have hfull : sb_count s r = s.inserted.length := by
        have := hi.2.2.1 r
        omega
      obtain ⟨p, hp, _, hret, _⟩ := sb_inv_pop_nodata s hi r hfull
      refine ⟨p, hp, ?_, Or.inr hret⟩
      rw [hret]
      exact h2

/-! ## Data manager: lookup and window -/

/-- C25. For every registry list and every reading, the lookup of the data
manager (probe with room 0 carrying the reading) returns a reference if and only
if some registry entry has the reading's sensor id, and the reference returned
is the position of the first entry in list order with that sensor id. -/
theorem datamgr_lookup_finds_first (dplist : List node_t) (d : sensor_data_t) :
    ((∃ j, dpl_get_reference_of_element sensor_compare dplist
          { fresh_entry 0 d.id with sensor := d } = some j) ↔
      ∃ e ∈ dplist, e.sensor.id = d.id) ∧
    (∀ j, dpl_get_reference_of_element sensor_compare dplist
          { fresh_entry 0 d.id with sensor := d } = some j →
      ∃ pre e post, dplist = pre ++ e :: post ∧ j = pre.length ∧
        dpl_get_element_of_reference dplist j = some e ∧
        e.sensor.id = d.id ∧ ∀ x ∈ pre, x.sensor.id ≠ d.id) := by
  refine ⟨⟨?_, ?_⟩, ?_⟩
  · intro hj
    obtain ⟨j, hj⟩ := hj
    obtain ⟨pre, e, post, hl, _, hid, _⟩ := lookup_some d dplist j hj
    exact ⟨e, by rw [hl]; simp, hid⟩
  · intro he
    obtain ⟨e, hmem, hid⟩ := he
    match hres : dpl_get_reference_of_element sensor_compare dplist
        { fresh_entry 0 d.id with sensor := d } with
    | some j => exact ⟨j, rfl⟩
    | none => exact absurd hid (lookup_none d dplist hres e hmem)
  · intro j hj
    obtain ⟨pre, e, post, hl, hjl, hid, hpre⟩ := lookup_some d dplist j hj
    refine ⟨pre, e, post, hl, hjl, ?_, hid, hpre⟩
    rw [hl, hjl]
    show (pre ++ e :: post)[pre.length]? = some e
    rw [List.getElem?_append_right (le_refl _)]
    simp

theorem datamgr_update_window (lo hi : ℚ) (E : node_t) (d : sensor_data_t)
    (hlen : E.msrmnts.length = RUN_AVG_LENGTH) :
    (datamgr_update lo hi E d).1.msrmnts = (d.value :: E.msrmnts).take RUN_AVG_LENGTH := by
  unfold datamgr_update
  simp only [shift_loop_window d.value E.msrmnts hlen]
  split_ifs <;> rfl

theorem take_append_zeros (n : Nat) (l : List ℚ) :
    (l ++ List.replicate n (0 : ℚ)).take n
      = l.take n ++ List.replicate (n - l.length) (0 : ℚ) := by
  rw [List.take_append_eq_append_take, List.take_replicate]
  congr 2
  omega

theorem length_five (m : List ℚ) (hm : m.length = 5) : ∃ a b c e f, m = [a, b, c, e, f] := by
  match m, hm with
  | [a, b, c, e, f], _ => exact ⟨a, b, c, e, f, rfl⟩

/-- C26. For a registered sensor, let `e0` be its registry entry after the
readings `ds` and `e1` its entry after one more reading `d` of that sensor.
The window of `e1` has `RUN_AVG_LENGTH` values, `d.value` at index 0 and at
every index `i` from 1 the value `e0` had at index `i - 1`; the shift loop
returns this window together with its sum; and the window consists of the
latest values of the sensor, newest first (at most `RUN_AVG_LENGTH` of them),
followed by zeros. -/
theorem datamgr_window_holds_latest (SET_MIN_TEMP SET_MAX_TEMP : ℚ)
    (pairs : List (Nat × Nat)) (ds : List sensor_data_t) (d : sensor_data_t)
    (hreg : ∃ pr ∈ pairs, pr.2 = d.id) :
    ∃ e0 e1,
      (datamgr_run SET_MIN_TEMP SET_MAX_TEMP
          (pairs.map (fun pr => fresh_entry pr.1 pr.2)) ds).find?
          (fun x => decide (x.sensor.id = d.id)) = some e0 ∧
      (datamgr_process SET_MIN_TEMP SET_MAX_TEMP
        (datamgr_run SET_MIN_TEMP SET_MAX_TEMP
          (pairs.map (fun pr => fresh_entry pr.1 pr.2)) ds) d).dplist.find?
          (fun x => decide (x.sensor.id = d.id)) = some e1 ∧
      e1.msrmnts.length = RUN_AVG_LENGTH ∧
      e1.msrmnts[0]? = some d.value ∧
      (∀ i, 1 ≤ i → i < RUN_AVG_LENGTH → e1.msrmnts[i]? = e0.msrmnts[i - 1]?) ∧
      shift_loop d.value (RUN_AVG_LENGTH - 1) e0.msrmnts 0 = (e1.msrmnts, e1.msrmnts.sum) ∧
      e1.msrmnts
        = List.take RUN_AVG_LENGTH (List.reverse (List.map (fun x : sensor_data_t => x.value)
            ((ds ++ [d]).filter (fun x => decide (x.id = d.id)))))
          ++ List.replicate
              (RUN_AVG_LENGTH - ((ds ++ [d]).filter (fun x => decide (x.id = d.id))).length)
              (0 : ℚ) := by
  obtain ⟨room, hroom⟩ := find_fresh_entry d.id pairs hreg
  have hfind := datamgr_run_find SET_MIN_TEMP SET_MAX_TEMP d.id ds
    (pairs.map (fun pr => fresh_entry pr.1 pr.2))
  rw [hroom] at hfind
  simp only [Option.map_some'] at hfind
  have hpost := datamgr_process_find SET_MIN_TEMP SET_MAX_TEMP
    (datamgr_run SET_MIN_TEMP SET_MAX_TEMP (pairs.map (fun pr => fresh_entry pr.1 pr.2)) ds)
    d d.id
  rw [if_pos rfl, hfind] at hpost
  simp only [Option.map_some'] at hpost
  have hm0 := (datamgr_entry_after SET_MIN_TEMP SET_MAX_TEMP room d.id
    (ds.filter (fun x => decide (x.id = d.id)))).1
  have hfil : (ds ++ [d]).filter (fun x => decide (x.id = d.id))
      = ds.filter (fun x => decide (x.id = d.id)) ++ [d] := by
    simp [List.filter_append, List.filter_cons]
  have hm1 := (datamgr_entry_after SET_MIN_TEMP SET_MAX_TEMP room d.id
    (ds.filter (fun x => decide (x.id = d.id)) ++ [d])).1
  rw [List.foldl_append] at hm1
  simp only [List.foldl_cons, List.foldl_nil] at hm1
  generalize hE : (ds.filter (fun x => decide (x.id = d.id))).foldl
    (fun e d => (datamgr_update SET_MIN_TEMP SET_MAX_TEMP e d).1) (fresh_entry room d.id) = E
    at hfind hpost hm0 hm1
  have hlen : E.msrmnts.length = RUN_AVG_LENGTH := by
    rw [hm0]
    simp
  have hms := datamgr_update_window SET_MIN_TEMP SET_MAX_TEMP E d hlen
  obtain ⟨a, b, c, e, f, hw⟩ := length_five E.msrmnts hlen
  refine ⟨E, (datamgr_update SET_MIN_TEMP SET_MAX_TEMP E d).1, hfind, hpost, ?_, ?_, ?_, ?_, ?_⟩
  · rw [hms, hw]
    rfl
  · rw [hms, hw]
    rfl
  · intro i h1 h5
    rw [hms, hw]
    have h5b : i < 5 := h5
    interval_cases i <;> rfl
  · rw [shift_loop_window d.value E.msrmnts hlen, hms]
  · rw [hm1, hfil, take_append_zeros]
    simp

/-- Instance of C26: registry with the map line `21 15`; after the readings 10,
20 and 30 of sensor 15 the window is 30, 20, 10, 0, 0. -/
theorem datamgr_window_holds_latest_witness :
    (∃ pr ∈ [((21 : Nat), (15 : Nat))], pr.2 = (⟨15, 30, 3⟩ : sensor_data_t).id) ∧
    ∃ e1, (datamgr_process 10 25
        (datamgr_run 10 25 ([((21 : Nat), (15 : Nat))].map (fun pr => fresh_entry pr.1 pr.2))
          [⟨15, 10, 1⟩, ⟨15, 20, 2⟩]) ⟨15, 30, 3⟩).dplist.find?
          (fun x => decide (x.sensor.id = 15)) = some e1 ∧
      e1.msrmnts = [30, 20, 10, 0, 0] := by
  obtain ⟨_, e1, _, h1, _, _, _, _, h7⟩ := datamgr_window_holds_latest 10 25 [(21, 15)]
    [⟨15, 10, 1⟩, ⟨15, 20, 2⟩] ⟨15, 30, 3⟩ ⟨(21, 15), by simp, rfl⟩
  refine ⟨⟨(21, 15), by simp, rfl⟩, e1, h1, ?_⟩
  rw [h7]
  rfl

/-! ## Compaction of the poll array -/

theorem compact_loop_after (i : Nat) :
    ∀ (fuel id1 : Nat) (cur : List pollfd), i < id1 + 1 → id1 + fuel + 1 ≤ cur.length →
      ∃ out, compact_loop i fuel id1 (id1 + 1) cur = some out ∧ out.length = cur.length ∧
        ∀ j, out[j]? = if id1 ≤ j ∧ j < id1 + fuel then cur[j + 1]? else cur[j]? := by
  intro fuel
  induction fuel with
  | zero =>
    intro id1 cur _ _
    refine ⟨cur, rfl, rfl, ?_⟩
    intro j
    rw [if_neg (by omega)]
  | succ n ih =>
    intro id1 cur hi hlen
    have hne : ¬ (id1 + 1 = i) := by omega
    have hlt : id1 + 1 < cur.length := by omega
    obtain ⟨out, ho, hol, hoj⟩ := ih (id1 + 1) (cur.set id1 (cur[id1 + 1])) (by omega)
      (by rw [List.length_set]; omega)
    refine ⟨out, ?_, by rw [hol, List.length_set], ?_⟩
    · simp only [compact_loop, if_neg hne, List.getElem?_eq_getElem hlt]
      exact ho
    · intro j
      rw [hoj j]
      by_cases hj : id1 + 1 ≤ j ∧ j < id1 + 1 + n
      · rw [if_pos hj, if_pos (by omega), List.getElem?_set_ne (by omega)]
      · rw [if_neg hj]
        by_cases hj2 : j = id1
        · rw [if_pos (by omega), hj2, List.getElem?_set_self (by omega),
            List.getElem?_eq_getElem hlt]
        · rw [if_neg (by omega), List.getElem?_set_ne (fun h => hj2 h.symm)]

theorem compact_loop_before (i : Nat) :
    ∀ (fuel id1 : Nat) (cur : List pollfd), id1 ≤ i → id1 + fuel + 1 ≤ cur.length →
      ∃ out, compact_loop i fuel id1 id1 cur = some out ∧ out.length = cur.length ∧
        ∀ j, out[j]? = if i ≤ j ∧ j < id1 + fuel then cur[j + 1]? else cur[j]? := by
  intro fuel
  induction fuel with
  | zero =>
    intro id1 cur _ _
    refine ⟨cur, rfl, rfl, ?_⟩
    intro j
    rw [if_neg (by omega)]
  | succ n ih =>
    intro id1 cur hi hlen
    by_cases he : id1 = i
    · have hlt : id1 + 1 < cur.length := by omega
      obtain ⟨out, ho, hol, hoj⟩ := compact_loop_after i n (id1 + 1)
        (cur.set id1 (cur[id1 + 1])) (by omega) (by rw [List.length_set]; omega)
      refine ⟨out, ?_, by rw [hol, List.length_set], ?_⟩
      · simp only [compact_loop, if_pos he, List.getElem?_eq_getElem hlt]
        exact ho
      · intro j
        rw [hoj j]
        by_cases hj : id1 + 1 ≤ j ∧ j < id1 + 1 + n
        · rw [if_pos hj, if_pos (by omega), List.getElem?_set_ne (by omega)]
        · rw [if_neg hj]
          by_cases hj2 : j = id1
          · rw [if_pos (by omega), hj2, List.getElem?_set_self (by omega),
              List.getElem?_eq_getElem hlt]
          · rw [if_neg (by omega), List.getElem?_set_ne (fun h => hj2 h.symm)]
    · have hlt : id1 < cur.length := by omega
      have hset : cur.set id1 (cur[id1]) = cur := by
        apply List.ext_getElem?
        intro j
        by_cases hj : id1 = j
        · subst hj
          rw [List.getElem?_set_self hlt, List.getElem?_eq_getElem hlt]
        · rw [List.getElem?_set_ne hj]
      obtain ⟨out, ho, hol, hoj⟩ := ih (id1 + 1) cur (by omega) (by omega)
      refine ⟨out, ?_, hol, ?_⟩
      · simp only [compact_loop, if_neg he, List.getElem?_eq_getElem hlt, hset]
        exact ho
      · intro j
        rw [hoj j]
        by_cases hj : i ≤ j ∧ j < id1 + 1 + n
        · rw [if_pos hj, if_pos (by omega)]
        · rw [if_neg hj, if_neg (by omega)]

theorem compact_indices_bound (i : Nat) :
    ∀ (fuel id1 id2 : Nat), id2 ≤ id1 + 1 → (id2 = id1 + 1 → i < id2) →
      ∀ p ∈ compact_indices i fuel id1 id2, p.1 < id1 + fuel ∧ p.2 ≤ id1 + fuel := by
  intro fuel
  induction fuel with
  | zero =>
    intro id1 id2 _ _ p hp
    simp [compact_indices] at hp
  | succ n ih =>
    intro id1 id2 h1 h2 p hp
    simp only [compact_indices, List.mem_cons] at hp
    rcases hp with hp | hp
    · rw [hp]
      simp only
      split_ifs <;> omega
    · have := ih (id1 + 1) ((if id2 = i then id2 + 1 else id2) + 1)
        (by split_ifs <;> omega) (by split_ifs <;> omega) p hp
      omega

/-- C27. For a poll array of `conn_counter + 1` slots and a removed index `i`
with `1 ≤ i ≤ conn_counter`, the compaction loop runs to its end without
reading outside the array; it leaves the array length unchanged, its first
`conn_counter` slots are the original slots with slot `i` deleted (in their
order), slot 0 is unchanged, and every index it writes is below `conn_counter`
and every index it reads is at most `conn_counter`. -/
theorem compaction_deletes_slot (poll_fds : List pollfd) (conn_counter i : Nat)
    (hlen : poll_fds.length = conn_counter + 1) (h1 : 1 ≤ i) (h2 : i ≤ conn_counter) :
    ∃ out, compact_loop i conn_counter 0 0 poll_fds = some out ∧
      out.length = conn_counter + 1 ∧
      out.take conn_counter = poll_fds.eraseIdx i ∧
      out[0]? = poll_fds[0]? ∧
      ∀ p ∈ compact_indices i conn_counter 0 0, p.1 < conn_counter ∧ p.2 ≤ conn_counter := by
  obtain ⟨out, ho, hol, hoj⟩ := compact_loop_before i conn_counter 0 poll_fds (by omega)
    (by omega)
  refine ⟨out, ho, by rw [hol, hlen], ?_, ?_, ?_⟩
  · apply List.ext_getElem?
    intro j
    rw [List.getElem?_take, List.getElem?_eraseIdx, hoj j]
    by_cases hj : j < conn_counter
    · rw [if_pos hj]
      by_cases hji : j < i
      · rw [if_pos hji, if_neg (by omega)]
      · rw [if_neg hji, if_pos (by omega)]
    · rw [if_neg hj, if_neg (by omega)]
      exact (List.getElem?_eq_none (by omega)).symm
  · rw [hoj 0, if_neg (by omega)]
  · intro p hp
    have := compact_indices_bound i conn_counter 0 0 (by omega) (by omega) p hp
    omega

/-- Instance of C27: three client slots behind the listener, slot 2 removed. -/
theorem compaction_deletes_slot_witness :
    ([⟨3, 1, 0⟩, ⟨7, 17, 0⟩, ⟨8, 17, 16⟩, ⟨9, 17, 0⟩] : List pollfd).length = 3 + 1 ∧
    compact_loop 2 3 0 0 [⟨3, 1, 0⟩, ⟨7, 17, 0⟩, ⟨8, 17, 16⟩, ⟨9, 17, 0⟩]
      = some [⟨3, 1, 0⟩, ⟨7, 17, 0⟩, ⟨9, 17, 0⟩, ⟨9, 17, 0⟩] ∧
    ∃ out, compact_loop 2 3 0 0 [⟨3, 1, 0⟩, ⟨7, 17, 0⟩, ⟨8, 17, 16⟩, ⟨9, 17, 0⟩] = some out ∧
      out.length = 3 + 1 ∧
      out.take 3 = List.eraseIdx [⟨3, 1, 0⟩, ⟨7, 17, 0⟩, ⟨8, 17, 16⟩, ⟨9, 17, 0⟩] 2 ∧
      out[0]? = ([⟨3, 1, 0⟩, ⟨7, 17, 0⟩, ⟨8, 17, 16⟩, ⟨9, 17, 0⟩] : List pollfd)[0]? ∧
      ∀ p ∈ compact_indices 2 3 0 0, p.1 < 3 ∧ p.2 ≤ 3 :=
  ⟨rfl, rfl, compaction_deletes_slot [⟨3, 1, 0⟩, ⟨7, 17, 0⟩, ⟨8, 17, 16⟩, ⟨9, 17, 0⟩] 3 2 rfl
    (by decide) (by decide)⟩

/-! ## Connection manager: the connection counter and the poll array -/

theorem slot_receive_slot0 (TIMEOUT : Int) (env : conn_env) (st : connmgr_state) (i : Nat)
    (pf : pollfd) (node : Option Nat) (hi : 1 ≤ i) :
    (slot_receive TIMEOUT env st i pf node).poll_fds[0]? = st.poll_fds[0]? := by
  unfold slot_receive
  split
  · rename_i k c _
    simp only []
    by_cases h1 : c.last_active + TIMEOUT > env.now ∧ pf.revents &&& POLLIN ≠ 0
    · rw [if_pos h1]
      by_cases h2 : (env.recv c.sd).tcp_res = tcp_result.TCP_NO_ERROR ∧ (env.recv c.sd).bytes ≠ 0
      · rw [if_pos h2]
      · rw [if_neg h2]
        by_cases h3 : (env.recv c.sd).tcp_res = tcp_result.TCP_CONNECTION_CLOSED
        · rw [if_pos h3]
          exact List.getElem?_set_ne (by omega)
        · rw [if_neg h3]
    · rw [if_neg h1]
  · rfl

theorem connmgr_slot_counter (TIMEOUT : Int) (env : conn_env) (st : connmgr_state) (i : Nat)
    (hlen : st.poll_fds.length = st.conn_counter + 1)
    (hi1 : 1 ≤ i) (hi2 : i < st.conn_counter + 1) :
    ∃ st1 removed, connmgr_slot TIMEOUT env st i = some (st1, removed) ∧
      st1.poll_fds.length = st1.conn_counter + 1 ∧
      st1.conn_counter + (if removed = true then 1 else 0) = st.conn_counter ∧
      st1.poll_fds[0]? = st.poll_fds[0]? := by
  have hlt : i < st.poll_fds.length := by omega
  unfold connmgr_slot
  rw [List.getElem?_eq_getElem hlt]
  simp only []
  generalize hnode : dpl_get_reference_of_element socket_compare st.socket_list
    { sd := (st.poll_fds[i]).fd, last_active := 0, sensor := 0 } = node
  obtain ⟨hr1, hr2, _, _⟩ := slot_receive_frame TIMEOUT env st i (st.poll_fds[i]) node
    cm_log.interrupted (by simp)
  have hr0 := slot_receive_slot0 TIMEOUT env st i (st.poll_fds[i]) node hi1
  generalize slot_receive TIMEOUT env st i (st.poll_fds[i]) node = st1 at hr0 hr1 hr2
  have hlt1 : i < st1.poll_fds.length := by omega
  rw [List.getElem?_eq_getElem hlt1]
  simp only []
  generalize slot_client st1.socket_list node = client
  by_cases hev : evict_cond TIMEOUT env.now st1.sensor_to_drop client (st1.poll_fds[i]) = true
  · rw [if_pos hev]
    have hs1 : (slot_signal st1 client).poll_fds = st1.poll_fds ∧
        (slot_signal st1 client).conn_counter = st1.conn_counter := by
      unfold slot_signal
      split
      · exact ⟨rfl, rfl⟩
      · split_ifs <;> exact ⟨rfl, rfl⟩
    generalize slot_signal st1 client = st2 at hs1
    obtain ⟨hc1, hc2, _, _⟩ := slot_close_frame st2 node client 0
    generalize slot_close st2 node client = st3 at hc1 hc2
    have hlen3 : st3.poll_fds.length = st3.conn_counter + 1 := by
      rw [hc1, hc2, hs1.1, hs1.2, hr1, hr2]
      exact hlen
    have hcc : st3.conn_counter = st.conn_counter := by rw [hc2, hs1.2, hr2]
    have hfd : st3.poll_fds = st1.poll_fds := by rw [hc1, hs1.1]
    obtain ⟨fds, hf, hfl, hfj⟩ := compact_loop_before i st3.conn_counter 0 st3.poll_fds
      (by omega) (by omega)
    rw [hf]
    refine ⟨_, true, rfl, ?_, ?_, ?_⟩
    · simp only [List.length_take, hfl, hlen3]
      omega
    · simp only [if_true]
      omega
    · show (fds.take st3.conn_counter)[0]? = st.poll_fds[0]?
      rw [List.getElem?_take_of_lt (by omega), hfj 0, if_neg (by omega), hfd, hr0]
  · rw [if_neg hev]
    refine ⟨st1, false, rfl, by omega, ?_, hr0⟩
    simp only [Bool.false_eq_true, if_false]
    omega

theorem connmgr_slots_counter (TIMEOUT : Int) (env : conn_env) (poll_res : Int) :
    ∀ (fuel i : Nat) (st : connmgr_state), st.poll_fds.length = st.conn_counter + 1 →
      1 ≤ i → st.conn_counter + 1 - i ≤ fuel →
      ∃ st1, connmgr_slots TIMEOUT env poll_res fuel i st = some st1 ∧
        st1.poll_fds.length = st1.conn_counter + 1 ∧
        st1.conn_counter ≤ st.conn_counter ∧
        st1.poll_fds[0]? = st.poll_fds[0]? := by
  intro fuel
  induction fuel with
  | zero =>
    intro i st hlen _ hf
    have hc : ¬ (i < st.conn_counter + 1 ∧ poll_res > 0) := by
      intro h
      omega
    exact ⟨st, by simp only [connmgr_slots, hc, if_false], hlen, le_refl _, rfl⟩
  | succ n ih =>
    intro i st hlen hi hf
    by_cases hc : i < st.conn_counter + 1 ∧ poll_res > 0
    · obtain ⟨st1, removed, hs, hlen1, hcc, h0⟩ :=
        connmgr_slot_counter TIMEOUT env st i hlen hi hc.1
      obtain ⟨st2, h2, hlen2, hcc2, h02⟩ := ih (if removed = true then i else i + 1) st1 hlen1
        (by split_ifs <;> omega)
        (by
          cases removed
          · simp only [Bool.false_eq_true, if_false] at hcc ⊢
            omega
          · simp only [if_true] at hcc ⊢
            omega)
      refine ⟨st2, ?_, hlen2, by omega, by rw [h02, h0]⟩
      simp only [connmgr_slots, hc, and_self, if_true, hs]
      exact h2
    · exact ⟨st, by simp only [connmgr_slots, hc, if_false], hlen, le_refl _, rfl⟩

theorem connmgr_poll_inv (server_sd : Int) (revents : Nat → Nat) (st : connmgr_state)
    (h : conn_inv server_sd st) : conn_inv server_sd (connmgr_poll revents st) := by
  obtain ⟨hcc, hlen, pf, hpf, hfd⟩ := h
  refine ⟨hcc, ?_, ?_⟩
  · show (List.zipWith _ st.poll_fds (List.range st.poll_fds.length)).length = _
    rw [List.length_zipWith, List.length_range, Nat.min_self]
    exact hlen
  · match hp : st.poll_fds, hpf with
    | x :: t, hpf =>
      simp only [List.getElem?_cons_zero, Option.some.injEq] at hpf
      refine ⟨⟨x.fd, x.events, revents 0⟩, ?_, by rw [← hfd, ← hpf]⟩
      show (List.zipWith _ st.poll_fds (List.range st.poll_fds.length))[0]? = _
      rw [hp, List.length_cons, List.range_succ_eq_map]
      simp

theorem socket_compare_zero (x y : tcpsock_dpl_el) (h : socket_compare x y = 0) :
    x.sd = y.sd := by
  unfold socket_compare at h
  by_cases h1 : x.sd = y.sd
  · exact h1
  · rw [if_neg h1] at h
    by_cases h2 : x.sd > y.sd
    · rw [if_pos h2] at h
      exact absurd h (by decide)
    · rw [if_neg h2] at h
      exact absurd h (by decide)

theorem connmgr_accept_counter (env : conn_env) (poll_res : Int) (st : connmgr_state)
    (hcc : st.conn_counter ≤ MAX_CONN) (hlen : st.poll_fds.length = st.conn_counter + 1)
    (st1 : connmgr_state) (pr1 : Int) (h : connmgr_accept env poll_res st = some (st1, pr1)) :
    st1.conn_counter ≤ MAX_CONN ∧ st1.poll_fds.length = st1.conn_counter + 1 ∧
    st1.poll_fds[0]? = st.poll_fds[0]? ∧
    (st1.conn_counter = st.conn_counter ∨
      (st1.conn_counter = st.conn_counter + 1 ∧ st.conn_counter < MAX_CONN)) := by
  have hlt : 0 < st.poll_fds.length := by omega
  unfold connmgr_accept at h
  rw [List.getElem?_eq_getElem hlt] at h
  simp only [] at h
  by_cases hc : (st.poll_fds[0]).revents &&& POLLIN ≠ 0 ∧ st.conn_counter < MAX_CONN
  · rw [if_pos hc] at h
    match ha : env.accept, h with
    | none, h =>
      simp only [Option.some.injEq, Prod.mk.injEq] at h
      rw [← h.1]
      exact ⟨hcc, hlen, rfl, Or.inl rfl⟩
    | some sd, h =>
      simp only [] at h
      match hins : dpl_insert_sorted socket_compare st.socket_list
          { sd := sd, last_active := env.now, sensor := 0 }, h with
      | none, h => simp at h
      | some l, h =>
        simp only [Option.some.injEq, Prod.mk.injEq] at h
        rw [← h.1]
        refine ⟨hc.2, ?_, ?_, Or.inr ⟨rfl, hc.2⟩⟩
        · simp only [List.length_append, List.length_take, List.length_singleton, hlen]
          omega
        · show (st.poll_fds.take (st.conn_counter + 1) ++ _)[0]? = _
          rw [List.getElem?_append_left (by rw [List.length_take]; omega),
            List.getElem?_take_of_lt (by omega)]
  · rw [if_neg hc] at h
    simp only [Option.some.injEq, Prod.mk.injEq] at h
    rw [← h.1]
    exact ⟨hcc, hlen, rfl, Or.inl rfl⟩

theorem connmgr_accept_defined (env : conn_env) (poll_res : Int) (st : connmgr_state)
    (hlen : st.poll_fds.length = st.conn_counter + 1)
    (hfresh : ∀ c ∈ st.socket_list, env.accept ≠ some c.sd) :
    ∃ r, connmgr_accept env poll_res st = some r := by
  have hlt : 0 < st.poll_fds.length := by omega
  unfold connmgr_accept
  rw [List.getElem?_eq_getElem hlt]
  simp only []
  by_cases hc : (st.poll_fds[0]).revents &&& POLLIN ≠ 0 ∧ st.conn_counter < MAX_CONN
  · rw [if_pos hc]
    match ha : env.accept with
    | none => exact ⟨_, rfl⟩
    | some sd =>
      simp only []
      match hins : dpl_insert_sorted socket_compare st.socket_list
          { sd := sd, last_active := env.now, sensor := 0 } with
      | none =>
        obtain ⟨x, hx, hcmp, _⟩ := dpl_insert_sorted_none socket_compare st.socket_list _ hins
        have hsd := socket_compare_zero _ _ hcmp
        have hmem : x ∈ st.socket_list := List.getElem?_mem hx
        have := hfresh x hmem
        rw [ha] at this
        exact absurd (congrArg some hsd) this
      | some l => exact ⟨_, rfl⟩
  · rw [if_neg hc]
    exact ⟨_, rfl⟩

theorem connmgr_iteration_inv (TIMEOUT : Int) (server_sd : Int) (env : conn_env)
    (poll_res : Int) (st : connmgr_state) (h : conn_inv server_sd st) (out : iter_outcome)
    (ho : connmgr_iteration TIMEOUT env poll_res st = some out) :
    conn_inv server_sd out.state := by
  obtain ⟨hcc, hlen, hpf⟩ := h
  unfold connmgr_iteration at ho
  by_cases hf : env.storagemgr_fail_flag ≠ 0
  · rw [if_pos hf] at ho
    cases ho
    exact ⟨hcc, hlen, hpf⟩
  · rw [if_neg hf] at ho
    by_cases hp : poll_res = -1
    · rw [if_pos hp] at ho
      cases ho
      exact ⟨hcc, hlen, hpf⟩
    · rw [if_neg hp] at ho
      match ha : connmgr_accept env poll_res st, ho with
      | none, ho => simp at ho
      | some (st1, pr1), ho =>
        simp only [] at ho
        obtain ⟨hcc1, hlen1, h01, _⟩ := connmgr_accept_counter env poll_res st hcc hlen st1 pr1 ha
        obtain ⟨st2, hs2, hlen2, hcc2, h02⟩ := connmgr_slots_counter TIMEOUT env pr1
          st1.conn_counter 1 st1 hlen1 (le_refl 1) (by omega)
        have hpass : connmgr_pass TIMEOUT env pr1 st1 = some st2 := hs2
        rw [hpass] at ho
        cases ho
        refine ⟨by show st2.conn_counter ≤ MAX_CONN; omega, hlen2, ?_⟩
        show ∃ pf, st2.poll_fds[0]? = some pf ∧ pf.fd = server_sd
        rw [h02, h01]
        exact hpf

theorem connmgr_iteration_defined (TIMEOUT : Int) (env : conn_env) (poll_res : Int)
    (st : connmgr_state) (hcc : st.conn_counter ≤ MAX_CONN)
    (hlen : st.poll_fds.length = st.conn_counter + 1)
    (hfresh : ∀ c ∈ st.socket_list, env.accept ≠ some c.sd) :
    ∃ out, connmgr_iteration TIMEOUT env poll_res st = some out := by
  unfold connmgr_iteration
  by_cases hf : env.storagemgr_fail_flag ≠ 0
  · rw [if_pos hf]
    exact ⟨_, rfl⟩
  · rw [if_neg hf]
    by_cases hp : poll_res = -1
    · rw [if_pos hp]
      exact ⟨_, rfl⟩
    · rw [if_neg hp]
      obtain ⟨r, hr⟩ := connmgr_accept_defined env poll_res st hlen hfresh
      obtain ⟨_, hlen1, _, _⟩ := connmgr_accept_counter env poll_res st hcc hlen r.1 r.2 hr
      obtain ⟨st2, hs2, _⟩ := connmgr_slots_counter TIMEOUT env r.2
        r.1.conn_counter 1 r.1 hlen1 (le_refl 1) (by omega)
      have hpass : connmgr_pass TIMEOUT env r.2 r.1 = some st2 := hs2
      rw [hr]
      simp only [hpass]
      exact ⟨_, rfl⟩

theorem connmgr_loop_inv (TIMEOUT : Int) (server_sd : Int) :
    ∀ (rounds : List conn_round) (st st1 : connmgr_state), conn_inv server_sd st →
      connmgr_loop TIMEOUT st rounds = some st1 → conn_inv server_sd st1 := by
  intro rounds
  induction rounds with
  | nil =>
    intro st st1 h hl
    simp only [connmgr_loop, Option.some.injEq] at hl
    rw [← hl]
    exact h
  | cons rd rest ih =>
    intro st st1 h hl
    unfold connmgr_loop at hl
    have hp := connmgr_poll_inv server_sd rd.revents st h
    by_cases hc : rd.poll_res = 0 ∧ st.conn_counter = 0
    · rw [if_pos hc] at hl
      cases hl
      exact hp
    · rw [if_neg hc] at hl
      match hit : connmgr_iteration TIMEOUT rd.env rd.poll_res (connmgr_poll rd.revents st), hl with
      | none, hl => simp at hl
      | some (iter_outcome.next st2), hl =>
        simp only [] at hl
        exact ih st2 st1 (connmgr_iteration_inv TIMEOUT server_sd _ _ _ hp _ hit) hl
      | some (iter_outcome.interrupted st2), hl =>
        simp only [Option.some.injEq] at hl
        rw [← hl]
        exact connmgr_iteration_inv TIMEOUT server_sd _ _ _ hp _ hit
      | some (iter_outcome.poll_error st2), hl =>
        simp only [Option.some.injEq] at hl
        rw [← hl]
        exact connmgr_iteration_inv TIMEOUT server_sd _ _ _ hp _ hit

/-- C28. The state in which `connmgr_listen` enters its main loop satisfies the
invariant `conn_inv` (`conn_counter ≤ MAX_CONN`, `conn_counter + 1` poll slots,
the listener's descriptor in slot 0). From every state that satisfies it: the
call of `poll` keeps it; the listening slot keeps it and increments
`conn_counter` only when it was below `MAX_CONN`; the body of the slot loop, at
every client slot, is defined, keeps it, and decrements `conn_counter` exactly
when it removes the slot; and a whole iteration is defined whenever the
accepted descriptor is not one of the recorded ones. Every state in which the
main loop ends, after any number of rounds, satisfies the invariant. -/
theorem connmgr_counter_invariant (TIMEOUT : Int) (server_sd : Int) (sensor_to_drop : Nat) :
    conn_inv server_sd (connmgr_start server_sd sensor_to_drop) ∧
    (∀ st, conn_inv server_sd st →
      (∀ revents, conn_inv server_sd (connmgr_poll revents st)) ∧
      (∀ env poll_res st1 pr1, connmgr_accept env poll_res st = some (st1, pr1) →
        conn_inv server_sd st1 ∧
        (st1.conn_counter = st.conn_counter ∨
          (st1.conn_counter = st.conn_counter + 1 ∧ st.conn_counter < MAX_CONN))) ∧
      (∀ env i, 1 ≤ i → i < st.conn_counter + 1 →
        ∃ st1 removed, connmgr_slot TIMEOUT env st i = some (st1, removed) ∧
          conn_inv server_sd st1 ∧
          st1.conn_counter + (if removed = true then 1 else 0) = st.conn_counter) ∧
      (∀ env poll_res, (∀ c ∈ st.socket_list, env.accept ≠ some c.sd) →
        ∃ out, connmgr_iteration TIMEOUT env poll_res st = some out ∧
          conn_inv server_sd out.state)) ∧
    (∀ rounds st, connmgr_loop TIMEOUT (connmgr_start server_sd sensor_to_drop) rounds = some st →
      conn_inv server_sd st) := by
  have hstart : conn_inv server_sd (connmgr_start server_sd sensor_to_drop) :=
    ⟨Nat.zero_le _, rfl, _, rfl, rfl⟩
  refine ⟨hstart, ?_, ?_⟩
  · intro st h
    refine ⟨fun revents => connmgr_poll_inv server_sd revents st h, ?_, ?_, ?_⟩
    · intro env poll_res st1 pr1 ha
      obtain ⟨h1, h2, h3, h4⟩ := connmgr_accept_counter env poll_res st h.1 h.2.1 st1 pr1 ha
      refine ⟨⟨h1, h2, ?_⟩, h4⟩
      rw [h3]
      exact h.2.2
    · intro env i hi1 hi2
      obtain ⟨st1, removed, hs, h1, h2, h3⟩ := connmgr_slot_counter TIMEOUT env st i h.2.1 hi1 hi2
      refine ⟨st1, removed, hs, ⟨?_, h1, ?_⟩, h2⟩
      · have := h.1
        omega
      · rw [h3]
        exact h.2.2
    · intro env poll_res hfresh
      obtain ⟨out, ho⟩ := connmgr_iteration_defined TIMEOUT env poll_res st h.1 h.2.1 hfresh
      exact ⟨out, ho, connmgr_iteration_inv TIMEOUT server_sd env poll_res st h out ho⟩
  · intro rounds st hl
    exact connmgr_loop_inv TIMEOUT server_sd rounds _ st hstart hl

/-- Instance of C28: from the start state with listener descriptor 3, a round
that accepts a connection followed by a round in which the client hangs up
ends with `conn_counter = 0` and one poll slot. -/
theorem connmgr_counter_invariant_witness :
    ∃ st, connmgr_loop 5 (connmgr_start 3 0) example_rounds = some st ∧
      st.conn_counter = 0 ∧ st.poll_fds.length = 1 ∧
      st.log = [cm_log.new_connection, cm_log.signalled_drop 0, cm_log.closed 0] ∧
      conn_inv 3 st :=
  ⟨_, rfl, rfl, rfl, rfl, (connmgr_counter_invariant 5 3 0).2.2 example_rounds _ rfl⟩

/-! ## Well-formedness under the buffer operations -/

theorem is_chain_update_notin (cell : Nat → Option sbuffer_node_t) (a : Nat)
    (v : Option sbuffer_node_t) :
    ∀ (l : List Nat) (p : Option Nat), a ∉ l → is_chain cell p l →
      is_chain (Function.update cell a v) p l := by
  intro l
  induction l with
  | nil =>
    intro p _ h
    exact h
  | cons x t ih =>
    intro p ha h
    simp only [is_chain] at h ⊢
    obtain ⟨hp, n, hc, hr⟩ := h
    have hxa : x ≠ a := fun e => ha (by rw [e]; exact List.mem_cons_self _ _)
    refine ⟨hp, n, ?_, ih n.next (fun hm => ha (List.mem_cons_of_mem _ hm)) hr⟩
    rw [Function.update_noteq hxa]
    exact hc

theorem is_chain_update_next (cell : Nat → Option sbuffer_node_t) (c : Nat)
    (cn cn1 : sbuffer_node_t) (hc : cell c = some cn) (hn : cn1.next = cn.next) :
    ∀ (l : List Nat) (p : Option Nat), is_chain cell p l →
      is_chain (Function.update cell c (some cn1)) p l := by
  intro l
  induction l with
  | nil =>
    intro p h
    exact h
  | cons x t ih =>
    intro p h
    simp only [is_chain] at h ⊢
    obtain ⟨hp, n, hcx, hr⟩ := h
    by_cases hxc : x = c
    · subst hxc
      rw [hc] at hcx
      cases hcx
      refine ⟨hp, cn1, by rw [Function.update_same], ?_⟩
      rw [hn]
      exact ih cn.next hr
    · exact ⟨hp, n, by rw [Function.update_noteq hxc]; exact hcx, ih n.next hr⟩

theorem sbuffer_remove_wf (b : sbuffer_t) (ids : List Nat) (h : sbuffer_wf b ids) :
    ∃ rr b1, sbuffer_remove (some b) = some rr ∧ rr.buffer = some b1 ∧
      sbuffer_wf b1 ids.tail ∧
      (ids = [] → rr.ret = SBUFFER_NO_DATA ∧ b1 = b) ∧
      (ids ≠ [] → rr.ret = SBUFFER_SUCCESS ∧ b1.head = (ids.tail).head? ∧
        ∀ a, b1.cell a = if ids.head? = some a then none else b.cell a) := by
  have hnd := is_chain_nodup b.cell ids b.head h.1
  obtain ⟨hch, htl, hfree⟩ := h
  match ids, hch, htl, hnd with
  | [], hch, htl, _ =>
    simp only [is_chain] at hch
    refine ⟨⟨SBUFFER_NO_DATA, some b, none⟩, b, by simp [sbuffer_remove, hch], rfl,
      ⟨by simp only [List.tail_nil, is_chain]; exact hch, htl, hfree⟩,
      fun _ => ⟨rfl, rfl⟩, fun hne => absurd rfl hne⟩
  | [a], hch, htl, _ =>
    simp only [is_chain] at hch
    obtain ⟨hh, n, hc, hnx⟩ := hch
    have ht : b.tail = some a := by simpa using htl
    refine ⟨_, _, sbuffer_remove_single b a n hh ht hc, rfl, ⟨?_, ?_, ?_⟩,
      fun hne => absurd hne (by simp), fun _ => ⟨rfl, rfl, ?_⟩⟩
    · simp [is_chain]
    · simp
    · intro x hx
      show Function.update b.cell a none x = none
      by_cases hxa : x = a
      · rw [hxa, Function.update_same]
      · rw [Function.update_noteq hxa]
        exact hfree x hx
    · intro x
      show Function.update b.cell a none x = _
      by_cases hxa : x = a
      · rw [hxa, Function.update_same]
        simp
      · rw [Function.update_noteq hxa, if_neg]
        simp only [List.head?_cons, Option.some.injEq]
        exact fun e => hxa e.symm
  | a :: a2 :: t, hch, htl, hnd =>
    have hch0 := hch
    simp only [is_chain] at hch
    obtain ⟨hh, n, hc, hnx, n2, hc2, hr2⟩ := hch
    have hnotin : a ∉ a2 :: t := (List.nodup_cons.mp hnd).1
    have ht : b.tail ≠ some a := by
      rw [htl, List.getLast?_cons_cons]
      intro e
      have hm : a ∈ a2 :: t := by
        have := List.mem_of_getLast?_eq_some e
        exact this
      exact hnotin hm
    refine ⟨_, _, sbuffer_remove_many b a n hh ht hc, rfl, ⟨?_, ?_, ?_⟩,
      fun hne => absurd hne (by simp), fun _ => ⟨rfl, ?_, ?_⟩⟩
    · show is_chain (Function.update b.cell a none) n.next (a2 :: t)
      apply is_chain_update_notin b.cell a none (a2 :: t) n.next hnotin
      simp only [is_chain]
      exact ⟨hnx, n2, hc2, hr2⟩
    · show b.tail = (a2 :: t).getLast?
      rw [htl, List.getLast?_cons_cons]
    · intro x hx
      show Function.update b.cell a none x = none
      by_cases hxa : x = a
      · rw [hxa, Function.update_same]
      · rw [Function.update_noteq hxa]
        exact hfree x hx
    · show n.next = _
      rw [hnx]
      rfl
    · intro x
      show Function.update b.cell a none x = _
      by_cases hxa : x = a
      · rw [hxa, Function.update_same]
        simp
      · rw [Function.update_noteq hxa, if_neg]
        simp only [List.head?_cons, Option.some.injEq]
        exact fun e => hxa e.symm

theorem pop_consume_wf (b : sbuffer_t) (ids : List Nat) (h : sbuffer_wf b ids)
    (node : Option Nat) (r : Fin READER_THREADS) (p : pop_result)
    (hp : pop_consume b node r = some p) :
    ∃ b1 ids1, p.buffer = some b1 ∧ sbuffer_wf b1 ids1 ∧ (ids1 = ids ∨ ids1 = ids.tail) := by
  unfold pop_consume at hp
  split at hp
  · exact absurd hp (by simp)
  · rename_i c
    split at hp
    · exact absurd hp (by simp)
    · rename_i cn hcn
      have hwf1 : sbuffer_wf
          { b with cell := Function.update b.cell c (some ({ cn with element := { cn.element with
              read_by := Function.update cn.element.read_by r 1 } } : sbuffer_node_t)) } ids := by
        refine ⟨?_, h.2.1, ?_⟩
        · show is_chain (Function.update b.cell c (some ({ cn with element := { cn.element with
              read_by := Function.update cn.element.read_by r 1 } } : sbuffer_node_t)))
            b.head ids
          exact is_chain_update_next b.cell c cn ({ cn with element := { cn.element with
            read_by := Function.update cn.element.read_by r 1 } } : sbuffer_node_t)
            hcn rfl ids b.head h.1
        intro a ha
        have hac : a ≠ c := by
          intro e
          have := h.2.2 a ha
          rw [e, hcn] at this
          exact absurd this (by simp)
        show Function.update b.cell c _ a = none
        rw [Function.update_noteq hac]
        exact h.2.2 a ha
      simp only at hp
      split at hp
      · split at hp
        · exact absurd hp (by simp)
        · rename_i rr hrr
          cases hp
          obtain ⟨rr1, b2, hr1, hb2, hwf2, _⟩ := sbuffer_remove_wf _ ids hwf1
          rw [hrr] at hr1
          cases hr1
          exact ⟨b2, ids.tail, hb2, hwf2, Or.inr rfl⟩
      · split at hp
        · cases hp
          exact ⟨_, ids, rfl, hwf1, Or.inl rfl⟩
        · cases hp
          exact ⟨_, ids, rfl, hwf1, Or.inl rfl⟩

theorem sbuffer_pop_wf (b : sbuffer_t) (ids : List Nat) (h : sbuffer_wf b ids)
    (node : Option Nat) (r : Fin READER_THREADS) (p : pop_result)
    (hp : sbuffer_pop (some b) node r = some p) :
    ∃ b1 ids1, p.buffer = some b1 ∧ sbuffer_wf b1 ids1 ∧ (ids1 = ids ∨ ids1 = ids.tail) := by
  unfold sbuffer_pop at hp
  simp only at hp
  split at hp
  · cases hp
    exact ⟨b, ids, rfl, h, Or.inl rfl⟩
  · split at hp
    · exact absurd hp (by simp)
    · cases hp
      exact ⟨b, ids, rfl, h, Or.inl rfl⟩
    · split at hp
      · exact absurd hp (by simp)
      · split at hp
        · exact absurd hp (by simp)
        · rename_i rr hrr
          cases hp
          obtain ⟨rr1, b2, hr1, hb2, hwf2, _⟩ := sbuffer_remove_wf b ids h
          rw [hrr] at hr1
          cases hr1
          exact ⟨b2, ids.tail, hb2, hwf2, Or.inr rfl⟩
      · split at hp
        · exact absurd hp (by simp)
        · rename_i node1 _
          exact pop_consume_wf b ids h node1 r p hp

theorem sbuffer_wf_shape (b : sbuffer_t) (ids : List Nat) (h : sbuffer_wf b ids) :
    (b.head = none ↔ b.tail = none) ∧ b.head = ids.head? ∧ b.tail = ids.getLast? ∧
    (∀ t tn, b.tail = some t → b.cell t = some tn → tn.next = none) := by
  obtain ⟨hch, htl, _⟩ := h
  have hhead : b.head = ids.head? := by
    match ids, hch with
    | [], hch =>
      simp only [is_chain] at hch
      exact hch
    | a :: t, hch =>
      simp only [is_chain] at hch
      exact hch.1
  refine ⟨?_, hhead, htl, ?_⟩
  · rw [hhead, htl]
    match ids with
    | [] => simp
    | a :: t => simp [List.getLast?_eq_none_iff]
  · intro t tn ht hc
    rw [htl] at ht
    obtain ⟨l, hl⟩ : ∃ l, ids = l ++ [t] := by
      rcases List.eq_nil_or_concat ids with hnil | ⟨l, x, hcat⟩
      · rw [hnil] at ht
        simp at ht
      · have hcat2 : ids = l ++ [x] := by simpa using hcat
        rw [hcat2] at ht
        simp at ht
        exact ⟨l, by rw [hcat2, ht]⟩
    rw [hl] at hch
    have hs := is_chain_suffix b.cell l t [] b.head hch
    simp only [is_chain] at hs
    obtain ⟨_, n, hn, hnx⟩ := hs
    rw [hc] at hn
    cases hn
    exact hnx

/-- C29. For a well-formed buffer (the chain from `head` ends at `NULL`, `tail`
is its last node): `head` is `NULL` if and only if `tail` is, the `next` of the
tail node is `NULL`; `sbuffer_insert` (with `malloc` succeeding) returns a
well-formed buffer with the new node appended, which is both head and tail
when the buffer was empty, and with `malloc` failing it leaves the buffer as it
is; `sbuffer_remove` returns a well-formed buffer without the first node, with
`head` and `tail` both `NULL` when that was the only node; and `sbuffer_pop`,
whenever it returns, leaves a well-formed buffer with the same chain or the
chain without its first node. -/
theorem sbuffer_operations_keep_wf (b : sbuffer_t) (ids : List Nat) (h : sbuffer_wf b ids) :
    ((b.head = none ↔ b.tail = none) ∧ sbuffer_chain b = ids ∧ b.tail = ids.getLast? ∧
      (∀ t tn, b.tail = some t → b.cell t = some tn → tn.next = none)) ∧
    (∀ d, ∃ b1, sbuffer_insert (some b) d true = some (SBUFFER_SUCCESS, some b1) ∧
      sbuffer_wf b1 (ids ++ [b.brk]) ∧
      (ids = [] → b1.head = some b.brk ∧ b1.tail = some b.brk)) ∧
    (∀ d, sbuffer_insert (some b) d false = some (SBUFFER_FAILURE, some b)) ∧
    (∃ rr b1, sbuffer_remove (some b) = some rr ∧ rr.buffer = some b1 ∧
      sbuffer_wf b1 ids.tail ∧ (ids.length = 1 → b1.head = none ∧ b1.tail = none)) ∧
    (∀ node r p, sbuffer_pop (some b) node r = some p →
      ∃ b1 ids1, p.buffer = some b1 ∧ sbuffer_wf b1 ids1 ∧ (ids1 = ids ∨ ids1 = ids.tail)) := by
  obtain ⟨hs1, _, hs3, hs4⟩ := sbuffer_wf_shape b ids h
  refine ⟨⟨hs1, sbuffer_chain_of_wf b ids h, hs3, hs4⟩, ?_, ?_, ?_, ?_⟩
  · intro d
    obtain ⟨b1, hb1, hwf1, _⟩ := sbuffer_insert_wf b ids d h
    refine ⟨b1, hb1, hwf1, ?_⟩
    intro he
    obtain ⟨_, h2, h3, _⟩ := sbuffer_wf_shape b1 _ hwf1
    rw [he] at h2 h3
    exact ⟨h2, h3⟩
  · intro d
    rfl
  · obtain ⟨rr, b1, hr, hb1, hwf1, _⟩ := sbuffer_remove_wf b ids h
    refine ⟨rr, b1, hr, hb1, hwf1, ?_⟩
    intro hl
    obtain ⟨_, h2, h3, _⟩ := sbuffer_wf_shape b1 _ hwf1
    match ids, hl with
    | [a], _ => exact ⟨h2, h3⟩
  · intro node r p hp
    exact sbuffer_pop_wf b ids h node r p hp

/-- Instance of C29 at the one-node buffer. -/
theorem sbuffer_operations_keep_wf_witness :
    sbuffer_wf example_buffer [0] ∧
    (∃ rr b1, sbuffer_remove (some example_buffer) = some rr ∧ rr.buffer = some b1 ∧
      sbuffer_wf b1 [] ∧ b1.head = none ∧ b1.tail = none) ∧
    (∃ p b1 ids1, sbuffer_pop (some example_buffer) none 0 = some p ∧ p.buffer = some b1 ∧
      sbuffer_wf b1 ids1) := by
  obtain ⟨_, _, _, ⟨rr, b1, h1, h2, h3, h4⟩, h5⟩ :=
    sbuffer_operations_keep_wf example_buffer [0] example_buffer_wf
  obtain ⟨b2, ids2, h6, h7, _⟩ := h5 none 0 _ rfl
  exact ⟨example_buffer_wf, ⟨rr, b1, h1, h2, h3, h4 rfl⟩, ⟨_, b2, ids2, rfl, h6, h7⟩⟩

/-! ## Reading the map file -/

/-- C30 (the code at the failing input). The map file whose only line is
`65535 65535` is read in two passes, because `fgets` stores at most 10
characters: the first pass inserts room 65535 with sensor 6553, the second
reads the rest `5` and inserts room 5 with the sensor id left from the first
pass. A line of 10 characters, `12345 6789`, is inserted twice, the second time
for the newline left over. A shorter line, `21 15`, gives one entry. -/
theorem datamgr_long_map_line_is_split (room0 id0 : Nat) :
    map_line 65535 65535 = String.toList "65535 65535\n" ∧
    datamgr_read (map_line 65535 65535) room0 id0 = [(65535, 6553), (5, 6553)] ∧
    datamgr_load [(65535, 6553), (5, 6553)]
      = some [fresh_entry 5 6553, fresh_entry 65535 6553] ∧
    datamgr_read (map_line 12345 6789) room0 id0 = [(12345, 6789), (12345, 6789)] ∧
    datamgr_read (map_line 21 15) room0 id0 = [(21, 15)] :=
  ⟨by decide, rfl, rfl, rfl, rfl⟩

/-! ## `dpl_insert_sorted` on the nodes -/

theorem dl_chain_length {α : Type} (cell : Nat → Option (dplist_node_t α)) :
    ∀ (ids : List Nat) (xs : List α) (pv p : Option Nat), dl_chain cell pv p ids xs →
      ids.length = xs.length := by
  intro ids
  induction ids with
  | nil =>
    intro xs pv p h
    match xs, h with
    | [], _ => rfl
  | cons a t ih =>
    intro xs pv p h
    match xs, h with
    | x :: xt, h =>
      simp only [dl_chain] at h
      obtain ⟨_, n, _, _, _, hr⟩ := h
      simp only [List.length_cons, ih xt (some a) n.next hr]

theorem dl_chain_congr {α : Type} (cell cell1 : Nat → Option (dplist_node_t α)) :
    ∀ (ids : List Nat) (xs : List α) (pv p : Option Nat), (∀ a ∈ ids, cell1 a = cell a) →
      dl_chain cell pv p ids xs → dl_chain cell1 pv p ids xs := by
  intro ids
  induction ids with
  | nil =>
    intro xs pv p _ h
    match xs, h with
    | [], h => exact h
  | cons a t ih =>
    intro xs pv p hc h
    match xs, h with
    | x :: xt, h =>
      simp only [dl_chain] at h ⊢
      obtain ⟨hp, n, hn, hpv, hx, hr⟩ := h
      refine ⟨hp, n, ?_, hpv, hx, ?_⟩
      · rw [hc a (List.mem_cons_self _ _)]
        exact hn
      · exact ih xt (some a) n.next (fun b hb => hc b (List.mem_cons_of_mem _ hb)) hr

theorem dl_chain_alloc {α : Type} (cell : Nat → Option (dplist_node_t α)) :
    ∀ (ids : List Nat) (xs : List α) (pv p : Option Nat), dl_chain cell pv p ids xs →
      ∀ a ∈ ids, ∃ n, cell a = some n := by
  intro ids
  induction ids with
  | nil =>
    intro xs pv p _ a ha
    exact absurd ha (List.not_mem_nil a)
  | cons b t ih =>
    intro xs pv p h a ha
    match xs, h with
    | x :: xt, h =>
      simp only [dl_chain] at h
      obtain ⟨_, n, hn, _, _, hr⟩ := h
      rcases List.mem_cons.mp ha with hab | hat
      · exact ⟨n, by rw [hab]; exact hn⟩
      · exact ih xt (some b) n.next hr a hat

theorem dpl_scan_nodes_chain {α : Type} (cmp : α → α → Int) (e : α)
    (cell : Nat → Option (dplist_node_t α)) :
    ∀ (ids : List Nat) (xs : List α) (pv : Option Nat) (a fuel : Nat),
      dl_chain cell pv (some a) ids xs → ids.length ≤ fuel →
      dpl_scan_nodes cmp e cell fuel a = ids[insert_sorted_scan cmp e xs]? ∧
      insert_sorted_scan cmp e xs < ids.length := by
  intro ids
  induction ids with
  | nil =>
    intro xs pv a fuel h _
    match xs, h with
    | [], h =>
      simp only [dl_chain] at h
      exact absurd h (by simp)
  | cons b t ih =>
    intro xs pv a fuel h hf
    match xs, h, fuel, hf with
    | x :: xt, h, f + 1, hf =>
      simp only [dl_chain] at h
      obtain ⟨hp, n, hn, _, hx, hr⟩ := h
      have hab : a = b := Option.some.inj hp
      subst hab
      match t, xt, hr, ih with
      | [], [], hr, _ =>
        simp only [dl_chain] at hr
        simp [dpl_scan_nodes, hn, hr, insert_sorted_scan]
      | b2 :: t2, x2 :: xt2, hr, ih =>
        have hnx : n.next = some b2 := by
          simp only [dl_chain] at hr
          exact hr.1
        rw [hnx] at hr
        obtain ⟨h1, h2⟩ := ih (x2 :: xt2) (some a) b2 f hr (by simpa using hf)
        simp only [dpl_scan_nodes, hn, hnx, insert_sorted_scan, hx]
        by_cases hc : cmp e x > 0
        · rw [if_pos hc, if_pos hc, h1]
          refine ⟨by simp, ?_⟩
          simp only [List.length_cons] at h2 ⊢
          omega
        · rw [if_neg hc, if_neg hc]
          simp

theorem dl_chain_cons {α : Type} (cell : Nat → Option (dplist_node_t α)) (pv p : Option Nat)
    (a : Nat) (ids : List Nat) (x : α) (xs : List α) :
    dl_chain cell pv p (a :: ids) (x :: xs) ↔
      (p = some a ∧ ∃ n, cell a = some n ∧ n.prev = pv ∧ n.element = x ∧
        dl_chain cell (some a) n.next ids xs) := by
  simp only [dl_chain]

theorem dl_chain_nil {α : Type} (cell : Nat → Option (dplist_node_t α)) (pv p : Option Nat) :
    dl_chain cell pv p [] [] ↔ p = none := by
  simp only [dl_chain]

theorem dl_chain_link_head {α : Type} (cell : Nat → Option (dplist_node_t α)) (nw : Nat)
    (e : α) (h : Nat) (t : List Nat) (x : α) (xt : List α) (hn : dplist_node_t α)
    (hch : dl_chain cell none (some h) (h :: t) (x :: xt)) (hc : cell h = some hn)
    (hnw : nw ∉ h :: t) (hnd : (h :: t).Nodup) :
    dl_chain (Function.update (Function.update cell nw (some ⟨none, some h, e⟩)) h
        (some { hn with prev := some nw })) none (some nw) (nw :: h :: t) (e :: x :: xt) := by
  obtain ⟨_, n, hn2, _, hx, hr⟩ := (dl_chain_cons _ _ _ _ _ _ _).mp hch
  rw [hc] at hn2
  cases hn2
  have hne : nw ≠ h := fun e => hnw (by rw [e]; exact List.mem_cons_self _ _)
  refine (dl_chain_cons _ _ _ _ _ _ _).mpr ⟨rfl, ⟨none, some h, e⟩, ?_, rfl, rfl, ?_⟩
  · rw [Function.update_noteq hne, Function.update_same]
  refine (dl_chain_cons _ _ _ _ _ _ _).mpr ⟨rfl, { hn with prev := some nw }, ?_, rfl, hx, ?_⟩
  · rw [Function.update_same]
  · apply dl_chain_congr cell _ t xt (some h) hn.next _ hr
    intro a ha
    have h1 : a ≠ h := fun e => (List.nodup_cons.mp hnd).1 (by rw [← e]; exact ha)
    have h2 : a ≠ nw := fun e => hnw (by rw [← e]; exact List.mem_cons_of_mem _ ha)
    rw [Function.update_noteq h1, Function.update_noteq h2]

theorem dl_chain_link_last {α : Type} (cell : Nat → Option (dplist_node_t α)) (nw : Nat)
    (e : α) (la : Nat) (xl : α) :
    ∀ (pre : List Nat) (xpre : List α) (pv p : Option Nat), pre.length = xpre.length →
      dl_chain cell pv p (pre ++ [la]) (xpre ++ [xl]) → nw ∉ pre ++ [la] →
      (pre ++ [la]).Nodup →
      ∃ ln, cell la = some ln ∧ ln.next = none ∧ ln.element = xl ∧
        dl_chain (Function.update (Function.update cell nw (some ⟨some la, none, e⟩)) la
          (some { ln with next := some nw })) pv p (pre ++ [la, nw]) (xpre ++ [xl, e]) := by
  intro pre
  induction pre with
  | nil =>
    intro xpre pv p hl hch hnw _
    match xpre, hl with
    | [], _ =>
      obtain ⟨hp, n, hn, hpv, hx, hr⟩ := (dl_chain_cons _ _ _ _ _ _ _).mp hch
      have hr2 := (dl_chain_nil _ _ _).mp hr
      have hne : nw ≠ la := fun e => hnw (by rw [e]; simp)
      refine ⟨n, hn, hr2, hx, ?_⟩
      refine (dl_chain_cons _ _ _ _ _ _ _).mpr
        ⟨hp, { n with next := some nw }, ?_, hpv, hx, ?_⟩
      · rw [Function.update_same]
      refine (dl_chain_cons _ _ _ _ _ _ _).mpr ⟨rfl, ⟨some la, none, e⟩, ?_, rfl, rfl, ?_⟩
      · rw [Function.update_noteq hne, Function.update_same]
      · exact (dl_chain_nil _ _ _).mpr rfl
  | cons a t ih =>
    intro xpre pv p hl hch hnw hnd
    match xpre, hl with
    | x :: xt, hl =>
      obtain ⟨hp, n, hn, hpv, hx, hr⟩ := (dl_chain_cons _ _ _ _ _ _ _).mp hch
      have hnw2 : nw ∉ t ++ [la] := fun hm => hnw (List.mem_cons_of_mem _ hm)
      have hnd2 := List.nodup_cons.mp hnd
      obtain ⟨ln, hln, hlnx, hlx, hch2⟩ := ih xt (some a) n.next (by simpa using hl) hr hnw2
        hnd2.2
      have hane : a ≠ nw := fun e => hnw (by rw [← e]; exact List.mem_cons_self _ _)
      have hala : a ≠ la := fun e => hnd2.1 (by rw [e]; simp)
      refine ⟨ln, hln, hlnx, hlx, ?_⟩
      refine (dl_chain_cons _ _ _ _ _ _ _).mpr ⟨hp, n, ?_, hpv, hx, hch2⟩
      rw [Function.update_noteq hala, Function.update_noteq hane]
      exact hn

theorem dl_chain_link_mid {α : Type} (cell : Nat → Option (dplist_node_t α)) (nw : Nat)
    (e : α) (pa d : Nat) (post : List Nat) (xp xd : α) (xpost : List α) :
    ∀ (pre : List Nat) (xpre : List α) (pv p : Option Nat), pre.length = xpre.length →
      dl_chain cell pv p (pre ++ pa :: d :: post) (xpre ++ xp :: xd :: xpost) →
      nw ∉ pre ++ pa :: d :: post → (pre ++ pa :: d :: post).Nodup →
      ∃ pn dn, cell pa = some pn ∧ cell d = some dn ∧ dn.prev = some pa ∧ dn.element = xd ∧
        (dn.next = none ↔ post = []) ∧
        dl_chain (Function.update (Function.update (Function.update cell nw
            (some ⟨some pa, some d, e⟩)) pa (some { pn with next := some nw })) d
            (some { dn with prev := some nw }))
          pv p (pre ++ pa :: nw :: d :: post) (xpre ++ xp :: e :: xd :: xpost) := by
  intro pre
  induction pre with
  | nil =>
    intro xpre pv p hl hch hnw hnd
    match xpre, hl with
    | [], _ =>
      obtain ⟨hp, pn, hpn, hpv, hxp, hr1⟩ := (dl_chain_cons _ _ _ _ _ _ _).mp hch
      obtain ⟨hnx, dn, hdn, hdpv, hxd, hr⟩ := (dl_chain_cons _ _ _ _ _ _ _).mp hr1
      have hnwpa : nw ≠ pa := fun e => hnw (by rw [e]; simp)
      have hnwd : nw ≠ d := fun e => hnw (by rw [e]; simp)
      have hnd1 := List.nodup_cons.mp hnd
      have hnd2 := List.nodup_cons.mp hnd1.2
      have hpad : pa ≠ d := fun e => hnd1.1 (by rw [e]; simp)
      have hpost : dn.next = none ↔ post = [] := by
        match post, xpost, hr with
        | [], [], hr =>
          have := (dl_chain_nil _ _ _).mp hr
          simp [this]
        | b :: t, y :: yt, hr =>
          have := ((dl_chain_cons _ _ _ _ _ _ _).mp hr).1
          simp [this]
      refine ⟨pn, dn, hpn, hdn, hdpv, hxd, hpost, ?_⟩
      refine (dl_chain_cons _ _ _ _ _ _ _).mpr
        ⟨hp, { pn with next := some nw }, ?_, hpv, hxp, ?_⟩
      · rw [Function.update_noteq hpad, Function.update_same]
      refine (dl_chain_cons _ _ _ _ _ _ _).mpr ⟨rfl, ⟨some pa, some d, e⟩, ?_, rfl, rfl, ?_⟩
      · rw [Function.update_noteq hnwd, Function.update_noteq hnwpa, Function.update_same]
      refine (dl_chain_cons _ _ _ _ _ _ _).mpr
        ⟨rfl, { dn with prev := some nw }, ?_, rfl, hxd, ?_⟩
      · rw [Function.update_same]
      · apply dl_chain_congr cell _ post xpost (some d) dn.next _ hr
        intro a ha
        have h1 : a ≠ d := fun e => hnd2.1 (by rw [← e]; exact ha)
        have h2 : a ≠ pa := fun e => hnd1.1 (by rw [← e]; exact List.mem_cons_of_mem _ ha)
        have h3 : a ≠ nw := fun e => hnw (by rw [← e]; simp [ha])
        rw [Function.update_noteq h1, Function.update_noteq h2, Function.update_noteq h3]
  | cons a t ih =>
    intro xpre pv p hl hch hnw hnd
    match xpre, hl with
    | x :: xt, hl =>
      obtain ⟨hp, n, hn, hpv, hx, hr⟩ := (dl_chain_cons _ _ _ _ _ _ _).mp hch
      have hnw2 : nw ∉ t ++ pa :: d :: post := fun hm => hnw (List.mem_cons_of_mem _ hm)
      have hnd2 := List.nodup_cons.mp hnd
      obtain ⟨pn, dn, hpn, hdn, hdpv, hxd, hpost, hch2⟩ :=
        ih xt (some a) n.next (by simpa using hl) hr hnw2 hnd2.2
      have hane : a ≠ nw := fun e => hnw (by rw [← e]; exact List.mem_cons_self _ _)
      have hapa : a ≠ pa := fun e => hnd2.1 (by rw [e]; simp)
      have had : a ≠ d := fun e => hnd2.1 (by rw [e]; simp)
      refine ⟨pn, dn, hpn, hdn, hdpv, hxd, hpost, ?_⟩
      refine (dl_chain_cons _ _ _ _ _ _ _).mpr ⟨hp, n, ?_, hpv, hx, hch2⟩
      rw [Function.update_noteq had, Function.update_noteq hapa, Function.update_noteq hane]
      exact hn

theorem list_split_pair {β : Type} :
    ∀ (j : Nat) (l : List β), j + 1 < l.length →
      ∃ pre pa d post, l = pre ++ pa :: d :: post ∧ pre.length = j ∧
        l.take (j + 1) = pre ++ [pa] ∧ l.drop (j + 1) = d :: post ∧ l[j + 1]? = some d := by
  intro j
  induction j with
  | zero =>
    intro l h
    match l, h with
    | a :: b :: t, _ => exact ⟨[], a, b, t, rfl, rfl, rfl, rfl, by simp⟩
  | succ n ih =>
    intro l h
    match l, h with
    | a :: t, h =>
      obtain ⟨pre, pa, d, post, h1, h2, h3, h4, h5⟩ := ih t (by simpa using h)
      refine ⟨a :: pre, pa, d, post, by rw [h1]; rfl, by simp [h2], ?_, ?_, ?_⟩
      · rw [List.take_succ_cons, h3]
        rfl
      · rw [List.drop_succ_cons, h4]
      · rw [List.getElem?_cons_succ, h5]

theorem list_split_last {β : Type} (l : List β) (hne : l ≠ []) :
    ∃ pre la, l = pre ++ [la] ∧ pre.length + 1 = l.length ∧ l[l.length - 1]? = some la := by
  rcases List.eq_nil_or_concat l with hnil | ⟨pre, la, hcat⟩
  · exact absurd hnil hne
  · have hcat2 : l = pre ++ [la] := by simpa using hcat
    refine ⟨pre, la, hcat2, by rw [hcat2]; simp, ?_⟩
    rw [hcat2]
    simp

theorem dplist_wf_fresh {α : Type} (l : dplist_t α) (ids : List Nat) (xs : List α)
    (h : dplist_wf l ids xs) :
    (∀ a ∈ ids, a < l.brk) ∧ l.brk ∉ ids ∧ ids.length ≤ l.brk ∧ ids.length = xs.length := by
  have hlt : ∀ a ∈ ids, a < l.brk := by
    intro a ha
    obtain ⟨n, hn⟩ := dl_chain_alloc l.cell ids xs none l.head h.1 a ha
    by_contra hge
    have := h.2.2 a (by omega)
    rw [this] at hn
    exact absurd hn (by simp)
  refine ⟨hlt, ?_, ?_, dl_chain_length l.cell ids xs none l.head h.1⟩
  · intro hm
    have := hlt _ hm
    omega
  · have hsub : ids ⊆ List.range l.brk := by
      intro a ha
      exact List.mem_range.mpr (hlt a ha)
    have := (List.subperm_of_subset h.2.1 hsub).length_le
    simpa using this

theorem nodup_insert_fresh (ids : List Nat) (k nw : Nat) (hnd : ids.Nodup) (hnw : nw ∉ ids) :
    (ids.take k ++ nw :: ids.drop k).Nodup := by
  rw [List.nodup_middle, List.take_append_drop]
  exact List.nodup_cons.mpr ⟨hnw, hnd⟩

theorem dpl_insert_sorted_nodes_empty {α : Type} (cmp : α → α → Int) (l : dplist_t α) (e : α)
    (h : dplist_wf l [] []) :
    ∃ l1, dpl_insert_sorted_nodes cmp l e = some l1 ∧ dplist_wf l1 [l.brk] [e] ∧
      l1.brk = l.brk + 1 := by
  obtain ⟨hch, _, hfree⟩ := h
  have hh := (dl_chain_nil _ _ _).mp hch
  refine ⟨⟨some l.brk, Function.update l.cell l.brk (some ⟨none, none, e⟩), l.brk + 1⟩,
    by simp only [dpl_insert_sorted_nodes, hh], ⟨?_, by simp, ?_⟩, rfl⟩
  · refine (dl_chain_cons _ _ _ _ _ _ _).mpr ⟨rfl, ⟨none, none, e⟩, ?_, rfl, rfl, ?_⟩
    · show Function.update l.cell l.brk _ l.brk = _
      rw [Function.update_same]
    · exact (dl_chain_nil _ _ _).mpr rfl
  · intro a ha
    have ha2 : l.brk + 1 ≤ a := ha
    show Function.update l.cell l.brk _ a = none
    rw [Function.update_noteq (by omega)]
    exact hfree a (by omega)

theorem dpl_insert_sorted_nodes_last {α : Type} (cmp : α → α → Int) (l : dplist_t α)
    (ids : List Nat) (xs : List α) (e : α) (h : dplist_wf l ids xs) (hne : ids ≠ [])
    (hk : insert_sorted_scan cmp e xs + 1 = xs.length)
    (hc : ∀ x, xs[insert_sorted_scan cmp e xs]? = some x → cmp e x ≥ 0) :
    ∃ l1, dpl_insert_sorted_nodes cmp l e = some l1 ∧ dplist_wf l1 (ids ++ [l.brk]) (xs ++ [e]) ∧
      l1.brk = l.brk + 1 := by
  obtain ⟨hlt, hfresh, hlenb, hlen⟩ := dplist_wf_fresh l ids xs h
  obtain ⟨hch, hnd, hfree⟩ := h
  obtain ⟨pre, la, hids, hprel, hlast⟩ := list_split_last ids hne
  have hxne : xs ≠ [] := by
    intro e0
    rw [e0] at hlen
    exact hne (List.length_eq_zero.mp hlen)
  obtain ⟨xpre, xl, hxs, hxprel, hxlast⟩ := list_split_last xs hxne
  have hpl : pre.length = xpre.length := by omega
  have hhead : ∃ a, l.head = some a ∧ dl_chain l.cell none (some a) ids xs := by
    match ids, xs, hch, hne with
    | a :: t, x :: xt, hch, _ =>
      have := ((dl_chain_cons _ _ _ _ _ _ _).mp hch).1
      exact ⟨a, this, by rw [← this]; exact hch⟩
  obtain ⟨a, hha, hcha⟩ := hhead
  obtain ⟨hscan, _⟩ := dpl_scan_nodes_chain cmp e l.cell ids xs none a (l.brk + 1) hcha
    (by omega)
  have hkk : insert_sorted_scan cmp e xs = ids.length - 1 := by omega
  rw [hkk, hlast] at hscan
  have hxk : xs[insert_sorted_scan cmp e xs]? = some xl := by
    rw [hkk, hlen]
    exact hxlast
  have hcmp := hc xl hxk
  have hch2 := hch
  rw [hids, hxs] at hch2
  obtain ⟨ln, hln, hlnx, hlx, hlink⟩ := dl_chain_link_last l.cell l.brk e la xl pre xpre none
    l.head hpl hch2 (by rw [← hids]; exact hfresh) (by rw [← hids]; exact hnd)
  have hlab : la ≠ l.brk := by
    have := hlt la (by rw [hids]; simp)
    omega
  have hc1 : ∀ v, Function.update l.cell l.brk v la = some ln := by
    intro v
    rw [Function.update_noteq hlab]
    exact hln
  have hcond : ln.next = none ∧ cmp e ln.element ≥ 0 := ⟨hlnx, by rw [hlx]; exact hcmp⟩
  refine ⟨⟨some a, Function.update (Function.update l.cell l.brk (some ⟨some la, none, e⟩)) la
      (some { ln with next := some l.brk }), l.brk + 1⟩,
    by simp only [dpl_insert_sorted_nodes, hha, hscan, hln, hcond, and_self, if_true, hc1],
    ⟨?_, ?_, ?_⟩, rfl⟩
  · show dl_chain (Function.update (Function.update l.cell l.brk _) la _) none (some a) _ _
    rw [hids, hxs, List.append_assoc, List.append_assoc, ← hha]
    exact hlink
  · have := nodup_insert_fresh ids ids.length l.brk hnd hfresh
    simpa using this
  · intro b hb
    have hb2 : l.brk + 1 ≤ b := hb
    show Function.update (Function.update l.cell l.brk _) la _ b = none
    have h1 : b ≠ la := by
      have := hlt la (by rw [hids]; simp)
      omega
    rw [Function.update_noteq h1, Function.update_noteq (by omega)]
    exact hfree b (by omega)

theorem dpl_insert_sorted_nodes_first {α : Type} (cmp : α → α → Int) (l : dplist_t α)
    (a : Nat) (t : List Nat) (x : α) (xt : List α) (e : α)
    (h : dplist_wf l (a :: t) (x :: xt))
    (hk : insert_sorted_scan cmp e (x :: xt) = 0)
    (hnl : ¬ (0 + 1 = (x :: xt).length ∧ cmp e x ≥ 0)) :
    (cmp e x < 0 → ∃ l1, dpl_insert_sorted_nodes cmp l e = some l1 ∧
      dplist_wf l1 (l.brk :: a :: t) (e :: x :: xt) ∧ l1.brk = l.brk + 1) ∧
    (¬ cmp e x < 0 → dpl_insert_sorted_nodes cmp l e = none) := by
  obtain ⟨hlt, hfresh, hlenb, hlen⟩ := dplist_wf_fresh l (a :: t) (x :: xt) h
  obtain ⟨hch, hnd, hfree⟩ := h
  obtain ⟨hha, n0, hn0, hpv0, hx0, hr0⟩ := (dl_chain_cons _ _ _ _ _ _ _).mp hch
  have hcha : dl_chain l.cell none (some a) (a :: t) (x :: xt) := by
    rw [← hha]
    exact hch
  obtain ⟨hscan, _⟩ := dpl_scan_nodes_chain cmp e l.cell (a :: t) (x :: xt) none a (l.brk + 1)
    hcha (by omega)
  rw [hk] at hscan
  have hscan2 : dpl_scan_nodes cmp e l.cell (l.brk + 1) a = some a := by
    rw [hscan]
    simp
  have hnext : n0.next = none ↔ t = [] := by
    match t, xt, hr0 with
    | [], [], hr =>
      have := (dl_chain_nil _ _ _).mp hr
      simp [this]
    | b :: t2, y :: yt, hr =>
      have := ((dl_chain_cons _ _ _ _ _ _ _).mp hr).1
      simp [this]
  have hcondA : ¬ (n0.next = none ∧ cmp e n0.element ≥ 0) := by
    intro hc
    apply hnl
    refine ⟨?_, by rw [← hx0]; exact hc.2⟩
    have := hnext.mp hc.1
    rw [this] at hlen
    simpa using hlen
  have hab : a ≠ l.brk := by
    have := hlt a (List.mem_cons_self _ _)
    omega
  have hc1 : ∀ v, Function.update l.cell l.brk v a = some n0 := by
    intro v
    rw [Function.update_noteq hab]
    exact hn0
  refine ⟨?_, ?_⟩
  · intro hc
    have hcondB : cmp e n0.element < 0 := by
      rw [hx0]
      exact hc
    refine ⟨⟨some l.brk, Function.update (Function.update l.cell l.brk
        (some ⟨none, some a, e⟩)) a (some { n0 with prev := some l.brk }), l.brk + 1⟩,
      by simp only [dpl_insert_sorted_nodes, hha, hscan2, hn0, hcondA, if_false, hcondB,
        and_self, if_true, hc1],
      ⟨?_, List.nodup_cons.mpr ⟨hfresh, hnd⟩, ?_⟩, rfl⟩
    · exact dl_chain_link_head l.cell l.brk e a t x xt n0 hcha hn0 hfresh hnd
    · intro b hb
      have hb2 : l.brk + 1 ≤ b := hb
      show Function.update (Function.update l.cell l.brk _) a _ b = none
      have h1 : b ≠ a := by
        have := hlt a (List.mem_cons_self _ _)
        omega
      rw [Function.update_noteq h1, Function.update_noteq (by omega)]
      exact hfree b (by omega)
  · intro hc
    have hcondB : ¬ (cmp e n0.element < 0) := by
      rw [hx0]
      exact hc
    simp only [dpl_insert_sorted_nodes, hha, hscan2, hn0, hcondA, if_false, true_and, hcondB,
      hc1, hpv0]

theorem dpl_insert_sorted_nodes_mid {α : Type} (cmp : α → α → Int) (l : dplist_t α)
    (ids : List Nat) (xs : List α) (e : α) (h : dplist_wf l ids xs) (j : Nat)
    (hk : insert_sorted_scan cmp e xs = j + 1)
    (hnl : ∀ x, xs[j + 1]? = some x → ¬ (j + 1 + 1 = xs.length ∧ cmp e x ≥ 0)) :
    ∃ l1, dpl_insert_sorted_nodes cmp l e = some l1 ∧
      dplist_wf l1 (ids.take (j + 1) ++ l.brk :: ids.drop (j + 1))
        (xs.take (j + 1) ++ e :: xs.drop (j + 1)) ∧ l1.brk = l.brk + 1 := by
  obtain ⟨hlt, hfresh, hlenb, hlen⟩ := dplist_wf_fresh l ids xs h
  obtain ⟨hch, hnd, hfree⟩ := h
  have hhead : ∃ a t, ids = a :: t ∧ l.head = some a ∧ dl_chain l.cell none (some a) ids xs := by
    match ids, xs, hch, hk with
    | a :: t, x :: xt, hch, _ =>
      have := ((dl_chain_cons _ _ _ _ _ _ _).mp hch).1
      exact ⟨a, t, rfl, this, by rw [← this]; exact hch⟩
    | [], [], _, hk => simp [insert_sorted_scan] at hk
  obtain ⟨a, t, hat, hha, hcha⟩ := hhead
  obtain ⟨hscan, hklt⟩ := dpl_scan_nodes_chain cmp e l.cell ids xs none a (l.brk + 1) hcha
    (by omega)
  rw [hk] at hscan hklt
  obtain ⟨pre, pa, d, post, hids, hprel, htake, hdrop, hidx⟩ := list_split_pair j ids hklt
  obtain ⟨xpre, xp, xd, xpost, hxs, hxprel, hxtake, hxdrop, hxidx⟩ :=
    list_split_pair j xs (by omega)
  rw [hidx] at hscan
  have hch2 := hch
  rw [hids, hxs] at hch2
  obtain ⟨pn, dn, hpn, hdn, hdpv, hxd, hpost, hlink⟩ := dl_chain_link_mid l.cell l.brk e pa d
    post xp xd xpost pre xpre none l.head (by omega) hch2 (by rw [← hids]; exact hfresh)
    (by rw [← hids]; exact hnd)
  have hdb : d ≠ l.brk := by
    have := hlt d (by rw [hids]; simp)
    omega
  have hpab : pa ≠ l.brk := by
    have := hlt pa (by rw [hids]; simp)
    omega
  have hnd2 : (pre ++ pa :: d :: post).Nodup := by
    rw [← hids]
    exact hnd
  have hdpa : d ≠ pa := by
    intro e0
    have h1 := (List.nodup_append.mp hnd2).2.1
    have h2 := (List.nodup_cons.mp h1).1
    exact h2 (by rw [e0]; simp)
  have hda : ¬ (d = a ∧ cmp e dn.element < 0) := by
    intro hc
    have hmem : a ∈ pre ++ [pa] := by
      rw [← htake, hat, List.take_succ_cons]
      exact List.mem_cons_self _ _
    have hdis : d ∉ pre ++ [pa] := by
      intro hm
      have h3 : (pre ++ [pa] ++ d :: post).Nodup := by
        simpa using hnd2
      have := (List.nodup_append.mp h3).2.2 hm (List.mem_cons_self _ _)
      exact this
    rw [hc.1] at hdis
    exact hdis hmem
  have hcondA : ¬ (dn.next = none ∧ cmp e dn.element ≥ 0) := by
    intro hc
    apply hnl xd hxidx
    refine ⟨?_, by rw [← hxd]; exact hc.2⟩
    have hp := hpost.mp hc.1
    have hl2 : ids.length = j + 2 := by
      rw [hids, hp]
      simp only [List.length_append, List.length_cons, List.length_nil]
      omega
    omega
  have hc1d : ∀ v, Function.update l.cell l.brk v d = some dn := by
    intro v
    rw [Function.update_noteq hdb]
    exact hdn
  have hc1pa : ∀ v, Function.update l.cell l.brk v pa = some pn := by
    intro v
    rw [Function.update_noteq hpab]
    exact hpn
  have hc2d : ∀ v w, Function.update (Function.update l.cell l.brk v) pa w d = some dn := by
    intro v w
    rw [Function.update_noteq hdpa]
    exact hc1d v
  refine ⟨⟨some a, Function.update (Function.update (Function.update l.cell l.brk
      (some ⟨some pa, some d, e⟩)) pa (some { pn with next := some l.brk })) d
      (some { dn with prev := some l.brk }), l.brk + 1⟩,
    by simp only [dpl_insert_sorted_nodes, hha, hscan, hdn, hcondA, if_false, hda, hc1d, hdpv,
      hc1pa, hc2d],
    ⟨?_, nodup_insert_fresh ids (j + 1) l.brk hnd hfresh, ?_⟩, rfl⟩
  · show dl_chain _ none (some a) _ _
    rw [htake, hdrop, hxtake, hxdrop, ← hha]
    simpa using hlink
  · intro b hb
    have hb2 : l.brk + 1 ≤ b := hb
    show Function.update (Function.update (Function.update l.cell l.brk _) pa _) d _ b = none
    have h1 : b ≠ d := by
      have := hlt d (by rw [hids]; simp)
      omega
    have h2 : b ≠ pa := by
      have := hlt pa (by rw [hids]; simp)
      omega
    rw [Function.update_noteq h1, Function.update_noteq h2, Function.update_noteq (by omega)]
    exact hfree b (by omega)

/-- The list-level `dpl_insert_sorted` describes `dpl_insert_sorted_nodes` on
every well-formed list: both are undefined together, and otherwise the nodes
form a well-formed list carrying the list-level result, the new node `brk`
linked in at the position of the new element. -/
theorem dpl_insert_sorted_nodes_spec {α : Type} (cmp : α → α → Int) (l : dplist_t α)
    (ids : List Nat) (xs : List α) (e : α) (h : dplist_wf l ids xs) :
    (dpl_insert_sorted cmp xs e = none → dpl_insert_sorted_nodes cmp l e = none) ∧
    (∀ ys, dpl_insert_sorted cmp xs e = some ys →
      ∃ l1 k, dpl_insert_sorted_nodes cmp l e = some l1 ∧ k ≤ ids.length ∧
        ys = xs.take k ++ e :: xs.drop k ∧
        dplist_wf l1 (ids.take k ++ l.brk :: ids.drop k) ys ∧ l1.brk = l.brk + 1) := by
  obtain ⟨_, _, _, hlen⟩ := dplist_wf_fresh l ids xs h
  match ids, xs, h, hlen with
  | [], [], h, _ =>
    refine ⟨fun hn => by simp [dpl_insert_sorted] at hn, ?_⟩
    intro ys hys
    simp only [dpl_insert_sorted, Option.some.injEq] at hys
    obtain ⟨l1, h1, h2, h3⟩ := dpl_insert_sorted_nodes_empty cmp l e h
    refine ⟨l1, 0, h1, le_refl _, by rw [← hys]; rfl, ?_, h3⟩
    rw [← hys]
    exact h2
  | [], x :: xt, _, hlen => simp at hlen
  | a :: t, [], _, hlen => simp at hlen
  | a :: t, x :: xt, h, hlen =>
    have hklt := insert_sorted_scan_lt cmp e (x :: xt) (by simp)
    obtain ⟨xk, hxk⟩ : ∃ xk, (x :: xt)[insert_sorted_scan cmp e (x :: xt)]? = some xk :=
      ⟨_, List.getElem?_eq_getElem hklt⟩
    have hlist : dpl_insert_sorted cmp (x :: xt) e =
        if insert_sorted_scan cmp e (x :: xt) + 1 = (x :: xt).length ∧ cmp e xk ≥ 0 then
          some ((x :: xt) ++ [e])
        else if insert_sorted_scan cmp e (x :: xt) = 0 ∧ cmp e xk < 0 then some (e :: x :: xt)
        else if insert_sorted_scan cmp e (x :: xt) = 0 then none
        else some ((x :: xt).take (insert_sorted_scan cmp e (x :: xt)) ++
          e :: (x :: xt).drop (insert_sorted_scan cmp e (x :: xt))) := by
      simp only [dpl_insert_sorted, hxk]
    rw [hlist]
    by_cases hA : insert_sorted_scan cmp e (x :: xt) + 1 = (x :: xt).length ∧ cmp e xk ≥ 0
    · rw [if_pos hA]
      obtain ⟨l1, h1, h2, h3⟩ := dpl_insert_sorted_nodes_last cmp l (a :: t) (x :: xt) e h
        (by simp) hA.1 (by
          intro y hy
          rw [hxk] at hy
          cases hy
          exact hA.2)
      refine ⟨fun hn => by simp at hn, ?_⟩
      intro ys hys
      simp only [Option.some.injEq] at hys
      refine ⟨l1, (a :: t).length, h1, le_refl _, ?_, ?_, h3⟩
      · rw [← hys, hlen]
        simp
      · rw [← hys]
        simpa using h2
    · rw [if_neg hA]
      by_cases hk0 : insert_sorted_scan cmp e (x :: xt) = 0
      · have hxkx : xk = x := by
          rw [hk0] at hxk
          simpa using hxk.symm
        subst hxkx
        obtain ⟨hpos, hneg⟩ := dpl_insert_sorted_nodes_first cmp l a t xk xt e h hk0 (by
          rw [hk0] at hA
          exact hA)
        by_cases hB : cmp e xk < 0
        · rw [if_pos ⟨hk0, hB⟩]
          obtain ⟨l1, h1, h2, h3⟩ := hpos hB
          refine ⟨fun hn => by simp at hn, ?_⟩
          intro ys hys
          simp only [Option.some.injEq] at hys
          refine ⟨l1, 0, h1, Nat.zero_le _, by rw [← hys]; rfl, ?_, h3⟩
          rw [← hys]
          exact h2
        · rw [if_neg (fun hc => hB hc.2), if_pos hk0]
          exact ⟨fun _ => hneg hB, fun ys hys => by simp at hys⟩
      · rw [if_neg (fun hc => hk0 hc.1), if_neg hk0]
        obtain ⟨j, hj⟩ : ∃ j, insert_sorted_scan cmp e (x :: xt) = j + 1 :=
          ⟨insert_sorted_scan cmp e (x :: xt) - 1, by omega⟩
        obtain ⟨l1, h1, h2, h3⟩ := dpl_insert_sorted_nodes_mid cmp l (a :: t) (x :: xt) e h j hj
          (by
            intro y hy
            rw [hj] at hxk hA
            rw [hxk] at hy
            cases hy
            exact hA)
        refine ⟨fun hn => by simp at hn, ?_⟩
        intro ys hys
        simp only [Option.some.injEq] at hys
        rw [hj] at hys hklt
        refine ⟨l1, j + 1, h1, by rw [hlen]; omega, hys.symm, ?_, h3⟩
        rw [← hys]
        exact h2

theorem example_registry_nodes_wf :
    dplist_wf example_registry_nodes [0, 1] [fresh_entry 1 10, fresh_entry 2 20] := by
  refine ⟨?_, by decide, ?_⟩
  · refine (dl_chain_cons _ _ _ _ _ _ _).mpr ⟨rfl, _, rfl, rfl, rfl, ?_⟩
    refine (dl_chain_cons _ _ _ _ _ _ _).mpr ⟨rfl, _, rfl, rfl, rfl, ?_⟩
    exact (dl_chain_nil _ _ _).mpr rfl
  · intro a ha
    have ha2 : 2 ≤ a := ha
    have h0 : a ≠ 0 := by omega
    have h1 : a ≠ 1 := by omega
    simp [example_registry_nodes, h0, h1]

theorem example_nodes_wf : dplist_wf example_nodes [0, 1] [1, 3] := by
  refine ⟨?_, by decide, ?_⟩
  · refine (dl_chain_cons _ _ _ _ _ _ _).mpr ⟨rfl, _, rfl, rfl, rfl, ?_⟩
    refine (dl_chain_cons _ _ _ _ _ _ _).mpr ⟨rfl, _, rfl, rfl, rfl, ?_⟩
    exact (dl_chain_nil _ _ _).mpr rfl
  · intro a ha
    have ha2 : 2 ≤ a := ha
    have h0 : a ≠ 0 := by omega
    have h1 : a ≠ 1 := by omega
    simp [example_nodes, h0, h1]

/-- C23 (the code at the failing input). The registry holds the entries of the
map lines `1 10` and `2 20` in a well-formed list of two nodes; inserting the
entry of a third line `1 30`, which compares equal to the head, takes the
last branch of `dpl_insert_sorted` with `dummy` the head and dereferences its
`prev`, which is `NULL`: the call is undefined, at the level of the nodes and of
the list of elements, and so is the load of the map. -/
theorem dpl_insert_sorted_equal_to_head_of_two :
    dplist_wf example_registry_nodes [0, 1] [fresh_entry 1 10, fresh_entry 2 20] ∧
    sensor_compare (fresh_entry 1 30) (fresh_entry 1 10) = 0 ∧
    dpl_scan_nodes sensor_compare (fresh_entry 1 30) example_registry_nodes.cell 3 0 = some 0 ∧
    (∃ dn, example_registry_nodes.cell 0 = some dn ∧ dn.prev = none ∧ dn.next = some 1) ∧
    dpl_insert_sorted_nodes sensor_compare example_registry_nodes (fresh_entry 1 30) = none ∧
    dpl_insert_sorted sensor_compare [fresh_entry 1 10, fresh_entry 2 20] (fresh_entry 1 30)
      = none ∧
    datamgr_load [(1, 10), (2, 20), (1, 30)] = none :=
  ⟨example_registry_nodes_wf, rfl, rfl, ⟨_, rfl, rfl, rfl⟩, rfl, rfl, rfl⟩

/-- C24. For a three-way comparison function of a total preorder (`cmp a b > 0`
exactly when `cmp b a < 0`, and `cmp a b ≤ 0` transitive), a well-formed list
whose elements are in non-decreasing order, and an element for which
`dpl_insert_sorted` completes: the nodes again form a well-formed list (the
`next` chain from the head and the `prev` pointers mirror each other), which
is the old list with the one new node linked in at a position `k`; its
elements are the old elements with the new one at position `k`, one more than
before, in non-decreasing order. -/
theorem dpl_insert_sorted_keeps_sorted {α : Type} (cmp : α → α → Int) (l l1 : dplist_t α)
    (ids : List Nat) (xs : List α) (e : α)
    (hsym : ∀ a b, cmp a b > 0 ↔ cmp b a < 0)
    (htrans : ∀ a b c, cmp a b ≤ 0 → cmp b c ≤ 0 → cmp a c ≤ 0)
    (h : dplist_wf l ids xs) (hs : xs.Pairwise (fun a b => cmp a b ≤ 0))
    (hc : dpl_insert_sorted_nodes cmp l e = some l1) :
    ∃ k, k ≤ xs.length ∧
      dplist_wf l1 (ids.take k ++ l.brk :: ids.drop k) (xs.take k ++ e :: xs.drop k) ∧
      (xs.take k ++ e :: xs.drop k).Pairwise (fun a b => cmp a b ≤ 0) ∧
      (xs.take k ++ e :: xs.drop k).length = xs.length + 1 ∧
      (ids.take k ++ l.brk :: ids.drop k).length = ids.length + 1 := by
  obtain ⟨_, _, _, hlen⟩ := dplist_wf_fresh l ids xs h
  obtain ⟨hnone, hsome⟩ := dpl_insert_sorted_nodes_spec cmp l ids xs e h
  match hl : dpl_insert_sorted cmp xs e with
  | none =>
    rw [hnone hl] at hc
    exact absurd hc (by simp)
  | some ys =>
    obtain ⟨l2, k, h1, hk, hys, hwf, _⟩ := hsome ys hl
    rw [hc] at h1
    cases h1
    have hsorted := dpl_insert_sorted_pairwise cmp xs e ys hl
      (by
        intro a _ ha
        by_contra hn
        have h1 : cmp a e > 0 := by omega
        have h2 := (hsym a e).mp h1
        omega)
      (fun a _ b _ h1 h2 => htrans e a b h1 h2) hs
    rw [hys] at hwf hsorted
    refine ⟨k, by omega, hwf, hsorted, ?_, ?_⟩
    · simp only [List.length_append, List.length_cons, List.length_take, List.length_drop]
      omega
    · simp only [List.length_append, List.length_cons, List.length_take, List.length_drop]
      omega

/-- Instance of C24: the number 2 is inserted into the list of the nodes 1, 3. -/
theorem dpl_insert_sorted_keeps_sorted_witness :
    (∀ a b, example_compare a b > 0 ↔ example_compare b a < 0) ∧
    (∀ a b c, example_compare a b ≤ 0 → example_compare b c ≤ 0 → example_compare a c ≤ 0) ∧
    dplist_wf example_nodes [0, 1] [1, 3] ∧
    List.Pairwise (fun a b => example_compare a b ≤ 0) [1, 3] ∧
    ∃ l1, dpl_insert_sorted_nodes example_compare example_nodes 2 = some l1 ∧
      l1.cell 2 = some ⟨some 0, some 1, 2⟩ ∧
      ∃ k, k ≤ [1, 3].length ∧
        dplist_wf l1 (List.take k [0, 1] ++ example_nodes.brk :: List.drop k [0, 1])
          (List.take k [1, 3] ++ 2 :: List.drop k [1, 3]) ∧
        (List.take k [1, 3] ++ 2 :: List.drop k [1, 3]).Pairwise
          (fun a b => example_compare a b ≤ 0) ∧
        (List.take k [1, 3] ++ 2 :: List.drop k [1, 3]).length = [1, 3].length + 1 ∧
        (List.take k [0, 1] ++ example_nodes.brk :: List.drop k [0, 1]).length
          = [0, 1].length + 1 := by
  have hsym : ∀ a b, example_compare a b > 0 ↔ example_compare b a < 0 := by
    intro a b
    unfold example_compare
    constructor <;> intro h <;> omega
  have htrans : ∀ a b c, example_compare a b ≤ 0 → example_compare b c ≤ 0 →
      example_compare a c ≤ 0 := by
    intro a b c h1 h2
    unfold example_compare at *
    omega
  have hs : List.Pairwise (fun a b => example_compare a b ≤ 0) [1, 3] := by
    simp [example_compare]
  have hev : ∃ l1, dpl_insert_sorted_nodes example_compare example_nodes 2 = some l1 ∧
      l1.cell 2 = some ⟨some 0, some 1, 2⟩ := ⟨_, rfl, rfl⟩
  obtain ⟨l1, hl1, hcell⟩ := hev
  exact ⟨hsym, htrans, example_nodes_wf, hs, l1, hl1, hcell,
    dpl_insert_sorted_keeps_sorted example_compare example_nodes l1 [0, 1] [1, 3] 2 hsym htrans
      example_nodes_wf hs hl1⟩

end HVAC
